import Mathlib

/-!
Verification of the rpged document model (`src/model.hpp`, `src/model.cpp`,
`src/convert.cpp`): geometry/grid/selection layers, the inverse-generating
undo command system, the binary project serializer, the PNG→CHR codec and
the metatile counter.

The geometry primitives (`coord_t`, `dimen_t`, `rect_t`, `rect_range`,
`crop`, `grow_rect_to_contain`) and `grid_t` live in the `2d/` library that
is not part of the provided sources; those definitions are modelled from
the specification.  Everything else is translated directly from the C++
sources.
-/

set_option maxRecDepth 40000
set_option linter.unusedSectionVars false
set_option linter.unusedVariables false

namespace Rpged

/-- Modelled from the spec: `i2d::coord_t`, a signed integer 2D coordinate. -/
structure coord_t where
  x : Int
  y : Int
  deriving DecidableEq, Repr

/-- Modelled from the spec: `i2d::dimen_t`, a 2D size (non-negative). -/
structure dimen_t where
  w : Nat
  h : Nat
  deriving DecidableEq, Repr

/-- Modelled from the spec: `i2d::rect_t`, a corner plus a size; it is
"empty" when either extent is zero. -/
structure rect_t where
  c : coord_t
  d : dimen_t
  deriving DecidableEq, Repr

/-- Modelled from the spec: the canonical empty rectangle `rect_t{}`. -/
def emptyRect : rect_t := ⟨⟨0, 0⟩, ⟨0, 0⟩⟩

/-- Modelled from the spec: `(bool)rect`, true iff both extents are positive. -/
def rectPos (r : rect_t) : Prop := 0 < r.d.w ∧ 0 < r.d.h

instance (r : rect_t) : Decidable (rectPos r) := by unfold rectPos; infer_instance

/-- Modelled from the spec: `in_bounds(c, d)`, membership of a coordinate in
`[0,w) × [0,h)`. -/
def inBounds (c : coord_t) (d : dimen_t) : Prop :=
  0 ≤ c.x ∧ c.x < (d.w : Int) ∧ 0 ≤ c.y ∧ c.y < (d.h : Int)

instance (c : coord_t) (d : dimen_t) : Decidable (inBounds c d) := by
  unfold inBounds; infer_instance

/-- Modelled from the spec: membership of a coordinate in a rectangle. -/
def inRect (c : coord_t) (r : rect_t) : Prop :=
  r.c.x ≤ c.x ∧ c.x < r.c.x + r.d.w ∧ r.c.y ≤ c.y ∧ c.y < r.c.y + r.d.h

instance (c : coord_t) (r : rect_t) : Decidable (inRect c r) := by
  unfold inRect; infer_instance

/-- Modelled from the spec: `rect_range(r)`, all coordinates of `r` in raster
(row-major) order. -/
def rectRange (r : rect_t) : List coord_t :=
  (List.range r.d.h).flatMap fun (dy : Nat) =>
    (List.range r.d.w).map fun (dx : Nat) => ⟨r.c.x + (dx : Int), r.c.y + (dy : Int)⟩

/-- Modelled from the spec: `to_rect(d)`. -/
def toRect (d : dimen_t) : rect_t := ⟨⟨0, 0⟩, d⟩

/-- Modelled from the spec: `dimen_range(d)`. -/
def dimenRange (d : dimen_t) : List coord_t := rectRange (toRect d)

/-- Modelled from the spec: `to_coord(d)`. -/
def toCoord (d : dimen_t) : coord_t := ⟨d.w, d.h⟩

/-- Modelled from the spec: `rect_from_2_coords(a, b)` with `a` the minimal
and `b` the maximal corner. -/
def rectFrom2Coords (a b : coord_t) : rect_t :=
  ⟨a, ⟨(b.x - a.x + 1).toNat, (b.y - a.y + 1).toNat⟩⟩

/-- Modelled from the spec: `crop(r, d)`, the intersection of `r` with
`[0,w) × [0,h)`; the canonical empty rectangle when the intersection is
degenerate. -/
def crop (r : rect_t) (d : dimen_t) : rect_t :=
  if max r.c.x 0 < min (r.c.x + r.d.w) (d.w : Int) ∧
     max r.c.y 0 < min (r.c.y + r.d.h) (d.h : Int) then
    ⟨⟨max r.c.x 0, max r.c.y 0⟩,
     ⟨(min (r.c.x + r.d.w) (d.w : Int) - max r.c.x 0).toNat,
      (min (r.c.y + r.d.h) (d.h : Int) - max r.c.y 0).toNat⟩⟩
  else emptyRect

/-- Modelled from the spec: `grow_rect_to_contain(r, c)`: the minimal
rectangle containing `r` and the cell `c`; the 1×1 rectangle at `c` when `r`
is empty. -/
def growRectCoord (r : rect_t) (c : coord_t) : rect_t :=
  if rectPos r then
    rectFrom2Coords ⟨min r.c.x c.x, min r.c.y c.y⟩
      ⟨max (r.c.x + r.d.w - 1) c.x, max (r.c.y + r.d.h - 1) c.y⟩
  else ⟨c, ⟨1, 1⟩⟩

/-- Modelled from the spec: `grow_rect_to_contain(r, r2)`: the minimal
rectangle containing both, treating an empty argument as absent. -/
def growRectRect (r r2 : rect_t) : rect_t :=
  if rectPos r then
    if rectPos r2 then
      rectFrom2Coords ⟨min r.c.x r2.c.x, min r.c.y r2.c.y⟩
        ⟨max (r.c.x + r.d.w - 1) (r2.c.x + r2.d.w - 1),
         max (r.c.y + r.d.h - 1) (r2.c.y + r2.d.h - 1)⟩
    else r
  else r2

theorem mem_rectRange {r : rect_t} {c : coord_t} : c ∈ rectRange r ↔ inRect c r := by
  unfold rectRange inRect
  simp only [List.mem_flatMap, List.mem_map, List.mem_range]
  constructor
  · rintro ⟨dy, hdy, dx, hdx, heq⟩
    have hx : c.x = r.c.x + dx := by rw [← heq]
    have hy : c.y = r.c.y + dy := by rw [← heq]
    refine ⟨?_, ?_, ?_, ?_⟩ <;> omega
  · rintro ⟨h1, h2, h3, h4⟩
    refine ⟨(c.y - r.c.y).toNat, by omega, (c.x - r.c.x).toNat, by omega, ?_⟩
    cases c with
    | mk cx cy =>
      dsimp at h1 h2 h3 h4 ⊢
      rw [coord_t.mk.injEq]
      constructor <;> omega

theorem rectRange_length (r : rect_t) : (rectRange r).length = r.d.h * r.d.w := by
  unfold rectRange
  rw [List.length_flatMap]
  simp [Function.comp_def]

theorem mem_dimenRange {d : dimen_t} {c : coord_t} : c ∈ dimenRange d ↔ inBounds c d := by
  unfold dimenRange
  rw [mem_rectRange]
  unfold inRect inBounds toRect
  dsimp
  omega

theorem rectRange_nil {r : rect_t} (h : ¬ rectPos r) : rectRange r = [] := by
  unfold rectPos at h
  push_neg at h
  unfold rectRange
  rcases Nat.eq_zero_or_pos r.d.h with hh | hh
  · rw [hh]
    rfl
  · have hw : r.d.w = 0 := by omega
    rw [hw]
    simp

theorem crop_pos_dims {r : rect_t} {d : dimen_t} (h : rectPos (crop r d)) :
    0 < d.w ∧ 0 < d.h := by
  unfold crop at h
  split at h
  · rename_i hc
    omega
  · exact absurd h (by unfold rectPos emptyRect; dsimp; omega)

theorem inRect_crop_inBounds {r : rect_t} {d : dimen_t} {u : coord_t}
    (hu : inRect u (crop r d)) : inBounds u d := by
  unfold crop at hu
  split at hu
  · rename_i hc
    unfold inRect at hu
    dsimp at hu
    unfold inBounds
    omega
  · unfold inRect emptyRect at hu
    dsimp at hu
    omega

theorem crop_of_inside {r : rect_t} {d : dimen_t} (hp : rectPos r)
    (h1 : 0 ≤ r.c.x) (h2 : r.c.x + r.d.w ≤ (d.w : Int))
    (h3 : 0 ≤ r.c.y) (h4 : r.c.y + r.d.h ≤ (d.h : Int)) : crop r d = r := by
  unfold crop
  rw [if_pos (by unfold rectPos at hp; omega)]
  cases r with
  | mk c dm =>
    cases c; cases dm
    dsimp at h1 h2 h3 h4 ⊢
    unfold rectPos at hp
    dsimp at hp
    rw [rect_t.mk.injEq, coord_t.mk.injEq, dimen_t.mk.injEq]
    refine ⟨⟨by omega, by omega⟩, by omega, by omega⟩

theorem from2coords_single (c : coord_t) : rectFrom2Coords c c = ⟨c, ⟨1, 1⟩⟩ := by
  unfold rectFrom2Coords
  rw [rect_t.mk.injEq, dimen_t.mk.injEq]
  refine ⟨rfl, by omega, by omega⟩

theorem rect_as_from2coords {r : rect_t} (h : rectPos r) :
    r = rectFrom2Coords r.c ⟨r.c.x + r.d.w - 1, r.c.y + r.d.h - 1⟩ := by
  unfold rectPos at h
  unfold rectFrom2Coords
  cases r with
  | mk c dm =>
    cases dm
    dsimp at h ⊢
    rw [rect_t.mk.injEq, dimen_t.mk.injEq]
    refine ⟨rfl, by omega, by omega⟩

theorem growRectCoord_bnd {mn mx c : coord_t} (hx : mn.x ≤ mx.x) (hy : mn.y ≤ mx.y) :
    growRectCoord (rectFrom2Coords mn mx) c =
      rectFrom2Coords ⟨min mn.x c.x, min mn.y c.y⟩ ⟨max mx.x c.x, max mx.y c.y⟩ := by
  unfold growRectCoord
  rw [if_pos (by unfold rectPos rectFrom2Coords; dsimp; omega)]
  unfold rectFrom2Coords
  dsimp
  rw [rect_t.mk.injEq, coord_t.mk.injEq, dimen_t.mk.injEq]
  refine ⟨⟨rfl, rfl⟩, by omega, by omega⟩

theorem growRectCoord_empty {r : rect_t} (h : ¬ rectPos r) (c : coord_t) :
    growRectCoord r c = rectFrom2Coords c c := by
  unfold growRectCoord
  rw [if_neg h, from2coords_single]

theorem growRectRect_bnd {mn mx : coord_t} {rc : rect_t}
    (hx : mn.x ≤ mx.x) (hy : mn.y ≤ mx.y) (hrc : rectPos rc) :
    growRectRect (rectFrom2Coords mn mx) rc =
      rectFrom2Coords ⟨min mn.x rc.c.x, min mn.y rc.c.y⟩
        ⟨max mx.x (rc.c.x + rc.d.w - 1), max mx.y (rc.c.y + rc.d.h - 1)⟩ := by
  unfold growRectRect
  rw [if_pos (by unfold rectPos rectFrom2Coords; dsimp; omega), if_pos hrc]
  unfold rectFrom2Coords
  dsimp
  rw [rect_t.mk.injEq, coord_t.mk.injEq, dimen_t.mk.injEq]
  refine ⟨⟨rfl, rfl⟩, by omega, by omega⟩

theorem growRectRect_empty {r rc : rect_t} (h : ¬ rectPos r) :
    growRectRect r rc = rc := by
  unfold growRectRect
  rw [if_neg h]

/-! ### Generic sequential-write machinery

`writeSeq` models a C++ loop writing values at flat indices into a vector;
`lastWrite` describes the final value observed at one index. -/

def writeSeq {β : Type} (ps : List (Nat × β)) (l : List β) : List β :=
  ps.foldl (fun acc p => acc.set p.1 p.2) l

def lastWrite {β : Type} (ps : List (Nat × β)) (j : Nat) (d : β) : β :=
  ps.foldl (fun acc p => if p.1 = j then p.2 else acc) d

theorem writeSeq_length {β : Type} (ps : List (Nat × β)) (l : List β) :
    (writeSeq ps l).length = l.length := by
  induction ps generalizing l with
  | nil => rfl
  | cons p ps ih =>
    simp only [writeSeq, List.foldl_cons] at ih ⊢
    rw [ih, List.length_set]

theorem lastWrite_cons {β : Type} (p : Nat × β) (ps : List (Nat × β)) (j : Nat) (d : β) :
    lastWrite (p :: ps) j d = lastWrite ps j (if p.1 = j then p.2 else d) := rfl

theorem lastWrite_not_mem {β : Type} {ps : List (Nat × β)} {j : Nat} (d : β)
    (h : j ∉ ps.map Prod.fst) : lastWrite ps j d = d := by
  induction ps generalizing d with
  | nil => rfl
  | cons p ps ih =>
    simp only [List.map_cons, List.mem_cons] at h
    rw [lastWrite_cons, if_neg (by intro hc; exact h (Or.inl hc.symm))]
    exact ih d (fun hc => h (Or.inr hc))

theorem lastWrite_const {β : Type} {ps : List (Nat × β)} {j : Nat} {w : β}
    (hall : ∀ p ∈ ps, p.1 = j → p.2 = w) (hmem : j ∈ ps.map Prod.fst) (d : β) :
    lastWrite ps j d = w := by
  induction ps generalizing d with
  | nil => simp at hmem
  | cons p ps ih =>
    rw [lastWrite_cons]
    by_cases hj : j ∈ ps.map Prod.fst
    · exact ih (fun q hq => hall q (List.mem_cons_of_mem _ hq)) hj _
    · simp only [List.map_cons, List.mem_cons] at hmem
      have hpj : p.1 = j := by
        rcases hmem with h | h
        · exact h.symm
        · exact absurd h hj
      rw [if_pos hpj, lastWrite_not_mem _ hj]
      exact hall p (List.mem_cons_self _ _) hpj

theorem writeSeq_getD {β : Type} (ps : List (Nat × β)) (l : List β) (j : Nat) (d : β)
    (hj : j < l.length) :
    (writeSeq ps l).getD j d = lastWrite ps j (l.getD j d) := by
  induction ps generalizing l with
  | nil => rfl
  | cons p ps ih =>
    simp only [writeSeq, List.foldl_cons] at ih ⊢
    rw [ih _ (by simpa using hj), lastWrite_cons]
    congr 1
    by_cases hpj : p.1 = j
    · subst hpj
      rw [if_pos rfl]
      rw [List.getD_eq_getElem _ _ (by simpa using hj), List.getElem_set_self]
    · rw [if_neg hpj, List.getD_eq_getElem _ _ (by simpa using hj),
        List.getD_eq_getElem _ _ hj, List.getElem_set_ne (by omega)]

theorem snd_of_mem_zip_map {β : Type} {f : Nat → β} :
    ∀ {is : List Nat} {p : Nat × β}, p ∈ is.zip (is.map f) → p.2 = f p.1
  | [], p, h => by simp at h
  | i :: is, p, h => by
    rw [List.map_cons, List.zip_cons_cons, List.mem_cons] at h
    rcases h with rfl | h
    · rfl
    · exact snd_of_mem_zip_map h

theorem mem_of_mem_map_fst_zip {β : Type} {is : List Nat} {vs : List β} {j : Nat}
    (h : j ∈ (is.zip vs).map Prod.fst) : j ∈ is := by
  rw [List.mem_map] at h
  obtain ⟨p, hp, rfl⟩ := h
  exact (List.of_mem_zip hp).1

theorem mem_map_fst_zip_self {β : Type} {is : List Nat} {j : Nat} (f : Nat → β)
    (h : j ∈ is) : j ∈ (is.zip (is.map f)).map Prod.fst := by
  rw [List.map_fst_zip _ _ (by rw [List.length_map])]
  exact h

/-- Writing back the previously read values at a list of indices undoes any
sequence of writes at (a prefix of) those indices. -/
theorem writeSeq_writeback {β : Type} (is : List Nat) (ts : List β) (l : List β) (d : β) :
    writeSeq (is.zip (is.map fun i => l.getD i d)) (writeSeq (is.zip ts) l) = l := by
  apply List.ext_getElem
  · rw [writeSeq_length, writeSeq_length]
  · intro j h1 h2
    rw [← List.getD_eq_getElem _ d h1, ← List.getD_eq_getElem _ d h2]
    rw [writeSeq_getD _ _ _ _ (by rw [writeSeq_length]; exact h2)]
    rw [writeSeq_getD _ _ _ _ h2]
    by_cases hj : j ∈ is
    · refine lastWrite_const ?_ (mem_map_fst_zip_self _ hj) _
      intro p hp hpj
      rw [snd_of_mem_zip_map hp, hpj]
    · rw [lastWrite_not_mem _ (fun hc => hj (mem_of_mem_map_fst_zip hc)),
        lastWrite_not_mem _ (fun hc => hj (mem_of_mem_map_fst_zip hc))]

/-! ### `grid_t` -/

/-- Modelled from the spec: `grid_t<T>`, a dense row-major 2D store.  The
range-for iteration over a grid visits `data` in raster order. -/
structure grid_t (α : Type) where
  w : Nat
  h : Nat
  data : List α
  deriving DecidableEq, Repr

namespace grid_t

variable {α : Type} [Inhabited α]

/-- The grid's dimension. -/
def dimen (g : grid_t α) : dimen_t := ⟨g.w, g.h⟩

/-- Row-major flat index of a coordinate. -/
def flatIdx (g : grid_t α) (c : coord_t) : Nat := (c.x + c.y * g.w).toNat

/-- Modelled from the spec: bounds-checked element read (`grid.at(c)`); the
sources only call it in bounds, out-of-bounds reads are modelled as the
default element. -/
def get (g : grid_t α) (c : coord_t) : α :=
  if inBounds c g.dimen then g.data.getD (g.flatIdx c) default else default

/-- Modelled from the spec: bounds-checked element write (`grid.at(c) = v`). -/
def set (g : grid_t α) (c : coord_t) (v : α) : grid_t α :=
  if inBounds c g.dimen then { g with data := g.data.set (g.flatIdx c) v } else g

/-- Modelled from the spec: `grid.fill(v)`. -/
def fill (g : grid_t α) (v : α) : grid_t α := ⟨g.w, g.h, List.replicate (g.h * g.w) v⟩

/-- Modelled from the spec: `grid.resize(d)` keeps overlapping cells and
default-fills new ones; cell `k` of the raster-order store is the cell at
coordinate `(k mod w, k div w)`. -/
def resize (g : grid_t α) (d : dimen_t) : grid_t α :=
  ⟨d.w, d.h, (List.range (d.h * d.w)).map fun k =>
    g.get ⟨((k % d.w : Nat) : Int), ((k / d.w : Nat) : Int)⟩⟩

/-- The stored data has exactly `h * w` elements. -/
def wf (g : grid_t α) : Prop := g.data.length = g.h * g.w

instance (g : grid_t α) : Decidable g.wf := by unfold wf; infer_instance

theorem flatIdx_lt {g : grid_t α} {c : coord_t} (h : inBounds c g.dimen) :
    g.flatIdx c < g.h * g.w := by
  have h1 : 0 ≤ c.x := h.1
  have h2 : c.x < (g.w : Int) := h.2.1
  have h3 : 0 ≤ c.y := h.2.2.1
  have h4 : c.y < (g.h : Int) := h.2.2.2
  unfold flatIdx
  have hcy : ((c.y.toNat : Int)) = c.y := by omega
  have hmul : c.y * (g.w : Int) = ((c.y.toNat * g.w : Nat) : Int) := by
    rw [Int.natCast_mul, hcy]
  have hrw : (c.x + c.y * (g.w : Int)).toNat = c.x.toNat + c.y.toNat * g.w := by omega
  rw [hrw]
  calc c.x.toNat + c.y.toNat * g.w < g.w + c.y.toNat * g.w := by omega
    _ = (c.y.toNat + 1) * g.w := by ring
    _ ≤ g.h * g.w := Nat.mul_le_mul_right _ (by omega)

theorem flatIdx_inj {g : grid_t α} {c c' : coord_t}
    (h : inBounds c g.dimen) (h' : inBounds c' g.dimen)
    (he : g.flatIdx c = g.flatIdx c') : c = c' := by
  have h1 : 0 ≤ c.x := h.1
  have h2 : c.x < (g.w : Int) := h.2.1
  have h3 : 0 ≤ c.y := h.2.2.1
  have h1' : 0 ≤ c'.x := h'.1
  have h2' : c'.x < (g.w : Int) := h'.2.1
  have h3' : 0 ≤ c'.y := h'.2.2.1
  unfold flatIdx at he
  have hnn : 0 ≤ c.y * (g.w : Int) := mul_nonneg h3 (by omega)
  have hnn' : 0 ≤ c'.y * (g.w : Int) := mul_nonneg h3' (by omega)
  have heq : c.x + c.y * (g.w : Int) = c'.x + c'.y * g.w := by omega
  have hy : c.y = c'.y := by
    rcases lt_trichotomy c.y c'.y with hlt | heqy | hgt
    · exfalso
      have hcontra : c.x + c.y * (g.w : Int) < c'.x + c'.y * g.w := by
        calc c.x + c.y * (g.w : Int) < g.w + c.y * g.w := by omega
          _ = (c.y + 1) * g.w := by ring
          _ ≤ c'.y * g.w := mul_le_mul_of_nonneg_right (by omega) (by omega)
          _ ≤ c'.x + c'.y * g.w := by omega
      omega
    · exact heqy
    · exfalso
      have hcontra : c'.x + c'.y * (g.w : Int) < c.x + c.y * g.w := by
        calc c'.x + c'.y * (g.w : Int) < g.w + c'.y * g.w := by omega
          _ = (c'.y + 1) * g.w := by ring
          _ ≤ c.y * g.w := mul_le_mul_of_nonneg_right (by omega) (by omega)
          _ ≤ c.x + c.y * g.w := by omega
      omega
  have hx : c.x = c'.x := by
    rw [hy] at heq
    omega
  cases c; cases c'
  simp only at hx hy
  rw [hx, hy]

theorem set_dimen (g : grid_t α) (c : coord_t) (v : α) : (g.set c v).dimen = g.dimen := by
  unfold set
  split <;> rfl

theorem set_wf {g : grid_t α} (c : coord_t) (v : α) (h : g.wf) : (g.set c v).wf := by
  unfold set
  split
  · unfold wf at h ⊢
    dsimp
    rw [List.length_set]
    exact h
  · exact h

theorem set_data {g : grid_t α} {c : coord_t} (v : α) (hc : inBounds c g.dimen) :
    (g.set c v).data = g.data.set (g.flatIdx c) v := by
  unfold set
  rw [if_pos hc]

theorem get_set (g : grid_t α) (c : coord_t) (v : α) (hwf : g.wf)
    (hc : inBounds c g.dimen) (u : coord_t) :
    (g.set c v).get u = if u = c then v else g.get u := by
  have hdim : (g.set c v).dimen = g.dimen := set_dimen g c v
  have hdata : (g.set c v).data = g.data.set (g.flatIdx c) v := set_data v hc
  have hfi : (g.set c v).flatIdx u = g.flatIdx u := by
    unfold set
    rw [if_pos hc]
    rfl
  by_cases hu : inBounds u g.dimen
  · by_cases huc : u = c
    · subst huc
      rw [if_pos rfl]
      unfold get
      rw [hdim, if_pos hu, hdata, hfi]
      rw [List.getD_eq_getElem _ _ (by rw [List.length_set, hwf]; exact flatIdx_lt hu),
        List.getElem_set_self]
    · rw [if_neg huc]
      unfold get
      rw [hdim, if_pos hu, if_pos hu, hdata, hfi]
      have hne : g.flatIdx c ≠ g.flatIdx u := fun hc' => huc (flatIdx_inj hu hc hc'.symm)
      by_cases hlen : g.flatIdx u < g.data.length
      · rw [List.getD_eq_getElem _ _ (by rw [List.length_set]; exact hlen),
          List.getD_eq_getElem _ _ hlen, List.getElem_set_ne hne]
      · rw [List.getD_eq_default _ _ (by rw [List.length_set]; omega),
          List.getD_eq_default _ _ (by omega)]
  · have huc : u ≠ c := fun h => (h ▸ hu) hc
    rw [if_neg huc]
    unfold get
    rw [hdim, if_neg hu, if_neg hu]

theorem get_oob {g : grid_t α} {u : coord_t} (h : ¬ inBounds u g.dimen) : g.get u = default := by
  unfold get
  rw [if_neg h]

theorem fill_get (g : grid_t α) (v : α) (u : coord_t) :
    (g.fill v).get u = if inBounds u g.dimen then v else default := by
  unfold get fill dimen
  dsimp
  by_cases hu : inBounds u (⟨g.w, g.h⟩ : dimen_t)
  · rw [if_pos hu, if_pos hu, List.getD_eq_getElem, List.getElem_replicate]
    rw [List.length_replicate]
    exact flatIdx_lt (g := ⟨g.w, g.h, g.data⟩) hu
  · rw [if_neg hu, if_neg hu]

theorem fill_wf (g : grid_t α) (v : α) : (g.fill v).wf := by
  unfold fill wf
  simp

theorem resize_wf (g : grid_t α) (d : dimen_t) : (g.resize d).wf := by
  unfold resize wf
  dsimp
  rw [List.length_map, List.length_range]

theorem resize_dimen (g : grid_t α) (d : dimen_t) : (g.resize d).dimen = d := rfl

theorem resize_get (g : grid_t α) (d : dimen_t) (u : coord_t) (hu : inBounds u d) :
    (g.resize d).get u = g.get u := by
  have h1 : 0 ≤ u.x := hu.1
  have h2 : u.x < (d.w : Int) := hu.2.1
  have h3 : 0 ≤ u.y := hu.2.2.1
  have h4 : u.y < (d.h : Int) := hu.2.2.2
  have hw : 0 < d.w := by omega
  have hdim : (g.resize d).dimen = d := resize_dimen g d
  have hfi : (g.resize d).flatIdx u = u.x.toNat + u.y.toNat * d.w := by
    unfold resize flatIdx
    dsimp
    have hcy : ((u.y.toNat : Int)) = u.y := by omega
    have hmul : u.y * (d.w : Int) = ((u.y.toNat * d.w : Nat) : Int) := by
      rw [Int.natCast_mul, hcy]
    omega
  have hlt : u.x.toNat + u.y.toNat * d.w < d.h * d.w := by
    calc u.x.toNat + u.y.toNat * d.w < d.w + u.y.toNat * d.w := by omega
      _ = (u.y.toNat + 1) * d.w := by ring
      _ ≤ d.h * d.w := Nat.mul_le_mul_right _ (by omega)
  have hdata : (g.resize d).data = (List.range (d.h * d.w)).map fun k =>
      g.get ⟨((k % d.w : Nat) : Int), ((k / d.w : Nat) : Int)⟩ := rfl
  unfold get
  rw [hdim, if_pos hu, hdata, hfi]
  rw [List.getD_eq_getElem _ _ (by rw [List.length_map, List.length_range]; exact hlt)]
  rw [List.getElem_map, List.getElem_range]
  have hx : (u.x.toNat + u.y.toNat * d.w) % d.w = u.x.toNat := by
    rw [Nat.add_mul_mod_self_right, Nat.mod_eq_of_lt (by omega)]
  have hy : (u.x.toNat + u.y.toNat * d.w) / d.w = u.y.toNat := by
    rw [Nat.add_mul_div_right _ _ hw, Nat.div_eq_of_lt (by omega), Nat.zero_add]
  rw [hx, hy]
  congr 1
  cases u with
  | mk ux uy =>
    dsimp at h1 h3 ⊢
    rw [coord_t.mk.injEq]
    constructor <;> omega

end grid_t

/-! ### `select_map_t` (src/model.hpp 124-159, src/model.cpp 67-161) -/

structure select_map_t where
  m_selection : grid_t Bool
  m_select_rect : rect_t
  deriving DecidableEq, Repr

namespace select_map_t

def dimen (s : select_map_t) : dimen_t := s.m_selection.dimen

/-- `select_map_t::select_all` (model.cpp:67). -/
def select_all (s : select_map_t) (b : Bool) : select_map_t :=
  { m_selection := s.m_selection.fill b
    m_select_rect := if b then toRect s.dimen else emptyRect }

/-- The conditional min/max scan shared by `recalc_select_rect` and
`select_invert`: tighten `mn`/`mx` at every selected cell visited. -/
def scanFold (sel : grid_t Bool) (cs : List coord_t) (p : coord_t × coord_t) :
    coord_t × coord_t :=
  cs.foldl (fun p c =>
    if sel.get c then
      (⟨min p.1.x c.x, min p.1.y c.y⟩, ⟨max p.2.x c.x, max p.2.y c.y⟩)
    else p) p

/-- `select_map_t::recalc_select_rect` (model.cpp:141): min/max scan over
`range`, `min` seeded at `to_coord(dimen())` and `max` at the origin. -/
def recalc_select_rect (sel : grid_t Bool) (range : rect_t) : rect_t :=
  let p := scanFold sel (rectRange range) (toCoord sel.dimen, ⟨0, 0⟩)
  if p.1.x ≤ p.2.x ∧ p.1.y ≤ p.2.y then rectFrom2Coords p.1 p.2 else emptyRect

/-- `select_map_t::select_invert` (model.cpp:76): toggle every cell, scanning
min/max over the toggled grid, `min` seeded at `INT_MAX`. -/
def select_invert (s : select_map_t) : select_map_t :=
  let sel : grid_t Bool := { s.m_selection with data := s.m_selection.data.map (fun b => !b) }
  let p := scanFold sel (dimenRange sel.dimen) (⟨2147483647, 2147483647⟩, ⟨0, 0⟩)
  { m_selection := sel
    m_select_rect :=
      if p.1.x > p.2.x ∨ p.1.y > p.2.y then emptyRect else rectFrom2Coords p.1 p.2 }

/-- `select_map_t::select(coord_t, bool)` (model.cpp:108). -/
def select_coord (s : select_map_t) (c : coord_t) (b : Bool) : select_map_t :=
  if inBounds c s.dimen then
    let sel := s.m_selection.set c b
    { m_selection := sel
      m_select_rect :=
        if b then growRectCoord s.m_select_rect c
        else recalc_select_rect sel s.m_select_rect }
  else s

/-- `select_map_t::select(rect_t, bool)` (model.cpp:119). -/
def select_rect (s : select_map_t) (r : rect_t) (b : Bool) : select_map_t :=
  let rc := crop r s.dimen
  if rectPos rc then
    let sel := (rectRange rc).foldl (fun g c => g.set c b) s.m_selection
    { m_selection := sel
      m_select_rect :=
        if b then growRectRect s.m_select_rect rc
        else recalc_select_rect sel s.m_select_rect }
  else s

/-- `select_map_t::resize` (model.cpp:135). -/
def resize (s : select_map_t) (d : dimen_t) : select_map_t :=
  let sel := s.m_selection.resize d
  { m_selection := sel, m_select_rect := recalc_select_rect sel (toRect d) }

/-- A default-constructed `select_map_t`. -/
def mk0 : select_map_t := ⟨⟨0, 0, []⟩, emptyRect⟩

/-- The `select_map_t(dimen_t)` constructor resizes a default-constructed map. -/
def init (d : dimen_t) : select_map_t := mk0.resize d

/-- All selected cells of a boolean grid, in raster order. -/
def selCellsG (g : grid_t Bool) : List coord_t :=
  (dimenRange g.dimen).filter fun c => g.get c

/-- All currently selected cells, in raster order. -/
def selCells (s : select_map_t) : List coord_t := selCellsG s.m_selection

/-- `mn`/`mx` are the componentwise min/max corners of the cell set `cs`. -/
def IsBnd (cs : List coord_t) (mn mx : coord_t) : Prop :=
  (∀ c ∈ cs, mn.x ≤ c.x ∧ mn.y ≤ c.y ∧ c.x ≤ mx.x ∧ c.y ≤ mx.y) ∧
  (∃ c ∈ cs, c.x = mn.x) ∧ (∃ c ∈ cs, c.y = mn.y) ∧
  (∃ c ∈ cs, c.x = mx.x) ∧ (∃ c ∈ cs, c.y = mx.y)

/-- The tightest rectangle containing a cell list, recomputed from scratch
(the empty list gives the empty rectangle). -/
def boundOf (cs : List coord_t) : rect_t :=
  match cs with
  | [] => emptyRect
  | c :: rest =>
    rectFrom2Coords
      ⟨(rest.map coord_t.x).foldl min c.x, (rest.map coord_t.y).foldl min c.y⟩
      ⟨(rest.map coord_t.x).foldl max c.x, (rest.map coord_t.y).foldl max c.y⟩

/-- The cached-rectangle invariant of the specification: the rectangle is
empty exactly when nothing is selected, and otherwise it is the tightest
rectangle containing every selected cell.  The dimension bounds record that
the grid extents fit in a C++ `int`. -/
def Inv (s : select_map_t) : Prop :=
  s.m_selection.wf ∧
  s.dimen.w ≤ 2147483647 ∧ s.dimen.h ≤ 2147483647 ∧
  (rectPos s.m_select_rect ↔ selCells s ≠ []) ∧
  (selCells s ≠ [] → s.m_select_rect = boundOf (selCells s))

instance (s : select_map_t) : Decidable s.Inv := by unfold Inv; infer_instance

theorem mem_selCellsG {g : grid_t Bool} {u : coord_t} :
    u ∈ selCellsG g ↔ g.get u = true := by
  unfold selCellsG
  rw [List.mem_filter, mem_dimenRange]
  constructor
  · rintro ⟨_, h⟩
    exact h
  · intro h
    refine ⟨?_, h⟩
    by_contra hb
    rw [grid_t.get_oob hb] at h
    exact Bool.false_ne_true h

theorem get_true_inBounds {g : grid_t Bool} {u : coord_t} (h : g.get u = true) :
    inBounds u g.dimen := by
  by_contra hb
  rw [grid_t.get_oob hb] at h
  exact Bool.false_ne_true h

/-! Fold characterizations for the min/max scans. -/

theorem foldl_min_le (xs : List Int) (a : Int) :
    xs.foldl min a ≤ a ∧ ∀ u ∈ xs, xs.foldl min a ≤ u := by
  induction xs generalizing a with
  | nil => exact ⟨le_refl a, by simp⟩
  | cons x xs ih =>
    rw [List.foldl_cons]
    obtain ⟨h1, h2⟩ := ih (min a x)
    refine ⟨le_trans h1 (min_le_left _ _), ?_⟩
    intro u hu
    rcases List.mem_cons.1 hu with rfl | hu
    · exact le_trans h1 (min_le_right _ _)
    · exact h2 u hu

theorem foldl_min_choice (xs : List Int) (a : Int) :
    xs.foldl min a = a ∨ xs.foldl min a ∈ xs := by
  induction xs generalizing a with
  | nil => exact Or.inl rfl
  | cons x xs ih =>
    rw [List.foldl_cons]
    rcases ih (min a x) with h | h
    · rcases min_cases a x with ⟨hm, _⟩ | ⟨hm, _⟩
      · exact Or.inl (h.trans hm)
      · right
        rw [h, hm]
        exact List.mem_cons_self _ _
    · exact Or.inr (List.mem_cons_of_mem _ h)

theorem foldl_max_ge (xs : List Int) (a : Int) :
    a ≤ xs.foldl max a ∧ ∀ u ∈ xs, u ≤ xs.foldl max a := by
  induction xs generalizing a with
  | nil => exact ⟨le_refl a, by simp⟩
  | cons x xs ih =>
    rw [List.foldl_cons]
    obtain ⟨h1, h2⟩ := ih (max a x)
    refine ⟨le_trans (le_max_left _ _) h1, ?_⟩
    intro u hu
    rcases List.mem_cons.1 hu with rfl | hu
    · exact le_trans (le_max_right _ _) h1
    · exact h2 u hu

theorem foldl_max_choice (xs : List Int) (a : Int) :
    xs.foldl max a = a ∨ xs.foldl max a ∈ xs := by
  induction xs generalizing a with
  | nil => exact Or.inl rfl
  | cons x xs ih =>
    rw [List.foldl_cons]
    rcases ih (max a x) with h | h
    · rcases max_cases a x with ⟨hm, _⟩ | ⟨hm, _⟩
      · exact Or.inl (h.trans hm)
      · right
        rw [h, hm]
        exact List.mem_cons_self _ _
    · exact Or.inr (List.mem_cons_of_mem _ h)

theorem IsBnd_unique {cs : List coord_t} {mn mx mn' mx' : coord_t}
    (h : IsBnd cs mn mx) (h' : IsBnd cs mn' mx') : mn = mn' ∧ mx = mx' := by
  obtain ⟨hb, ⟨a1, ha1, he1⟩, ⟨a2, ha2, he2⟩, ⟨a3, ha3, he3⟩, ⟨a4, ha4, he4⟩⟩ := h
  obtain ⟨hb', ⟨b1, hb1, hf1⟩, ⟨b2, hb2, hf2⟩, ⟨b3, hb3, hf3⟩, ⟨b4, hb4, hf4⟩⟩ := h'
  have e1 : mn.x = mn'.x := by
    have := (hb b1 hb1).1
    have := (hb' a1 ha1).1
    omega
  have e2 : mn.y = mn'.y := by
    have := (hb b2 hb2).2.1
    have := (hb' a2 ha2).2.1
    omega
  have e3 : mx.x = mx'.x := by
    have := (hb b3 hb3).2.2.1
    have := (hb' a3 ha3).2.2.1
    omega
  have e4 : mx.y = mx'.y := by
    have := (hb b4 hb4).2.2.2
    have := (hb' a4 ha4).2.2.2
    omega
  constructor
  · cases mn; cases mn'
    simp only at e1 e2
    rw [e1, e2]
  · cases mx; cases mx'
    simp only at e3 e4
    rw [e3, e4]

theorem IsBnd_congr {cs cs' : List coord_t} {mn mx : coord_t}
    (hm : ∀ c, c ∈ cs ↔ c ∈ cs') (h : IsBnd cs mn mx) : IsBnd cs' mn mx := by
  obtain ⟨hb, ⟨a1, ha1, he1⟩, ⟨a2, ha2, he2⟩, ⟨a3, ha3, he3⟩, ⟨a4, ha4, he4⟩⟩ := h
  exact ⟨fun c hc => hb c ((hm c).2 hc),
    ⟨a1, (hm a1).1 ha1, he1⟩, ⟨a2, (hm a2).1 ha2, he2⟩,
    ⟨a3, (hm a3).1 ha3, he3⟩, ⟨a4, (hm a4).1 ha4, he4⟩⟩

theorem IsBnd_nonempty {cs : List coord_t} {mn mx : coord_t} (h : IsBnd cs mn mx) :
    cs ≠ [] := by
  obtain ⟨_, ⟨a1, ha1, _⟩, _⟩ := h
  intro hc
  rw [hc] at ha1
  exact List.not_mem_nil _ ha1

theorem IsBnd_le {cs : List coord_t} {mn mx : coord_t} (h : IsBnd cs mn mx) :
    mn.x ≤ mx.x ∧ mn.y ≤ mx.y := by
  obtain ⟨hb, ⟨a1, ha1, he1⟩, ⟨a2, ha2, he2⟩, _⟩ := h
  have h1 := hb a1 ha1
  have h2 := hb a2 ha2
  omega

theorem IsBnd_inRect {cs : List coord_t} {mn mx : coord_t} (h : IsBnd cs mn mx)
    {u : coord_t} (hu : u ∈ cs) : inRect u (rectFrom2Coords mn mx) := by
  have hb := h.1 u hu
  have hle := IsBnd_le h
  unfold inRect rectFrom2Coords
  dsimp
  omega

theorem boundOf_spec {cs : List coord_t} (h : cs ≠ []) :
    ∃ mn mx, boundOf cs = rectFrom2Coords mn mx ∧ IsBnd cs mn mx := by
  match cs with
  | [] => exact absurd rfl h
  | c :: rest =>
    refine ⟨_, _, rfl, ?_⟩
    constructor
    · intro u hu
      rcases List.mem_cons.1 hu with rfl | hu
      · exact ⟨(foldl_min_le _ _).1, (foldl_min_le _ _).1,
          (foldl_max_ge _ _).1, (foldl_max_ge _ _).1⟩
      · exact ⟨(foldl_min_le _ _).2 _ (List.mem_map_of_mem _ hu),
          (foldl_min_le _ _).2 _ (List.mem_map_of_mem _ hu),
          (foldl_max_ge _ _).2 _ (List.mem_map_of_mem _ hu),
          (foldl_max_ge _ _).2 _ (List.mem_map_of_mem _ hu)⟩
    · refine ⟨?_, ?_, ?_, ?_⟩
      · rcases foldl_min_choice (rest.map coord_t.x) c.x with hch | hch
        · exact ⟨c, List.mem_cons_self _ _, hch.symm⟩
        · obtain ⟨u, hu, he⟩ := List.mem_map.1 hch
          exact ⟨u, List.mem_cons_of_mem _ hu, he⟩
      · rcases foldl_min_choice (rest.map coord_t.y) c.y with hch | hch
        · exact ⟨c, List.mem_cons_self _ _, hch.symm⟩
        · obtain ⟨u, hu, he⟩ := List.mem_map.1 hch
          exact ⟨u, List.mem_cons_of_mem _ hu, he⟩
      · rcases foldl_max_choice (rest.map coord_t.x) c.x with hch | hch
        · exact ⟨c, List.mem_cons_self _ _, hch.symm⟩
        · obtain ⟨u, hu, he⟩ := List.mem_map.1 hch
          exact ⟨u, List.mem_cons_of_mem _ hu, he⟩
      · rcases foldl_max_choice (rest.map coord_t.y) c.y with hch | hch
        · exact ⟨c, List.mem_cons_self _ _, hch.symm⟩
        · obtain ⟨u, hu, he⟩ := List.mem_map.1 hch
          exact ⟨u, List.mem_cons_of_mem _ hu, he⟩

theorem scanFold_eq (sel : grid_t Bool) (cs : List coord_t) (mn0 mx0 : coord_t) :
    scanFold sel cs (mn0, mx0) =
      (⟨((cs.filter fun c => sel.get c).map coord_t.x).foldl min mn0.x,
        ((cs.filter fun c => sel.get c).map coord_t.y).foldl min mn0.y⟩,
       ⟨((cs.filter fun c => sel.get c).map coord_t.x).foldl max mx0.x,
        ((cs.filter fun c => sel.get c).map coord_t.y).foldl max mx0.y⟩) := by
  induction cs generalizing mn0 mx0 with
  | nil => rfl
  | cons c cs ih =>
    have hstep : scanFold sel (c :: cs) (mn0, mx0) =
        scanFold sel cs (if sel.get c then
          (⟨min mn0.x c.x, min mn0.y c.y⟩, ⟨max mx0.x c.x, max mx0.y c.y⟩)
        else (mn0, mx0)) := rfl
    rw [hstep]
    cases hceq : sel.get c with
    | false =>
      rw [if_neg (by simp [hceq]), List.filter_cons_of_neg (by simp [hceq])]
      exact ih mn0 mx0
    | true =>
      rw [if_pos (by simp [hceq]), List.filter_cons_of_pos (by simp [hceq])]
      rw [ih]
      simp only [List.map_cons, List.foldl_cons]

theorem scanFold_nil (sel : grid_t Bool) (cs : List coord_t) (mn0 mx0 : coord_t)
    (he : cs.filter (fun c => sel.get c) = []) : scanFold sel cs (mn0, mx0) = (mn0, mx0) := by
  rw [scanFold_eq, he]
  rfl

theorem scanFold_bnd (sel : grid_t Bool) (cs : List coord_t) (mn0 : coord_t)
    (hb : ∀ c ∈ cs.filter (fun c => sel.get c),
      c.x < mn0.x ∧ c.y < mn0.y ∧ 0 ≤ c.x ∧ 0 ≤ c.y)
    (hne : cs.filter (fun c => sel.get c) ≠ []) :
    IsBnd (cs.filter fun c => sel.get c)
      (scanFold sel cs (mn0, ⟨0, 0⟩)).1 (scanFold sel cs (mn0, ⟨0, 0⟩)).2 := by
  obtain ⟨e, he⟩ := List.exists_mem_of_ne_nil _ hne
  obtain ⟨hex, hey, hex0, hey0⟩ := hb e he
  rw [scanFold_eq]
  dsimp
  set E := cs.filter (fun c => sel.get c) with hE
  have hmem_x : e.x ∈ E.map coord_t.x := List.mem_map_of_mem _ he
  have hmem_y : e.y ∈ E.map coord_t.y := List.mem_map_of_mem _ he
  have hminx_mem : (E.map coord_t.x).foldl min mn0.x ∈ E.map coord_t.x := by
    rcases foldl_min_choice (E.map coord_t.x) mn0.x with h | h
    · exfalso
      have hle := (foldl_min_le (E.map coord_t.x) mn0.x).2 _ hmem_x
      omega
    · exact h
  have hminy_mem : (E.map coord_t.y).foldl min mn0.y ∈ E.map coord_t.y := by
    rcases foldl_min_choice (E.map coord_t.y) mn0.y with h | h
    · exfalso
      have hle := (foldl_min_le (E.map coord_t.y) mn0.y).2 _ hmem_y
      omega
    · exact h
  have hmaxx_mem : (E.map coord_t.x).foldl max 0 ∈ E.map coord_t.x := by
    rcases foldl_max_choice (E.map coord_t.x) 0 with h | h
    · have hge := (foldl_max_ge (E.map coord_t.x) 0).2 _ hmem_x
      rw [h] at hge ⊢
      have hex' : e.x = 0 := by omega
      rw [← hex']
      exact hmem_x
    · exact h
  have hmaxy_mem : (E.map coord_t.y).foldl max 0 ∈ E.map coord_t.y := by
    rcases foldl_max_choice (E.map coord_t.y) 0 with h | h
    · have hge := (foldl_max_ge (E.map coord_t.y) 0).2 _ hmem_y
      rw [h] at hge ⊢
      have hey' : e.y = 0 := by omega
      rw [← hey']
      exact hmem_y
    · exact h
  refine ⟨?_, ?_, ?_, ?_, ?_⟩
  · intro c hc
    exact ⟨(foldl_min_le _ _).2 _ (List.mem_map_of_mem _ hc),
      (foldl_min_le _ _).2 _ (List.mem_map_of_mem _ hc),
      (foldl_max_ge _ _).2 _ (List.mem_map_of_mem _ hc),
      (foldl_max_ge _ _).2 _ (List.mem_map_of_mem _ hc)⟩
  · obtain ⟨u, hu, he'⟩ := List.mem_map.1 hminx_mem
    exact ⟨u, hu, he'⟩
  · obtain ⟨u, hu, he'⟩ := List.mem_map.1 hminy_mem
    exact ⟨u, hu, he'⟩
  · obtain ⟨u, hu, he'⟩ := List.mem_map.1 hmaxx_mem
    exact ⟨u, hu, he'⟩
  · obtain ⟨u, hu, he'⟩ := List.mem_map.1 hmaxy_mem
    exact ⟨u, hu, he'⟩

/-- Characterization of `recalc_select_rect`: on a nonempty visible selection
it computes the exact bounding rectangle; on an empty one it computes the
empty rectangle unless both grid extents are zero. -/
theorem recalc_spec_pos (sel : grid_t Bool) (range : rect_t)
    (hne : (rectRange range).filter (fun c => sel.get c) ≠ []) :
    ∃ mn mx, recalc_select_rect sel range = rectFrom2Coords mn mx ∧
      IsBnd ((rectRange range).filter fun c => sel.get c) mn mx := by
  have hbnd : ∀ c ∈ (rectRange range).filter (fun c => sel.get c),
      c.x < (toCoord sel.dimen).x ∧ c.y < (toCoord sel.dimen).y ∧ 0 ≤ c.x ∧ 0 ≤ c.y := by
    intro c hc
    have hib := get_true_inBounds (List.mem_filter.1 hc).2
    exact ⟨hib.2.1, hib.2.2.2, hib.1, hib.2.2.1⟩
  have hbn := scanFold_bnd sel (rectRange range) (toCoord sel.dimen) hbnd hne
  have hle := IsBnd_le hbn
  unfold recalc_select_rect
  refine ⟨_, _, ?_, hbn⟩
  rw [if_pos ⟨hle.1, hle.2⟩]

theorem recalc_spec_nil (sel : grid_t Bool) (range : rect_t)
    (he : (rectRange range).filter (fun c => sel.get c) = [])
    (hd : sel.w ≠ 0 ∨ sel.h ≠ 0) :
    recalc_select_rect sel range = emptyRect := by
  unfold recalc_select_rect
  rw [scanFold_nil sel _ _ _ he]
  dsimp
  rw [if_neg]
  unfold toCoord grid_t.dimen
  dsimp
  omega

theorem foldSet_dimen (g : grid_t Bool) (cs : List coord_t) (b : Bool) :
    (cs.foldl (fun g c => g.set c b) g).dimen = g.dimen := by
  induction cs generalizing g with
  | nil => rfl
  | cons c cs ih =>
    rw [List.foldl_cons, ih, grid_t.set_dimen]

theorem foldSet_wf {g : grid_t Bool} (cs : List coord_t) (b : Bool) (h : g.wf) :
    (cs.foldl (fun g c => g.set c b) g).wf := by
  induction cs generalizing g with
  | nil => exact h
  | cons c cs ih =>
    rw [List.foldl_cons]
    exact ih (grid_t.set_wf _ _ h)

theorem get_foldSet (g : grid_t Bool) (cs : List coord_t) (b : Bool) (hwf : g.wf)
    (hcs : ∀ c ∈ cs, inBounds c g.dimen) (u : coord_t) :
    (cs.foldl (fun g c => g.set c b) g).get u = if u ∈ cs then b else g.get u := by
  induction cs generalizing g with
  | nil => simp
  | cons c cs ih =>
    rw [List.foldl_cons]
    rw [ih (g.set c b) (grid_t.set_wf _ _ hwf)
      (fun c' hc' => (grid_t.set_dimen g c b) ▸ hcs c' (List.mem_cons_of_mem _ hc'))]
    rw [grid_t.get_set g c b hwf (hcs c (List.mem_cons_self _ _))]
    by_cases h1 : u ∈ cs
    · rw [if_pos h1, if_pos (List.mem_cons_of_mem _ h1)]
    · rw [if_neg h1]
      by_cases h2 : u = c
      · rw [if_pos h2, if_pos (List.mem_cons.2 (Or.inl h2))]
      · rw [if_neg h2, if_neg (by rw [List.mem_cons]; rintro (h | h) <;> [exact h2 h; exact h1 h])]

theorem rectPos_empty : ¬ rectPos emptyRect := by
  unfold rectPos emptyRect
  dsimp
  omega

theorem Inv_of_parts {s : select_map_t} (hwf : s.m_selection.wf)
    (hw : s.dimen.w ≤ 2147483647) (hh : s.dimen.h ≤ 2147483647)
    (hcase : (selCells s = [] ∧ ¬ rectPos s.m_select_rect) ∨
      (∃ mn mx, IsBnd (selCells s) mn mx ∧ s.m_select_rect = rectFrom2Coords mn mx)) :
    Inv s := by
  refine ⟨hwf, hw, hh, ?_, ?_⟩
  · rcases hcase with ⟨he, hp⟩ | ⟨mn, mx, hb, hr⟩
    · constructor
      · intro hp'
        exact absurd hp' hp
      · intro hne
        exact absurd he hne
    · constructor
      · intro _
        exact IsBnd_nonempty hb
      · intro _
        rw [hr]
        have hle := IsBnd_le hb
        unfold rectPos rectFrom2Coords
        dsimp
        omega
  · intro hne
    rcases hcase with ⟨he, _⟩ | ⟨mn, mx, hb, hr⟩
    · exact absurd he hne
    · obtain ⟨mn', mx', hbo, hb'⟩ := boundOf_spec hne
      obtain ⟨e1, e2⟩ := IsBnd_unique hb hb'
      rw [hr, hbo, e1, e2]

theorem IsBnd_insert {cs cs' : List coord_t} {mn mx c : coord_t}
    (hmem : ∀ u, u ∈ cs' ↔ (u = c ∨ u ∈ cs)) (h : IsBnd cs mn mx) :
    IsBnd cs' ⟨min mn.x c.x, min mn.y c.y⟩ ⟨max mx.x c.x, max mx.y c.y⟩ := by
  obtain ⟨hb, ⟨a1, ha1, he1⟩, ⟨a2, ha2, he2⟩, ⟨a3, ha3, he3⟩, ⟨a4, ha4, he4⟩⟩ := h
  have hcmem : c ∈ cs' := (hmem c).2 (Or.inl rfl)
  constructor
  · intro u hu
    rcases (hmem u).1 hu with rfl | hu'
    · try dsimp
      omega
    · have := hb u hu'
      try dsimp
      omega
  · refine ⟨?_, ?_, ?_, ?_⟩
    · rcases le_total mn.x c.x with hle | hle
      · exact ⟨a1, (hmem a1).2 (Or.inr ha1), by try dsimp; omega⟩
      · exact ⟨c, hcmem, by try dsimp; omega⟩
    · rcases le_total mn.y c.y with hle | hle
      · exact ⟨a2, (hmem a2).2 (Or.inr ha2), by try dsimp; omega⟩
      · exact ⟨c, hcmem, by try dsimp; omega⟩
    · rcases le_total c.x mx.x with hle | hle
      · exact ⟨a3, (hmem a3).2 (Or.inr ha3), by try dsimp; omega⟩
      · exact ⟨c, hcmem, by try dsimp; omega⟩
    · rcases le_total c.y mx.y with hle | hle
      · exact ⟨a4, (hmem a4).2 (Or.inr ha4), by try dsimp; omega⟩
      · exact ⟨c, hcmem, by try dsimp; omega⟩

theorem IsBnd_rect {cs' : List coord_t} {rc : rect_t} (hrc : rectPos rc)
    (hmem : ∀ u, u ∈ cs' ↔ inRect u rc) :
    IsBnd cs' rc.c ⟨rc.c.x + rc.d.w - 1, rc.c.y + rc.d.h - 1⟩ := by
  have hrcp : 0 < rc.d.w ∧ 0 < rc.d.h := hrc
  constructor
  · intro u hu
    have := (hmem u).1 hu
    unfold inRect at this
    try dsimp
    omega
  · refine ⟨⟨rc.c, ?_, rfl⟩, ⟨rc.c, ?_, rfl⟩,
      ⟨⟨rc.c.x + rc.d.w - 1, rc.c.y⟩, ?_, rfl⟩,
      ⟨⟨rc.c.x, rc.c.y + rc.d.h - 1⟩, ?_, rfl⟩⟩ <;>
    · rw [hmem]
      unfold inRect
      try dsimp
      omega

theorem IsBnd_union_rect {cs cs' : List coord_t} {mn mx : coord_t} {rc : rect_t}
    (hrc : rectPos rc)
    (hmem : ∀ u, u ∈ cs' ↔ (inRect u rc ∨ u ∈ cs)) (h : IsBnd cs mn mx) :
    IsBnd cs' ⟨min mn.x rc.c.x, min mn.y rc.c.y⟩
      ⟨max mx.x (rc.c.x + rc.d.w - 1), max mx.y (rc.c.y + rc.d.h - 1)⟩ := by
  obtain ⟨hb, ⟨a1, ha1, he1⟩, ⟨a2, ha2, he2⟩, ⟨a3, ha3, he3⟩, ⟨a4, ha4, he4⟩⟩ := h
  have hrcp : 0 < rc.d.w ∧ 0 < rc.d.h := hrc
  have hc1 : rc.c ∈ cs' := (hmem _).2 (Or.inl (by unfold inRect; omega))
  have hc2 : (⟨rc.c.x + rc.d.w - 1, rc.c.y⟩ : coord_t) ∈ cs' :=
    (hmem _).2 (Or.inl (by unfold inRect; dsimp; omega))
  have hc3 : (⟨rc.c.x, rc.c.y + rc.d.h - 1⟩ : coord_t) ∈ cs' :=
    (hmem _).2 (Or.inl (by unfold inRect; dsimp; omega))
  constructor
  · intro u hu
    rcases (hmem u).1 hu with hu' | hu'
    · unfold inRect at hu'
      try dsimp
      omega
    · have := hb u hu'
      try dsimp
      omega
  · refine ⟨?_, ?_, ?_, ?_⟩
    · rcases le_total mn.x rc.c.x with hle | hle
      · exact ⟨a1, (hmem a1).2 (Or.inr ha1), by try dsimp; omega⟩
      · exact ⟨rc.c, hc1, by try dsimp; omega⟩
    · rcases le_total mn.y rc.c.y with hle | hle
      · exact ⟨a2, (hmem a2).2 (Or.inr ha2), by try dsimp; omega⟩
      · exact ⟨rc.c, hc1, by try dsimp; omega⟩
    · rcases le_total (rc.c.x + rc.d.w - 1) mx.x with hle | hle
      · exact ⟨a3, (hmem a3).2 (Or.inr ha3), by try dsimp; omega⟩
      · exact ⟨⟨rc.c.x + rc.d.w - 1, rc.c.y⟩, hc2, by try dsimp; omega⟩
    · rcases le_total (rc.c.y + rc.d.h - 1) mx.y with hle | hle
      · exact ⟨a4, (hmem a4).2 (Or.inr ha4), by try dsimp; omega⟩
      · exact ⟨⟨rc.c.x, rc.c.y + rc.d.h - 1⟩, hc3, by try dsimp; omega⟩

theorem inv_select_all {s : select_map_t} (b : Bool) (h : Inv s) : Inv (s.select_all b) := by
  obtain ⟨hwf, hw, hh, hiff, heq⟩ := h
  have hfillwf : (s.m_selection.fill b).wf := grid_t.fill_wf _ _
  cases b with
  | false =>
    refine Inv_of_parts hfillwf hw hh (Or.inl ⟨?_, ?_⟩)
    · rw [List.eq_nil_iff_forall_not_mem]
      intro u hu
      have hg : (s.m_selection.fill false).get u = true := mem_selCellsG.1 hu
      rw [grid_t.fill_get] at hg
      split at hg
      · exact Bool.false_ne_true hg
      · exact Bool.false_ne_true hg
    · exact rectPos_empty
  | true =>
    have hmem : ∀ u : coord_t, u ∈ selCells (s.select_all true) ↔ inBounds u s.dimen := by
      intro u
      rw [show selCells (s.select_all true) = selCellsG (s.m_selection.fill true) from rfl,
        mem_selCellsG, grid_t.fill_get]
      by_cases hib : inBounds u s.m_selection.dimen
      · rw [if_pos hib]
        exact ⟨fun _ => hib, fun _ => rfl⟩
      · rw [if_neg hib]
        exact ⟨fun hc => absurd hc Bool.false_ne_true, fun hc => absurd hc hib⟩
    by_cases hdp : 0 < s.dimen.w ∧ 0 < s.dimen.h
    · refine Inv_of_parts hfillwf hw hh (Or.inr ?_)
      refine ⟨⟨0, 0⟩, ⟨(s.dimen.w : Int) - 1, (s.dimen.h : Int) - 1⟩, ?_, ?_⟩
      · constructor
        · intro u hu
          obtain ⟨a1, a2, a3, a4⟩ := (hmem u).1 hu
          try dsimp
          omega
        · refine ⟨⟨⟨0, 0⟩, ?_, rfl⟩, ⟨⟨0, 0⟩, ?_, rfl⟩,
            ⟨⟨(s.dimen.w : Int) - 1, (s.dimen.h : Int) - 1⟩, ?_, rfl⟩,
            ⟨⟨(s.dimen.w : Int) - 1, (s.dimen.h : Int) - 1⟩, ?_, rfl⟩⟩ <;>
          · rw [hmem]
            unfold inBounds
            dsimp
            omega
      · show toRect s.dimen = _
        unfold toRect rectFrom2Coords
        rw [rect_t.mk.injEq, dimen_t.mk.injEq]
        refine ⟨rfl, by try dsimp; omega, by try dsimp; omega⟩
    · refine Inv_of_parts hfillwf hw hh (Or.inl ⟨?_, ?_⟩)
      · rw [List.eq_nil_iff_forall_not_mem]
        intro u hu
        obtain ⟨a1, a2, a3, a4⟩ := (hmem u).1 hu
        exact hdp ⟨by omega, by omega⟩
      · show ¬ rectPos (toRect s.dimen)
        unfold rectPos toRect
        dsimp
        omega

theorem inv_select_invert {s : select_map_t} (h : Inv s) : Inv s.select_invert := by
  obtain ⟨hwf, hw, hh, hiff, heq⟩ := h
  have hmain : ∀ sel : grid_t Bool, sel.wf →
      sel.dimen.w ≤ 2147483647 → sel.dimen.h ≤ 2147483647 →
      Inv { m_selection := sel
            m_select_rect :=
              if (scanFold sel (dimenRange sel.dimen) (⟨2147483647, 2147483647⟩, ⟨0, 0⟩)).1.x >
                   (scanFold sel (dimenRange sel.dimen) (⟨2147483647, 2147483647⟩, ⟨0, 0⟩)).2.x ∨
                 (scanFold sel (dimenRange sel.dimen) (⟨2147483647, 2147483647⟩, ⟨0, 0⟩)).1.y >
                   (scanFold sel (dimenRange sel.dimen) (⟨2147483647, 2147483647⟩, ⟨0, 0⟩)).2.y
              then emptyRect
              else rectFrom2Coords
                (scanFold sel (dimenRange sel.dimen) (⟨2147483647, 2147483647⟩, ⟨0, 0⟩)).1
                (scanFold sel (dimenRange sel.dimen) (⟨2147483647, 2147483647⟩, ⟨0, 0⟩)).2 } := by
    intro sel hselwf hbw hbh
    by_cases hE : (rectRange (toRect sel.dimen)).filter (fun c => sel.get c) = []
    · have hp := scanFold_nil sel (dimenRange sel.dimen) ⟨2147483647, 2147483647⟩ ⟨0, 0⟩ hE
      refine Inv_of_parts hselwf hbw hbh (Or.inl ⟨hE, ?_⟩)
      show ¬ rectPos (if _ then emptyRect else _)
      rw [hp]
      rw [if_pos (Or.inl (by norm_num))]
      exact rectPos_empty
    · have hbnd : ∀ c ∈ (dimenRange sel.dimen).filter (fun c => sel.get c),
          c.x < (coord_t.mk 2147483647 2147483647).x ∧
          c.y < (coord_t.mk 2147483647 2147483647).y ∧ 0 ≤ c.x ∧ 0 ≤ c.y := by
        intro c hc
        have hib := get_true_inBounds (List.mem_filter.1 hc).2
        have h1 : 0 ≤ c.x := hib.1
        have h2 : c.x < (sel.dimen.w : Int) := hib.2.1
        have h3 : 0 ≤ c.y := hib.2.2.1
        have h4 : c.y < (sel.dimen.h : Int) := hib.2.2.2
        dsimp
        omega
      have hbn := scanFold_bnd sel (dimenRange sel.dimen) ⟨2147483647, 2147483647⟩ hbnd hE
      have hle := IsBnd_le hbn
      refine Inv_of_parts hselwf hbw hbh (Or.inr ⟨_, _, hbn, ?_⟩)
      show (if _ then emptyRect else _) = _
      rw [if_neg (by omega)]
  exact hmain _ (by
      unfold grid_t.wf at hwf ⊢
      dsimp
      rw [List.length_map]
      exact hwf) hw hh

theorem inv_resize {s : select_map_t} (d : dimen_t) (h : Inv s)
    (hd : d.w ≠ 0 ∨ d.h ≠ 0) (hbw : d.w ≤ 2147483647) (hbh : d.h ≤ 2147483647) :
    Inv (s.resize d) := by
  obtain ⟨hwf, hw, hh, hiff, heq⟩ := h
  have hselwf : (s.m_selection.resize d).wf := grid_t.resize_wf _ _
  by_cases hE : (rectRange (toRect d)).filter (fun c => (s.m_selection.resize d).get c) = []
  · refine Inv_of_parts hselwf hbw hbh (Or.inl ⟨hE, ?_⟩)
    show ¬ rectPos (recalc_select_rect (s.m_selection.resize d) (toRect d))
    rw [recalc_spec_nil _ _ hE hd]
    exact rectPos_empty
  · obtain ⟨mn, mx, hre, hbnd⟩ := recalc_spec_pos (s.m_selection.resize d) (toRect d) hE
    refine Inv_of_parts hselwf hbw hbh (Or.inr ⟨mn, mx, hbnd, ?_⟩)
    show recalc_select_rect (s.m_selection.resize d) (toRect d) = rectFrom2Coords mn mx
    exact hre

theorem inv_deselect_recalc {s : select_map_t} {sel' : grid_t Bool}
    (hbw : sel'.dimen.w ≤ 2147483647) (hbh : sel'.dimen.h ≤ 2147483647)
    (hiff : rectPos s.m_select_rect ↔ selCells s ≠ [])
    (heq : selCells s ≠ [] → s.m_select_rect = boundOf (selCells s))
    (hselwf : sel'.wf)
    (hdims : sel'.w ≠ 0 ∨ sel'.h ≠ 0)
    (hsub : ∀ u, sel'.get u = true → s.m_selection.get u = true) :
    Inv { m_selection := sel', m_select_rect := recalc_select_rect sel' s.m_select_rect } := by
  have hEiff : ∀ u, u ∈ (rectRange s.m_select_rect).filter (fun c => sel'.get c) ↔
      u ∈ selCellsG sel' := by
    intro u
    constructor
    · intro hu
      exact mem_selCellsG.2 (List.mem_filter.1 hu).2
    · intro hu
      have hg' : sel'.get u = true := mem_selCellsG.1 hu
      have hgo : s.m_selection.get u = true := hsub u hg'
      have hmo : u ∈ selCells s := mem_selCellsG.2 hgo
      have hne : selCells s ≠ [] := fun hc => by rw [hc] at hmo; cases hmo
      obtain ⟨mn, mx, hbo, hbnd⟩ := boundOf_spec hne
      have hrect : s.m_select_rect = rectFrom2Coords mn mx := (heq hne).trans hbo
      rw [List.mem_filter]
      refine ⟨?_, hg'⟩
      rw [mem_rectRange, hrect]
      exact IsBnd_inRect hbnd hmo
  by_cases hE : (rectRange s.m_select_rect).filter (fun c => sel'.get c) = []
  · have hcells : selCellsG sel' = [] := by
      rw [List.eq_nil_iff_forall_not_mem]
      intro u hu
      have hin := (hEiff u).2 hu
      rw [hE] at hin
      cases hin
    refine Inv_of_parts hselwf hbw hbh (Or.inl ⟨hcells, ?_⟩)
    show ¬ rectPos (recalc_select_rect sel' s.m_select_rect)
    rw [recalc_spec_nil sel' _ hE hdims]
    exact rectPos_empty
  · obtain ⟨mn, mx, hre, hbnd⟩ := recalc_spec_pos sel' s.m_select_rect hE
    refine Inv_of_parts hselwf hbw hbh
      (Or.inr ⟨mn, mx, IsBnd_congr hEiff hbnd, ?_⟩)
    show recalc_select_rect sel' s.m_select_rect = rectFrom2Coords mn mx
    exact hre

theorem inv_select_coord {s : select_map_t} (c : coord_t) (b : Bool) (h : Inv s) :
    Inv (s.select_coord c b) := by
  by_cases hc : inBounds c s.dimen
  case neg =>
    have hstep : s.select_coord c b = s := by
      unfold select_coord
      rw [if_neg hc]
    rw [hstep]
    exact h
  case pos =>
    obtain ⟨hwf, hw, hh, hiff, heq⟩ := h
    have hsetwf := grid_t.set_wf (g := s.m_selection) c b hwf
    have hget := grid_t.get_set s.m_selection c b hwf hc
    cases b with
    | true =>
      have hstep : s.select_coord c true =
          { m_selection := s.m_selection.set c true
            m_select_rect := growRectCoord s.m_select_rect c } := by
        unfold select_coord
        rw [if_pos hc]
        rfl
      rw [hstep]
      have hmem : ∀ u, u ∈ selCellsG (s.m_selection.set c true) ↔ (u = c ∨ u ∈ selCells s) := by
        intro u
        rw [mem_selCellsG, hget u]
        by_cases huc : u = c
        · rw [if_pos huc]
          exact ⟨fun _ => Or.inl huc, fun _ => rfl⟩
        · rw [if_neg huc]
          constructor
          · intro hg
            exact Or.inr (mem_selCellsG.2 hg)
          · rintro (hg | hg)
            · exact absurd hg huc
            · exact mem_selCellsG.1 hg
      have hw' : (s.m_selection.set c true).dimen.w ≤ 2147483647 := by
        rw [grid_t.set_dimen]
        exact hw
      have hh' : (s.m_selection.set c true).dimen.h ≤ 2147483647 := by
        rw [grid_t.set_dimen]
        exact hh
      by_cases hne : selCells s = []
      · have hpos : ¬ rectPos s.m_select_rect := fun hp => (hiff.1 hp) hne
        refine Inv_of_parts hsetwf hw' hh' (Or.inr ⟨c, c, ?_, ?_⟩)
        · constructor
          · intro u hu
            rcases (hmem u).1 hu with rfl | hu'
            · exact ⟨le_refl _, le_refl _, le_refl _, le_refl _⟩
            · rw [hne] at hu'
              cases hu'
          · have hcmem : c ∈ selCellsG (s.m_selection.set c true) := (hmem c).2 (Or.inl rfl)
            exact ⟨⟨c, hcmem, rfl⟩, ⟨c, hcmem, rfl⟩, ⟨c, hcmem, rfl⟩, ⟨c, hcmem, rfl⟩⟩
        · show growRectCoord s.m_select_rect c = _
          rw [growRectCoord_empty hpos]
      · obtain ⟨mn, mx, hbo, hbnd⟩ := boundOf_spec hne
        have hle := IsBnd_le hbnd
        have hrect : s.m_select_rect = rectFrom2Coords mn mx := (heq hne).trans hbo
        refine Inv_of_parts hsetwf hw' hh'
          (Or.inr ⟨⟨min mn.x c.x, min mn.y c.y⟩, ⟨max mx.x c.x, max mx.y c.y⟩,
            IsBnd_insert hmem hbnd, ?_⟩)
        show growRectCoord s.m_select_rect c = _
        rw [hrect, growRectCoord_bnd hle.1 hle.2]
    | false =>
      have hstep : s.select_coord c false =
          { m_selection := s.m_selection.set c false
            m_select_rect :=
              recalc_select_rect (s.m_selection.set c false) s.m_select_rect } := by
        unfold select_coord
        rw [if_pos hc]
        rfl
      rw [hstep]
      have hdimeq : (s.m_selection.set c false).dimen = s.m_selection.dimen :=
        grid_t.set_dimen _ _ _
      refine inv_deselect_recalc ?_ ?_ hiff heq hsetwf ?_ ?_
      · rw [hdimeq]
        exact hw
      · rw [hdimeq]
        exact hh
      · left
        have hweq : (s.m_selection.set c false).w = s.m_selection.w :=
          congrArg dimen_t.w hdimeq
        have hx : c.x < (s.m_selection.w : Int) := hc.2.1
        have h0 : 0 ≤ c.x := hc.1
        omega
      · intro u hu
        rw [hget u] at hu
        split at hu
        · exact absurd hu Bool.false_ne_true
        · exact hu

theorem inv_select_rect {s : select_map_t} (r : rect_t) (b : Bool) (h : Inv s) :
    Inv (s.select_rect r b) := by
  by_cases hrc : rectPos (crop r s.dimen)
  case neg =>
    have hstep : s.select_rect r b = s := by
      unfold select_rect
      rw [if_neg hrc]
    rw [hstep]
    exact h
  case pos =>
    obtain ⟨hwf, hw, hh, hiff, heq⟩ := h
    have hbnds : ∀ u ∈ rectRange (crop r s.dimen), inBounds u s.m_selection.dimen := by
      intro u hu
      exact inRect_crop_inBounds (mem_rectRange.1 hu)
    have hfwf : ∀ bb, ((rectRange (crop r s.dimen)).foldl (fun g c => g.set c bb)
        s.m_selection).wf := fun bb => foldSet_wf _ _ hwf
    have hfd : ∀ bb, ((rectRange (crop r s.dimen)).foldl (fun g c => g.set c bb)
        s.m_selection).dimen = s.m_selection.dimen := fun bb => foldSet_dimen _ _ _
    cases b with
    | true =>
      have hstep : s.select_rect r true =
          { m_selection :=
              (rectRange (crop r s.dimen)).foldl (fun g c => g.set c true) s.m_selection
            m_select_rect := growRectRect s.m_select_rect (crop r s.dimen) } := by
        unfold select_rect
        rw [if_pos hrc]
        rfl
      rw [hstep]
      have hget := get_foldSet s.m_selection (rectRange (crop r s.dimen)) true hwf hbnds
      have hmem : ∀ u, u ∈ selCellsG ((rectRange (crop r s.dimen)).foldl
          (fun g c => g.set c true) s.m_selection) ↔
          (inRect u (crop r s.dimen) ∨ u ∈ selCells s) := by
        intro u
        rw [mem_selCellsG, hget u]
        by_cases hur : u ∈ rectRange (crop r s.dimen)
        · rw [if_pos hur]
          exact ⟨fun _ => Or.inl (mem_rectRange.1 hur), fun _ => rfl⟩
        · rw [if_neg hur]
          constructor
          · intro hg
            exact Or.inr (mem_selCellsG.2 hg)
          · rintro (hg | hg)
            · exact absurd (mem_rectRange.2 hg) hur
            · exact mem_selCellsG.1 hg
      have hw' : ((rectRange (crop r s.dimen)).foldl (fun g c => g.set c true)
          s.m_selection).dimen.w ≤ 2147483647 := by
        rw [hfd true]
        exact hw
      have hh' : ((rectRange (crop r s.dimen)).foldl (fun g c => g.set c true)
          s.m_selection).dimen.h ≤ 2147483647 := by
        rw [hfd true]
        exact hh
      by_cases hne : selCells s = []
      · have hpos : ¬ rectPos s.m_select_rect := fun hp => (hiff.1 hp) hne
        have hmem' : ∀ u, u ∈ selCellsG ((rectRange (crop r s.dimen)).foldl
            (fun g c => g.set c true) s.m_selection) ↔ inRect u (crop r s.dimen) := by
          intro u
          rw [hmem u]
          constructor
          · rintro (hg | hg)
            · exact hg
            · rw [hne] at hg
              cases hg
          · exact Or.inl
        refine Inv_of_parts (hfwf true) hw' hh' (Or.inr ⟨(crop r s.dimen).c,
          ⟨(crop r s.dimen).c.x + (crop r s.dimen).d.w - 1,
           (crop r s.dimen).c.y + (crop r s.dimen).d.h - 1⟩,
          IsBnd_rect hrc hmem', ?_⟩)
        show growRectRect s.m_select_rect (crop r s.dimen) = _
        rw [growRectRect_empty hpos]
        exact rect_as_from2coords hrc
      · obtain ⟨mn, mx, hbo, hbnd⟩ := boundOf_spec hne
        have hle := IsBnd_le hbnd
        have hrect : s.m_select_rect = rectFrom2Coords mn mx := (heq hne).trans hbo
        refine Inv_of_parts (hfwf true) hw' hh'
          (Or.inr ⟨_, _, IsBnd_union_rect hrc hmem hbnd, ?_⟩)
        show growRectRect s.m_select_rect (crop r s.dimen) = _
        rw [hrect, growRectRect_bnd hle.1 hle.2 hrc]
    | false =>
      have hstep : s.select_rect r false =
          { m_selection :=
              (rectRange (crop r s.dimen)).foldl (fun g c => g.set c false) s.m_selection
            m_select_rect := recalc_select_rect
              ((rectRange (crop r s.dimen)).foldl (fun g c => g.set c false) s.m_selection)
              s.m_select_rect } := by
        unfold select_rect
        rw [if_pos hrc]
        rfl
      rw [hstep]
      have hget := get_foldSet s.m_selection (rectRange (crop r s.dimen)) false hwf hbnds
      refine inv_deselect_recalc ?_ ?_ hiff heq (hfwf false) ?_ ?_
      · rw [hfd false]
        exact hw
      · rw [hfd false]
        exact hh
      · left
        have hweq : ((rectRange (crop r s.dimen)).foldl (fun g c => g.set c false)
            s.m_selection).w = s.m_selection.w := congrArg dimen_t.w (hfd false)
        have hd := crop_pos_dims hrc
        have hd1 : 0 < s.m_selection.w := hd.1
        omega
      · intro u hu
        rw [hget u] at hu
        split at hu
        · exact absurd hu Bool.false_ne_true
        · exact hu

end select_map_t

/-- The mutating `select_map_t` operations of the specification. -/
inductive sel_op_t
  | opSelectAll (b : Bool)
  | opInvert
  | opSelect (c : coord_t) (b : Bool)
  | opSelectRect (r : rect_t) (b : Bool)
  | opResize (d : dimen_t)
  deriving DecidableEq, Repr

def applySelOp (s : select_map_t) : sel_op_t → select_map_t
  | .opSelectAll b => s.select_all b
  | .opInvert => s.select_invert
  | .opSelect c b => s.select_coord c b
  | .opSelectRect r b => s.select_rect r b
  | .opResize d => s.resize d

/-- An operation is benign when any resize target is a nonzero dimension that
fits in a C++ `int`. -/
def selOpOk : sel_op_t → Prop
  | .opResize d => (d.w ≠ 0 ∨ d.h ≠ 0) ∧ d.w ≤ 2147483647 ∧ d.h ≤ 2147483647
  | _ => True

instance (op : sel_op_t) : Decidable (selOpOk op) := by
  cases op <;> (unfold selOpOk; infer_instance)

theorem inv_applySelOp {s : select_map_t} {op : sel_op_t}
    (h : s.Inv) (hop : selOpOk op) : (applySelOp s op).Inv := by
  cases op with
  | opSelectAll b => exact select_map_t.inv_select_all b h
  | opInvert => exact select_map_t.inv_select_invert h
  | opSelect c b => exact select_map_t.inv_select_coord c b h
  | opSelectRect r b => exact select_map_t.inv_select_rect r b h
  | opResize d =>
    obtain ⟨h1, h2, h3⟩ := hop
    exact select_map_t.inv_resize d h h1 h2 h3

/-- Claim C4, corrected.  The claim as frozen fails on the code (see
`C4_counterexample`: a resize to the 0×0 dimension leaves a stale non-empty
cached rectangle while no cell is selected).  Amended claim: for every
sequence of mutating SelectionMap operations in which no resize targets the
0×0 dimension (and resize dimensions fit in a C++ `int`), after every
operation the cached rectangle is empty iff no cell is selected and
otherwise equals the tightest rectangle containing every selected cell
(`select_map_t.Inv`). -/
theorem C4_selection_rect_invariant (s0 : select_map_t) (ops : List sel_op_t)
    (h0 : s0.Inv) (hops : ∀ op ∈ ops, selOpOk op) :
    (ops.foldl applySelOp s0).Inv := by
  induction ops generalizing s0 with
  | nil => exact h0
  | cons op ops ih =>
    rw [List.foldl_cons]
    exact ih _ (inv_applySelOp h0 (hops op (List.mem_cons_self _ _)))
      (fun o ho => hops o (List.mem_cons_of_mem _ ho))

/-- Witness for C4: a concrete five-operation editing sequence on a 3×3 map
preserves the invariant. -/
theorem C4_witness :
    (([sel_op_t.opSelect ⟨1, 1⟩ true,
       sel_op_t.opSelectRect ⟨⟨0, 0⟩, ⟨2, 2⟩⟩ true,
       sel_op_t.opSelect ⟨1, 1⟩ false,
       sel_op_t.opInvert,
       sel_op_t.opResize ⟨2, 2⟩] : List sel_op_t).foldl applySelOp
      (select_map_t.init ⟨3, 3⟩)).Inv :=
  C4_selection_rect_invariant (select_map_t.init ⟨3, 3⟩) _ (by decide) (by decide)

/-- Counterexample for C4 as frozen: resizing a default-constructed
SelectionMap to the 0×0 dimension leaves the cached rectangle non-empty
(`has_selection()` is true) although no cell is selected — the cache is
stale, so the claimed invariant does not hold after every mutating
operation. -/
theorem C4_counterexample :
    rectPos ((applySelOp select_map_t.mk0 (sel_op_t.opResize ⟨0, 0⟩)).m_select_rect) ∧
    select_map_t.selCells (applySelOp select_map_t.mk0 (sel_op_t.opResize ⟨0, 0⟩)) = [] := by
  decide

/-! ### The document model (src/model.hpp)

Strings (`std::string`) are byte lists; `std::filesystem::path` values are
kept as their stored strings (`proximate`/`make_preferred` canonicalization
is outside the embedding).  Derived CHR pixel data (`chr_file_t::chr`,
`indices`, bitmaps) is derived display state loaded from external files and
is not part of the persisted model. -/

/-- A byte string. -/
abbrev str_t : Type := List Nat

/-- The bytes of an ASCII string literal. -/
def strBytes (s : String) : str_t := s.data.map Char.toNat

/-- `rgb_t`. -/
structure rgb_t where
  r : Nat
  g : Nat
  b : Nat
  deriving DecidableEq, Repr

/-- `class_field_t` (model.hpp:382). -/
structure class_field_t where
  type : str_t
  name : str_t
  deriving DecidableEq, Repr

/-- `object_class_t` (model.hpp:388).  The C++ field `macro` is a reserved
word in Lean and is called `macroStr` here. -/
structure object_class_t where
  name : str_t
  macroStr : str_t
  color : rgb_t
  fields : List class_field_t
  deriving DecidableEq, Repr

/-- `object_t` (model.hpp:55).  The `std::unordered_map` of fields is an
association list; lookup takes the first match. -/
structure object_t where
  position : coord_t
  name : str_t
  oclass : str_t
  fields : List (str_t × str_t)
  deriving DecidableEq, Repr

instance : Inhabited object_t := ⟨⟨⟨0, 0⟩, [], [], []⟩⟩

/-- `chr_file_t` (model.hpp:285), persisted part only. -/
structure chr_file_t where
  id : Nat
  name : str_t
  path : str_t
  deriving DecidableEq, Repr

/-- `level_model_t` (model.hpp:406), persisted/undoable part: the CHR
layer's and the collision layer's tile grids and the object list. -/
structure level_model_t where
  name : str_t
  macro_name : str_t
  chr_name : str_t
  palette : Nat
  chr_layer_tiles : grid_t Nat
  collision_tiles : grid_t Nat
  objects : List object_t
  deriving DecidableEq, Repr

instance : Inhabited level_model_t := ⟨⟨[], [], [], 0, ⟨0, 0, []⟩, ⟨0, 0, []⟩, []⟩⟩

/-- `model_t` (model.hpp:455), persisted/undoable part. -/
structure model_t where
  modified : Bool
  modified_since_save : Bool
  metatile_size : Nat
  collision_path : str_t
  chr_files : List chr_file_t
  palette_num : Nat
  color_tiles : grid_t Nat
  object_classes : List object_class_t
  levels : List level_model_t
  deriving DecidableEq, Repr

/-- `color_layer_t`'s constructor: a 25×256 grid filled with `0x0F`, the
first row overwritten with the example palette. -/
def mkColorTiles : grid_t Nat :=
  ⟨25, 256,
   [0x11, 0x2B, 0x39, 0x13, 0x21, 0x3B, 0x15, 0x23, 0x31, 0x17, 0x25, 0x33,
    0x02, 0x14, 0x26, 0x04, 0x16, 0x28, 0x06, 0x18, 0x2A, 0x08, 0x1A, 0x2C,
    0x0F] ++ List.replicate (256 * 25 - 25) 0x0F⟩

/-- `level_model_t`'s constructor: both layers resized to 24×24, default
tile value 0 everywhere, no objects. -/
def mkLevel : level_model_t :=
  { name := strBytes "level"
    macro_name := []
    chr_name := []
    palette := 0
    chr_layer_tiles := ⟨24, 24, List.replicate (24 * 24) 0⟩
    collision_tiles := ⟨24, 24, List.replicate (24 * 24) 0⟩
    objects := [] }

/-- `model_t`'s constructor. -/
def mkModel : model_t :=
  { modified := false
    modified_since_save := false
    metatile_size := 0
    collision_path := []
    chr_files := [⟨0, strBytes "chr", []⟩]
    palette_num := 1
    color_tiles := mkColorTiles
    object_classes := [⟨strBytes "object", [], ⟨255, 255, 255⟩, []⟩]
    levels := [{ mkLevel with chr_name := strBytes "chr" }] }

/-- `model_t::modify` (model.hpp:468). -/
def markModified (m : model_t) : model_t :=
  { m with modified := true, modified_since_save := true }

/-- Which concrete `tile_layer_t` an `undo_tiles_t::layer` pointer denotes:
the palette color layer or a level's CHR or collision layer. -/
inductive layer_ref_t
  | colorLayer
  | chrLayer (li : Nat)
  | collisionLayer (li : Nat)
  deriving DecidableEq, Repr

/-- `undo_t` (model.hpp:113): the command sum type.  Layer and level
pointers become layer references and level indices. -/
inductive undo_t
  | monostate
  | tiles (layer : layer_ref_t) (rect : rect_t) (ts : List Nat)
  | palette_num (num : Nat)
  | level_dimen (li : Nat) (tiles : grid_t Nat)
  | new_object (li : Nat) (indices : List Nat)
  | delete_object (li : Nat) (objects : List (Nat × object_t))
  | edit_object (li : Nat) (index : Nat) (object : object_t)
  | move_objects (li : Nat) (indices : List Nat) (positions : List coord_t)
  deriving DecidableEq, Repr

namespace model_t

/-- The tile grid a layer reference denotes. -/
def layerGrid (m : model_t) : layer_ref_t → grid_t Nat
  | .colorLayer => m.color_tiles
  | .chrLayer li => (m.levels.getD li default).chr_layer_tiles
  | .collisionLayer li => (m.levels.getD li default).collision_tiles

def setLevel (m : model_t) (li : Nat) (lvl : level_model_t) : model_t :=
  { m with levels := m.levels.set li lvl }

def setLayerGrid (m : model_t) : layer_ref_t → grid_t Nat → model_t
  | .colorLayer, g => { m with color_tiles := g }
  | .chrLayer li, g =>
    m.setLevel li { m.levels.getD li default with chr_layer_tiles := g }
  | .collisionLayer li, g =>
    m.setLevel li { m.levels.getD li default with collision_tiles := g }

/-- `tile_layer_t::canvas_dimen` per variant: the color layer reports
`{tiles.dimen().w, num}` (model.hpp:330), the others their grid size. -/
def canvasDimen (m : model_t) : layer_ref_t → dimen_t
  | .colorLayer => ⟨m.color_tiles.w, m.palette_num⟩
  | .chrLayer li => (m.levels.getD li default).chr_layer_tiles.dimen
  | .collisionLayer li => (m.levels.getD li default).collision_tiles.dimen

/-- `tile_layer_t::save(rect)` (model.cpp:259): crop to the canvas, snapshot
the cells in raster order. -/
def layerSave (m : model_t) (ref : layer_ref_t) (rect : rect_t) : undo_t :=
  .tiles ref (crop rect (m.canvasDimen ref))
    ((rectRange (crop rect (m.canvasDimen ref))).map fun c => (m.layerGrid ref).get c)

/-- `model_t::undo` / the `operator()` overloads (model.hpp:498,
model.cpp:393-451): apply a command, marking the model modified, and return
the inverse command. -/
def applyUndo (m0 : model_t) (u : undo_t) : model_t × undo_t :=
  let m := markModified m0
  match u with
  | .monostate => (m, .monostate)
  | .tiles ref rect ts =>
    let ret := m.layerSave ref rect
    let g := ((rectRange rect).zip ts).foldl (fun g p => g.set p.1 p.2) (m.layerGrid ref)
    (m.setLayerGrid ref g, ret)
  | .palette_num n => ({ m with palette_num := n }, .palette_num m.palette_num)
  | .level_dimen li g =>
    let lvl := m.levels.getD li default
    (m.setLevel li { lvl with chr_layer_tiles := g }, .level_dimen li lvl.chr_layer_tiles)
  | .new_object li indices =>
    let lvl := m.levels.getD li default
    let pairs := indices.reverse.map fun i => (i, lvl.objects.getD i default)
    let objs := indices.foldl (fun l i => l.eraseIdx i) lvl.objects
    (m.setLevel li { lvl with objects := objs }, .delete_object li pairs)
  | .delete_object li pairs =>
    let lvl := m.levels.getD li default
    let idxs := pairs.reverse.map Prod.fst
    let objs := pairs.foldl (fun l p => l.insertIdx p.1 p.2) lvl.objects
    (m.setLevel li { lvl with objects := objs }, .new_object li idxs)
  | .edit_object li idx obj =>
    let lvl := m.levels.getD li default
    let old := lvl.objects.getD idx default
    (m.setLevel li { lvl with objects := lvl.objects.set idx obj }, .edit_object li idx old)
  | .move_objects li idxs pos =>
    let lvl := m.levels.getD li default
    let oldpos := idxs.map fun i => (lvl.objects.getD i default).position
    let objs := (idxs.zip pos).foldl
      (fun l p => l.set p.1 { l.getD p.1 default with position := p.2 }) lvl.objects
    (m.setLevel li { lvl with objects := objs }, .move_objects li idxs oldpos)

/-- The document state: everything except the dirty flags. -/
def docState (m : model_t) : model_t :=
  { m with modified := false, modified_since_save := false }

end model_t

/-- The conditions under which a command is meaningful against a model:
pointers/indices denote live objects, rectangles lie inside their layer,
snapshot lengths match.  They hold for every command the editor constructs
and for every inverse `applyUndo` returns. -/
def undoValid (m : model_t) : undo_t → Prop
  | .monostate => True
  | .tiles ref rect ts =>
    (match ref with
     | .colorLayer => True
     | .chrLayer li => li < m.levels.length
     | .collisionLayer li => li < m.levels.length) ∧
    crop rect (m.canvasDimen ref) = rect ∧
    (∀ c ∈ rectRange rect, inBounds c (m.layerGrid ref).dimen) ∧
    ts.length = (rectRange rect).length ∧
    (m.layerGrid ref).wf
  | .palette_num _ => True
  | .level_dimen li _ => li < m.levels.length
  | .new_object li idxs =>
    li < m.levels.length ∧
    idxs.Pairwise (· > ·) ∧
    (∀ i ∈ idxs, i < (m.levels.getD li default).objects.length)
  | .delete_object li pairs =>
    li < m.levels.length ∧
    ∀ k (h : k < pairs.length),
      (pairs.get ⟨k, h⟩).1 ≤ (m.levels.getD li default).objects.length + k
  | .edit_object li idx _ =>
    li < m.levels.length ∧ idx < (m.levels.getD li default).objects.length
  | .move_objects li idxs pos =>
    li < m.levels.length ∧ idxs.length = pos.length ∧
    (∀ i ∈ idxs, i < (m.levels.getD li default).objects.length)

/-! ### List lemmas for the command round trips -/

theorem getD_set_same {α : Type} (l : List α) (i : Nat) (v d : α) (h : i < l.length) :
    (l.set i v).getD i d = v := by
  rw [List.getD_eq_getElem _ _ (by rw [List.length_set]; exact h), List.getElem_set_self]

theorem getD_set_other {α : Type} (l : List α) {i j : Nat} (v d : α) (hij : i ≠ j) :
    (l.set i v).getD j d = l.getD j d := by
  by_cases hj : j < l.length
  · rw [List.getD_eq_getElem _ _ (by rw [List.length_set]; exact hj),
      List.getD_eq_getElem _ _ hj, List.getElem_set_ne hij]
  · rw [List.getD_eq_default _ _ (by rw [List.length_set]; omega),
      List.getD_eq_default _ _ (by omega)]

theorem set_getD_self {α : Type} (l : List α) (i : Nat) (d : α) (h : i < l.length) :
    l.set i (l.getD i d) = l := by
  apply List.ext_getElem (by rw [List.length_set])
  intro j h1 h2
  by_cases hij : i = j
  · subst hij
    rw [List.getElem_set_self, List.getD_eq_getElem _ _ h]
  · rw [List.getElem_set_ne hij]

theorem eraseIdx_insert_back {α : Type} :
    ∀ (l : List α) (i : Nat) (d : α), i < l.length →
      (l.eraseIdx i).insertIdx i (l.getD i d) = l
  | [], i, d, h => by simp at h
  | x :: xs, 0, d, h => rfl
  | x :: xs, i + 1, d, h => by
    rw [List.eraseIdx_cons_succ, List.insertIdx_succ_cons]
    rw [show (x :: xs).getD (i + 1) d = xs.getD i d from rfl]
    rw [eraseIdx_insert_back xs i d (by simpa using h)]

theorem getD_eraseIdx_lt {α : Type} :
    ∀ (l : List α) (i j : Nat) (d : α), j < i → (l.eraseIdx i).getD j d = l.getD j d
  | [], i, j, d, h => rfl
  | x :: xs, 0, j, d, h => by omega
  | x :: xs, i + 1, 0, d, h => rfl
  | x :: xs, i + 1, j + 1, d, h => by
    rw [List.eraseIdx_cons_succ,
      show ((x :: xs.eraseIdx i)).getD (j + 1) d = (xs.eraseIdx i).getD j d from rfl,
      show (x :: xs).getD (j + 1) d = xs.getD j d from rfl]
    exact getD_eraseIdx_lt xs i j d (by omega)

theorem erase_insert_round {α : Type} (d : α) :
    ∀ (idxs : List Nat) (l : List α),
      idxs.Pairwise (· > ·) → (∀ i ∈ idxs, i < l.length) →
      (idxs.reverse.map fun i => (i, l.getD i d)).foldl
        (fun l p => l.insertIdx p.1 p.2)
        (idxs.foldl (fun l i => l.eraseIdx i) l) = l := by
  intro idxs
  induction idxs with
  | nil => intro l _ _; rfl
  | cons i rest ih =>
    intro l hpw hb
    have hi : i < l.length := hb i (List.mem_cons_self _ _)
    have hrest_lt : ∀ j ∈ rest, j < i := fun j hj => (List.pairwise_cons.1 hpw).1 j hj
    rw [List.foldl_cons, List.reverse_cons, List.map_append, List.foldl_append]
    have hmap : rest.reverse.map (fun j => (j, l.getD j d)) =
        rest.reverse.map (fun j => (j, (l.eraseIdx i).getD j d)) := by
      apply List.map_congr_left
      intro j hj
      rw [getD_eraseIdx_lt l i j d (hrest_lt j (List.mem_reverse.1 hj))]
    rw [hmap, ih (l.eraseIdx i) (List.pairwise_cons.1 hpw).2
      (fun j hj => by
        rw [List.length_eraseIdx_of_lt hi]
        have := hrest_lt j hj
        omega)]
    rw [List.map_cons, List.map_nil, List.foldl_cons, List.foldl_nil]
    exact eraseIdx_insert_back l i d hi

theorem insert_erase_round {α : Type} :
    ∀ (ps : List (Nat × α)) (l : List α),
      (∀ k (h : k < ps.length), (ps.get ⟨k, h⟩).1 ≤ l.length + k) →
      (ps.reverse.map Prod.fst).foldl (fun l i => l.eraseIdx i)
        (ps.foldl (fun l p => l.insertIdx p.1 p.2) l) = l := by
  intro ps
  induction ps with
  | nil => intro l _; rfl
  | cons p rest ih =>
    intro l hb
    have hp : p.1 ≤ l.length := by
      have := hb 0 (by simp)
      simpa using this
    rw [List.foldl_cons, List.reverse_cons, List.map_append, List.foldl_append]
    rw [ih (l.insertIdx p.1 p.2) (fun k hk => by
      have h2 := hb (k + 1) (by simpa using Nat.succ_lt_succ hk)
      rw [List.get_cons_succ] at h2
      have h3 : (rest.get ⟨k, hk⟩).1 ≤ l.length + (k + 1) := h2
      rw [List.length_insertIdx _ _ hp]
      omega)]
    rw [List.map_cons, List.map_nil, List.foldl_cons, List.foldl_nil]
    exact List.eraseIdx_insertIdx p.1 l

/-- The object-position write loop of `move_objects`. -/
def posWrites (ps : List (Nat × coord_t)) (l : List object_t) : List object_t :=
  ps.foldl (fun l p => l.set p.1 { l.getD p.1 default with position := p.2 }) l

theorem posWrites_length (ps : List (Nat × coord_t)) (l : List object_t) :
    (posWrites ps l).length = l.length := by
  induction ps generalizing l with
  | nil => rfl
  | cons p ps ih =>
    simp only [posWrites, List.foldl_cons] at ih ⊢
    rw [ih, List.length_set]

theorem posWrites_getD (ps : List (Nat × coord_t)) (l : List object_t)
    (j : Nat) (hj : j < l.length) :
    (posWrites ps l).getD j default =
      { l.getD j default with position := lastWrite ps j (l.getD j default).position } := by
  induction ps generalizing l with
  | nil => rfl
  | cons p ps ih =>
    simp only [posWrites, List.foldl_cons] at ih ⊢
    rw [ih _ (by rw [List.length_set]; exact hj), lastWrite_cons]
    by_cases hpj : p.1 = j
    · subst hpj
      rw [getD_set_same _ _ _ _ hj, if_pos rfl]
    · rw [getD_set_other _ _ _ hpj, if_neg hpj]

theorem zip_map_fst_pairs {α β γ : Type} (f : α → γ) :
    ∀ (cs : List α) (ts : List β),
      (cs.zip ts).map (fun p => (f p.1, p.2)) = (cs.map f).zip ts
  | [], _ => by simp
  | _ :: _, [] => by simp
  | c :: cs, t :: ts => by
    rw [List.zip_cons_cons, List.map_cons, List.map_cons, List.zip_cons_cons,
      zip_map_fst_pairs f cs ts]

theorem foldWrite_data {α : Type} [Inhabited α] (g : grid_t α) (ps : List (coord_t × α))
    (hb : ∀ p ∈ ps, inBounds p.1 g.dimen) :
    ps.foldl (fun g p => g.set p.1 p.2) g =
      ⟨g.w, g.h, writeSeq (ps.map fun p => (g.flatIdx p.1, p.2)) g.data⟩ := by
  induction ps generalizing g with
  | nil => rfl
  | cons p ps ih =>
    rw [List.foldl_cons, List.map_cons]
    have hset : g.set p.1 p.2 = ⟨g.w, g.h, g.data.set (g.flatIdx p.1) p.2⟩ := by
      unfold grid_t.set
      rw [if_pos (hb p (List.mem_cons_self _ _))]
    rw [hset, ih ⟨g.w, g.h, g.data.set (g.flatIdx p.1) p.2⟩
      (fun q hq => hb q (List.mem_cons_of_mem _ hq))]
    rfl

/-! ### Claim C1: every command's returned inverse restores the document -/

theorem markModified_layerGrid (m : model_t) (ref : layer_ref_t) :
    (markModified m).layerGrid ref = m.layerGrid ref := by
  cases ref <;> rfl

theorem markModified_canvasDimen (m : model_t) (ref : layer_ref_t) :
    (markModified m).canvasDimen ref = m.canvasDimen ref := by
  cases ref <;> rfl

theorem docState_setLayerGrid_round (m : model_t) (ref : layer_ref_t)
    (href : match ref with
      | layer_ref_t.colorLayer => True
      | layer_ref_t.chrLayer li => li < m.levels.length
      | layer_ref_t.collisionLayer li => li < m.levels.length)
    (g1 g2 : grid_t Nat) (hg2 : g2 = m.layerGrid ref) :
    ((markModified ((markModified m).setLayerGrid ref g1)).setLayerGrid ref g2).docState
      = m.docState := by
  subst hg2
  cases ref with
  | colorLayer => rfl
  | chrLayer li =>
    simp only [model_t.setLayerGrid, model_t.setLevel, model_t.layerGrid, markModified,
      model_t.docState]
    rw [getD_set_same _ _ _ _ href, List.set_set]
    have hcollapse : ({ { m.levels.getD li default with chr_layer_tiles := g1 } with
        chr_layer_tiles := (m.levels.getD li default).chr_layer_tiles })
        = m.levels.getD li default := rfl
    rw [hcollapse, set_getD_self _ _ _ href]
  | collisionLayer li =>
    simp only [model_t.setLayerGrid, model_t.setLevel, model_t.layerGrid, markModified,
      model_t.docState]
    rw [getD_set_same _ _ _ _ href, List.set_set]
    have hcollapse : ({ { m.levels.getD li default with collision_tiles := g1 } with
        collision_tiles := (m.levels.getD li default).collision_tiles })
        = m.levels.getD li default := rfl
    rw [hcollapse, set_getD_self _ _ _ href]

theorem layerGrid_setLayerGrid (m : model_t) (ref : layer_ref_t) (g : grid_t Nat)
    (href : match ref with
      | layer_ref_t.colorLayer => True
      | layer_ref_t.chrLayer li => li < m.levels.length
      | layer_ref_t.collisionLayer li => li < m.levels.length) :
    (m.setLayerGrid ref g).layerGrid ref = g := by
  cases ref with
  | colorLayer => rfl
  | chrLayer li =>
    show ((m.levels.set li _).getD li default).chr_layer_tiles = g
    rw [getD_set_same _ _ _ _ href]
  | collisionLayer li =>
    show ((m.levels.set li _).getD li default).collision_tiles = g
    rw [getD_set_same _ _ _ _ href]

theorem docState_setLevel_round (m : model_t) (li : Nat) (hli : li < m.levels.length)
    (lvl1 lvl2 : level_model_t) (hl2 : lvl2 = m.levels.getD li default) :
    ((markModified ((markModified m).setLevel li lvl1)).setLevel li lvl2).docState
      = m.docState := by
  subst hl2
  simp only [model_t.setLevel, markModified, model_t.docState]
  rw [List.set_set, set_getD_self _ _ _ hli]

theorem posWrites_round (idxs : List Nat) (pos : List coord_t) (l : List object_t)
    (hb : ∀ i ∈ idxs, i < l.length) :
    posWrites (idxs.zip (idxs.map fun i => (l.getD i default).position))
      (posWrites (idxs.zip pos) l) = l := by
  apply List.ext_getElem
  · rw [posWrites_length, posWrites_length]
  · intro j h1 h2
    rw [← List.getD_eq_getElem _ default h1, ← List.getD_eq_getElem _ default h2]
    rw [posWrites_getD _ _ _ (by rw [posWrites_length]; exact h2),
      posWrites_getD _ _ _ h2]
    by_cases hj : j ∈ idxs
    · have hall : ∀ p ∈ idxs.zip (idxs.map fun i => (l.getD i default).position),
          p.1 = j → p.2 = (l.getD j default).position := by
        intro p hp hpj
        rw [snd_of_mem_zip_map hp, hpj]
      rw [lastWrite_const hall (mem_map_fst_zip_self _ hj) _]
    · rw [lastWrite_not_mem _ (fun hc => hj (mem_of_mem_map_fst_zip hc)),
        lastWrite_not_mem _ (fun hc => hj (mem_of_mem_map_fst_zip hc))]

/-- Claim C1: for every undoable command (tile-region edit, palette-count
change, layer resize, object insert, object delete, object field edit,
objects move) that is valid against the model, applying the command and then
applying the inverse it returned restores the document state exactly (tile
grids, object lists, palette count and positions). -/
theorem C1_command_inverse_round_trip (m : model_t) (u : undo_t) (h : undoValid m u) :
    ((m.applyUndo u).1.applyUndo (m.applyUndo u).2).1.docState = m.docState := by
  cases u with
  | monostate => rfl
  | palette_num n => rfl
  | level_dimen li g =>
    have hli : li < m.levels.length := h
    have h1 : m.applyUndo (.level_dimen li g)
        = ((markModified m).setLevel li
            { m.levels.getD li default with chr_layer_tiles := g },
           .level_dimen li (m.levels.getD li default).chr_layer_tiles) := rfl
    rw [h1]
    have h2 : ∀ M1 : model_t, M1.applyUndo
          (.level_dimen li (m.levels.getD li default).chr_layer_tiles)
        = ((markModified M1).setLevel li
            { M1.levels.getD li default with
              chr_layer_tiles := (m.levels.getD li default).chr_layer_tiles },
           .level_dimen li (M1.levels.getD li default).chr_layer_tiles) := fun _ => rfl
    rw [h2]
    have hA : ((markModified m).setLevel li
        { m.levels.getD li default with chr_layer_tiles := g }).levels.getD li default
        = { m.levels.getD li default with chr_layer_tiles := g } :=
      getD_set_same _ _ _ _ hli
    rw [hA]
    exact docState_setLevel_round m li hli _ _ rfl
  | tiles ref rect ts =>
    obtain ⟨href, hcrop, hbnd, hlen, hwf⟩ := h
    have h1 : m.applyUndo (.tiles ref rect ts)
        = ((markModified m).setLayerGrid ref
            (((rectRange rect).zip ts).foldl (fun g p => g.set p.1 p.2)
              ((markModified m).layerGrid ref)),
           (markModified m).layerSave ref rect) := rfl
    have hsave1 : (markModified m).layerSave ref rect = .tiles ref rect
        ((rectRange rect).map fun c => (m.layerGrid ref).get c) := by
      unfold model_t.layerSave
      rw [markModified_canvasDimen, markModified_layerGrid, hcrop]
    rw [h1, hsave1, markModified_layerGrid]
    have hfold1 := foldWrite_data (m.layerGrid ref) ((rectRange rect).zip ts)
      (fun p hp => hbnd p.1 (List.of_mem_zip hp).1)
    rw [hfold1]
    have h2 : ∀ (M1 : model_t) (snap : List Nat), M1.applyUndo (.tiles ref rect snap)
        = ((markModified M1).setLayerGrid ref
            (((rectRange rect).zip snap).foldl (fun g p => g.set p.1 p.2)
              ((markModified M1).layerGrid ref)),
           (markModified M1).layerSave ref rect) := fun _ _ => rfl
    rw [h2, markModified_layerGrid]
    have hsetvalid : match ref with
        | layer_ref_t.colorLayer => True
        | layer_ref_t.chrLayer li => li < (markModified m).levels.length
        | layer_ref_t.collisionLayer li => li < (markModified m).levels.length := href
    rw [layerGrid_setLayerGrid (markModified m) ref _ hsetvalid]
    have hfold2 := foldWrite_data
      (⟨(m.layerGrid ref).w, (m.layerGrid ref).h,
        writeSeq (((rectRange rect).zip ts).map fun p =>
          ((m.layerGrid ref).flatIdx p.1, p.2)) (m.layerGrid ref).data⟩ : grid_t Nat)
      ((rectRange rect).zip ((rectRange rect).map fun c => (m.layerGrid ref).get c))
      (fun p hp => hbnd p.1 (List.of_mem_zip hp).1)
    rw [hfold2]
    have hfidx : (⟨(m.layerGrid ref).w, (m.layerGrid ref).h,
        writeSeq (((rectRange rect).zip ts).map fun p =>
          ((m.layerGrid ref).flatIdx p.1, p.2)) (m.layerGrid ref).data⟩ : grid_t Nat).flatIdx
        = (m.layerGrid ref).flatIdx := rfl
    rw [hfidx]
    have hzip1 : (((rectRange rect).zip ts).map fun p =>
        ((m.layerGrid ref).flatIdx p.1, p.2))
        = ((rectRange rect).map (m.layerGrid ref).flatIdx).zip ts :=
      zip_map_fst_pairs _ _ _
    have hzip2 : (((rectRange rect).zip ((rectRange rect).map fun c =>
        (m.layerGrid ref).get c)).map fun p => ((m.layerGrid ref).flatIdx p.1, p.2))
        = ((rectRange rect).map (m.layerGrid ref).flatIdx).zip
            ((rectRange rect).map fun c => (m.layerGrid ref).get c) :=
      zip_map_fst_pairs _ _ _
    rw [hzip1, hzip2]
    have hsnap : (rectRange rect).map (fun c => (m.layerGrid ref).get c)
        = ((rectRange rect).map (m.layerGrid ref).flatIdx).map
            (fun i => (m.layerGrid ref).data.getD i default) := by
      rw [List.map_map]
      apply List.map_congr_left
      intro c hc
      show (m.layerGrid ref).get c = (m.layerGrid ref).data.getD ((m.layerGrid ref).flatIdx c) default
      unfold grid_t.get
      rw [if_pos (hbnd c hc)]
    rw [hsnap, writeSeq_writeback]
    exact docState_setLayerGrid_round m ref href _ _ rfl
  | new_object li idxs =>
    obtain ⟨hli, hpw, hb⟩ := h
    have h1 : m.applyUndo (.new_object li idxs)
        = ((markModified m).setLevel li
            { m.levels.getD li default with
              objects := idxs.foldl (fun l i => l.eraseIdx i)
                (m.levels.getD li default).objects },
           .delete_object li (idxs.reverse.map fun i =>
             (i, (m.levels.getD li default).objects.getD i default))) := rfl
    rw [h1]
    have h2 : ∀ M1 : model_t, M1.applyUndo (.delete_object li
          (idxs.reverse.map fun i =>
            (i, (m.levels.getD li default).objects.getD i default)))
        = ((markModified M1).setLevel li
            { M1.levels.getD li default with
              objects := (idxs.reverse.map fun i =>
                (i, (m.levels.getD li default).objects.getD i default)).foldl
                (fun l p => l.insertIdx p.1 p.2) (M1.levels.getD li default).objects },
           .new_object li ((idxs.reverse.map fun i =>
             (i, (m.levels.getD li default).objects.getD i default)).reverse.map
               Prod.fst)) := fun _ => rfl
    rw [h2]
    have hA : ((markModified m).setLevel li
        { m.levels.getD li default with
          objects := idxs.foldl (fun l i => l.eraseIdx i)
            (m.levels.getD li default).objects }).levels.getD li default
        = { m.levels.getD li default with
            objects := idxs.foldl (fun l i => l.eraseIdx i)
              (m.levels.getD li default).objects } :=
      getD_set_same _ _ _ _ hli
    rw [hA]
    have hE : ({ m.levels.getD li default with
        objects := idxs.foldl (fun l i => l.eraseIdx i)
          (m.levels.getD li default).objects }).objects
        = idxs.foldl (fun l i => l.eraseIdx i) (m.levels.getD li default).objects := rfl
    rw [hE, erase_insert_round default idxs (m.levels.getD li default).objects hpw hb]
    exact docState_setLevel_round m li hli _ _ rfl
  | delete_object li pairs =>
    obtain ⟨hli, hb⟩ := h
    have h1 : m.applyUndo (.delete_object li pairs)
        = ((markModified m).setLevel li
            { m.levels.getD li default with
              objects := pairs.foldl (fun l p => l.insertIdx p.1 p.2)
                (m.levels.getD li default).objects },
           .new_object li (pairs.reverse.map Prod.fst)) := rfl
    rw [h1]
    have h2 : ∀ M1 : model_t, M1.applyUndo (.new_object li (pairs.reverse.map Prod.fst))
        = ((markModified M1).setLevel li
            { M1.levels.getD li default with
              objects := (pairs.reverse.map Prod.fst).foldl (fun l i => l.eraseIdx i)
                (M1.levels.getD li default).objects },
           .delete_object li ((pairs.reverse.map Prod.fst).reverse.map fun i =>
             (i, (M1.levels.getD li default).objects.getD i default))) := fun _ => rfl
    rw [h2]
    have hA : ((markModified m).setLevel li
        { m.levels.getD li default with
          objects := pairs.foldl (fun l p => l.insertIdx p.1 p.2)
            (m.levels.getD li default).objects }).levels.getD li default
        = { m.levels.getD li default with
            objects := pairs.foldl (fun l p => l.insertIdx p.1 p.2)
              (m.levels.getD li default).objects } :=
      getD_set_same _ _ _ _ hli
    rw [hA]
    have hE : ({ m.levels.getD li default with
        objects := pairs.foldl (fun (l : List object_t) (p : Nat × object_t) =>
          l.insertIdx p.1 p.2) (m.levels.getD li default).objects }).objects
        = pairs.foldl (fun (l : List object_t) (p : Nat × object_t) =>
          l.insertIdx p.1 p.2) (m.levels.getD li default).objects := rfl
    rw [hE, insert_erase_round pairs (m.levels.getD li default).objects hb]
    exact docState_setLevel_round m li hli _ _ rfl
  | edit_object li idx obj =>
    obtain ⟨hli, hidx⟩ := h
    have h1 : m.applyUndo (.edit_object li idx obj)
        = ((markModified m).setLevel li
            { m.levels.getD li default with
              objects := (m.levels.getD li default).objects.set idx obj },
           .edit_object li idx ((m.levels.getD li default).objects.getD idx default)) := rfl
    rw [h1]
    have h2 : ∀ M1 : model_t, M1.applyUndo (.edit_object li idx
          ((m.levels.getD li default).objects.getD idx default))
        = ((markModified M1).setLevel li
            { M1.levels.getD li default with
              objects := (M1.levels.getD li default).objects.set idx
                ((m.levels.getD li default).objects.getD idx default) },
           .edit_object li idx
             ((M1.levels.getD li default).objects.getD idx default)) := fun _ => rfl
    rw [h2]
    have hA : ((markModified m).setLevel li
        { m.levels.getD li default with
          objects := (m.levels.getD li default).objects.set idx obj }).levels.getD li default
        = { m.levels.getD li default with
            objects := (m.levels.getD li default).objects.set idx obj } :=
      getD_set_same _ _ _ _ hli
    rw [hA]
    have hE : ({ m.levels.getD li default with
        objects := (m.levels.getD li default).objects.set idx obj }).objects
        = (m.levels.getD li default).objects.set idx obj := rfl
    rw [hE, List.set_set, set_getD_self _ _ _ hidx]
    exact docState_setLevel_round m li hli _ _ rfl
  | move_objects li idxs pos =>
    obtain ⟨hli, hlen, hb⟩ := h
    have h1 : m.applyUndo (.move_objects li idxs pos)
        = ((markModified m).setLevel li
            { m.levels.getD li default with
              objects := posWrites (idxs.zip pos) (m.levels.getD li default).objects },
           .move_objects li idxs (idxs.map fun i =>
             ((m.levels.getD li default).objects.getD i default).position)) := rfl
    rw [h1]
    have h2 : ∀ M1 : model_t, M1.applyUndo (.move_objects li idxs
          (idxs.map fun i =>
            ((m.levels.getD li default).objects.getD i default).position))
        = ((markModified M1).setLevel li
            { M1.levels.getD li default with
              objects := posWrites (idxs.zip (idxs.map fun i =>
                ((m.levels.getD li default).objects.getD i default).position))
                (M1.levels.getD li default).objects },
           .move_objects li idxs (idxs.map fun i =>
             ((M1.levels.getD li default).objects.getD i default).position)) := fun _ => rfl
    rw [h2]
    have hA : ((markModified m).setLevel li
        { m.levels.getD li default with
          objects := posWrites (idxs.zip pos)
            (m.levels.getD li default).objects }).levels.getD li default
        = { m.levels.getD li default with
            objects := posWrites (idxs.zip pos) (m.levels.getD li default).objects } :=
      getD_set_same _ _ _ _ hli
    rw [hA]
    have hE : ({ m.levels.getD li default with
        objects := posWrites (idxs.zip pos) (m.levels.getD li default).objects }).objects
        = posWrites (idxs.zip pos) (m.levels.getD li default).objects := rfl
    have hm : (idxs.map fun i =>
        ((m.levels.getD li default).objects.getD i default).position)
        = idxs.map fun i =>
          (((m.levels.getD li default).objects).getD i default).position := rfl
    rw [hE, posWrites_round idxs pos (m.levels.getD li default).objects hb]
    exact docState_setLevel_round m li hli _ _ rfl

/-- Witness for C1: deleting the two objects of a two-object level and then
applying the returned insert command restores the document exactly. -/
theorem C1_witness :
    undoValid
      { mkModel with levels := [{ mkLevel with objects :=
          [⟨⟨1, 2⟩, strBytes "a", strBytes "object", []⟩,
           ⟨⟨3, 4⟩, strBytes "b", strBytes "object", []⟩] }] }
      (undo_t.new_object 0 [1, 0]) ∧
    ((({ mkModel with levels := [{ mkLevel with objects :=
          [⟨⟨1, 2⟩, strBytes "a", strBytes "object", []⟩,
           ⟨⟨3, 4⟩, strBytes "b", strBytes "object", []⟩] }] } : model_t).applyUndo
        (undo_t.new_object 0 [1, 0])).1.applyUndo
      (({ mkModel with levels := [{ mkLevel with objects :=
          [⟨⟨1, 2⟩, strBytes "a", strBytes "object", []⟩,
           ⟨⟨3, 4⟩, strBytes "b", strBytes "object", []⟩] }] } : model_t).applyUndo
        (undo_t.new_object 0 [1, 0])).2).1.docState
      = ({ mkModel with levels := [{ mkLevel with objects :=
          [⟨⟨1, 2⟩, strBytes "a", strBytes "object", []⟩,
           ⟨⟨3, 4⟩, strBytes "b", strBytes "object", []⟩] }] } : model_t).docState := by
  refine ⟨⟨by decide, by decide, by decide⟩, ?_⟩
  exact C1_command_inverse_round_trip _ _ ⟨by decide, by decide, by decide⟩

/-! ### Undo history (`undo_history_t`, model.hpp:515-539, model.cpp:1043-1056) -/

/-- model.hpp:32 `static constexpr std::size_t UNDO_LIMIT = 256;` -/
def UNDO_LIMIT : Nat := 256

/-- `undo_history_t`: `history[UNDO]` is `undos`, `history[REDO]` is `redos`;
deque fronts are list heads. -/
structure undo_history_t where
  undos : List undo_t
  redos : List undo_t
  deriving DecidableEq, Repr

/-- model.cpp:1043-1047 `undo_history_t::cull`. -/
def undo_history_t.cull (h : undo_history_t) : undo_history_t :=
  if h.undos.length > UNDO_LIMIT then { h with undos := h.undos.take UNDO_LIMIT } else h

/-- model.cpp:1049-1056 `undo_history_t::push`. -/
def undo_history_t.push (h : undo_history_t) (u : undo_t) : undo_history_t :=
  match u with
  | .monostate => h
  | _ => undo_history_t.cull { undos := u :: h.undos, redos := [] }

/-- model.hpp:519-526 `undo_history_t::undo<UNDO>` acting on a model. -/
def undo_history_t.doUndo (h : undo_history_t) (m : model_t) : undo_history_t × model_t :=
  match h.undos with
  | [] => (h, m)
  | u :: rest =>
    let r := m.applyUndo u
    (⟨rest, r.2 :: h.redos⟩, r.1)

/-- model.hpp:519-526 `undo_history_t::undo<REDO>` acting on a model. -/
def undo_history_t.doRedo (h : undo_history_t) (m : model_t) : undo_history_t × model_t :=
  match h.redos with
  | [] => (h, m)
  | u :: rest =>
    let r := m.applyUndo u
    (⟨r.2 :: h.undos, rest⟩, r.1)

/-- Claim C7: pushing the no-op command changes nothing; any other push clears
the redo stack, prepends to the undo stack and truncates it to `UNDO_LIMIT`
(= 256) entries, so the stack length never exceeds 256 and a push onto a full
stack keeps the new command plus the 255 most recent old ones, discarding the
oldest. -/
theorem C7_undo_limit (h : undo_history_t) (u : undo_t) (hne : u ≠ undo_t.monostate) :
    undo_history_t.push h undo_t.monostate = h ∧
    (h.push u).redos = [] ∧
    (h.push u).undos = (u :: h.undos).take UNDO_LIMIT ∧
    (h.push u).undos.length ≤ UNDO_LIMIT ∧
    (UNDO_LIMIT ≤ h.undos.length →
      (h.push u).undos = u :: h.undos.take (UNDO_LIMIT - 1)) := by
  have hpush : h.push u = undo_history_t.cull ⟨u :: h.undos, []⟩ := by
    cases u with
    | monostate => exact absurd rfl hne
    | tiles ref rect ts => rfl
    | palette_num n => rfl
    | level_dimen li g => rfl
    | new_object li idxs => rfl
    | delete_object li pairs => rfl
    | edit_object li idx obj => rfl
    | move_objects li idxs pos => rfl
  refine ⟨rfl, ?_, ?_, ?_, ?_⟩
  · rw [hpush]
    unfold undo_history_t.cull
    by_cases hlen : (⟨u :: h.undos, []⟩ : undo_history_t).undos.length > UNDO_LIMIT
    · rw [if_pos hlen]
    · rw [if_neg hlen]
  · rw [hpush]
    unfold undo_history_t.cull
    by_cases hlen : (⟨u :: h.undos, []⟩ : undo_history_t).undos.length > UNDO_LIMIT
    · rw [if_pos hlen]
    · rw [if_neg hlen]
      show u :: h.undos = (u :: h.undos).take UNDO_LIMIT
      rw [List.take_of_length_le (by simpa using Nat.le_of_not_lt hlen)]
  · rw [hpush]
    unfold undo_history_t.cull
    by_cases hlen : (⟨u :: h.undos, []⟩ : undo_history_t).undos.length > UNDO_LIMIT
    · rw [if_pos hlen]
      show ((u :: h.undos).take UNDO_LIMIT).length ≤ UNDO_LIMIT
      rw [List.length_take]
      omega
    · rw [if_neg hlen]
      show (u :: h.undos).length ≤ UNDO_LIMIT
      exact Nat.le_of_not_lt hlen
  · intro hfull
    rw [hpush]
    unfold undo_history_t.cull
    rw [if_pos (by show (u :: h.undos).length > UNDO_LIMIT; simp; omega)]
    show (u :: h.undos).take UNDO_LIMIT = u :: h.undos.take (UNDO_LIMIT - 1)
    rfl

/-- Witness for C7: pushing onto a full (256-entry) undo stack keeps the new
command and the 255 most recent old entries. -/
theorem C7_witness :
    (undo_t.palette_num 2 ≠ undo_t.monostate) ∧
    UNDO_LIMIT ≤ (List.replicate UNDO_LIMIT (undo_t.palette_num 1)).length ∧
    ((⟨List.replicate UNDO_LIMIT (undo_t.palette_num 1), []⟩ : undo_history_t).push
        (undo_t.palette_num 2)).undos
      = undo_t.palette_num 2 ::
        (List.replicate UNDO_LIMIT (undo_t.palette_num 1)).take (UNDO_LIMIT - 1) := by
  refine ⟨by decide, by decide, ?_⟩
  exact (C7_undo_limit ⟨List.replicate UNDO_LIMIT (undo_t.palette_num 1), []⟩
    (undo_t.palette_num 2) (by decide)).2.2.2.2 (by decide)

/-- Claim C9: undo() with an empty undo stack, and redo() with an empty redo
stack, are no-ops: the model (including dirty flags) and both history stacks
are returned unchanged, and no failure occurs. -/
theorem C9_empty_history_noop (h : undo_history_t) (m : model_t) :
    (h.undos = [] → h.doUndo m = (h, m)) ∧
    (h.redos = [] → h.doRedo m = (h, m)) := by
  constructor
  · intro he
    unfold undo_history_t.doUndo
    rw [he]
  · intro he
    unfold undo_history_t.doRedo
    rw [he]

/-- Witness for C9: both no-op cases at the empty history and default model. -/
theorem C9_witness :
    (⟨[], []⟩ : undo_history_t).doUndo mkModel = (⟨[], []⟩, mkModel) ∧
    (⟨[], []⟩ : undo_history_t).doRedo mkModel = (⟨[], []⟩, mkModel) :=
  ⟨(C9_empty_history_noop ⟨[], []⟩ mkModel).1 rfl,
   (C9_empty_history_noop ⟨[], []⟩ mkModel).2 rfl⟩

/-! ### PNG to CHR conversion (`png_to_chr`, convert.cpp:108-258)

The lodepng decode step is external; the embedding takes the decoded image
content (per colortype) as input, exactly as the colortype switch of
convert.cpp:167-207 consumes it.  All pixel bytes are `uint8`, modelled as
`% 256`. -/

/-- Decoded image content by PNG colortype: `palette` carries the palette
entries' alpha bytes (`color.palette[4*i+3]`) and the palette-index pixels;
`grey` carries grey bytes (LCT_GREY / LCT_RGB decoded to grey); `greyAlpha`
carries (grey, alpha) byte pairs. -/
inductive png_pixels_t
  | palette (alphas : List Nat) (pixels : List Nat)
  | grey (pixels : List Nat)
  | greyAlpha (pixels : List (Nat × Nat))
  deriving DecidableEq, Repr

/-- convert.cpp:119-127 `palette_map_t::palette_map_t`: indices of palette
entries whose alpha is ≥ 128, stored as `uint8`. -/
def paletteMapOf (alphas : List Nat) : List Nat :=
  ((List.range alphas.length).filter fun i => 128 ≤ alphas.getD i 0 % 256).map (· % 256)

/-- convert.cpp:129-135 `palette_map_t::lookup`: first index whose stored
value equals the pixel, else 0. -/
def paletteLookup (m : List Nat) (p : Nat) : Nat :=
  match m.findIdx? (· = p) with
  | some i => i % 256
  | none => 0

/-- convert.cpp:137-143 `palette_map_t::is_alpha`: true iff the pixel matches
no stored entry. -/
def paletteIsAlpha (m : List Nat) (p : Nat) : Bool :=
  !m.contains p

/-- convert.cpp:167-207: the colortype switch producing the 2-bit image and
the per-pixel transparency flags. -/
def decodeImage (n : Nat) (img : png_pixels_t) : List Nat × List Bool :=
  match img with
  | .palette alphas pixels =>
    let m := paletteMapOf alphas
    (pixels.map fun p => paletteLookup m (p % 256),
     pixels.map fun p => paletteIsAlpha m (p % 256))
  | .grey pixels =>
    (pixels.map fun p => p % 256 / 64, List.replicate n false)
  | .greyAlpha pixels =>
    (pixels.map fun p => p.1 % 256 / 64,
     pixels.map fun p => decide (p.2 % 256 < 128))

/-- convert.cpp:232-246: the 16 CHR bytes of the 8×8 block at (tx, ty) —
8 plane-0 bytes then 8 plane-1 bytes, each accumulated in a `uint8`. -/
def chrBlock (image : List Nat) (width tx ty : Nat) : List Nat :=
  ((List.range 8).map fun y =>
    (List.range 8).foldl (fun v x =>
      (v ||| ((image.getD (tx + x + (ty + y) * width) 0 &&& 1) <<< (7 - x))) % 256) 0)
  ++ ((List.range 8).map fun y =>
    (List.range 8).foldl (fun v x =>
      (v ||| ((image.getD (tx + x + (ty + y) * width) 0 >>> 1) <<< (7 - x))) % 256) 0)

/-- convert.cpp:221-229: `(any_transparent, any_opaque)` of the block at
(tx, ty). -/
def blockTransparency (transparent : List Bool) (width tx ty : Nat) : Bool × Bool :=
  ((List.range 8).any fun y => (List.range 8).any fun x =>
      transparent.getD (tx + x + (ty + y) * width) false,
   (List.range 8).any fun y => (List.range 8).any fun x =>
      !transparent.getD (tx + x + (ty + y) * width) false)

/-- convert.cpp:218-219: the raster enumeration of the 8×8 block origins —
outer loop `ty` in steps of 8, inner loop `tx` in steps of 8 — as
(ty, tx) pairs. -/
def chrBlockList (width height : Nat) : List (Nat × Nat) :=
  (List.range (height / 8)).flatMap fun i =>
    (List.range (width / 8)).map fun j => (8 * i, 8 * j)

/-- convert.cpp:218-252: one iteration of the block loop on the running state
(result, indices, index): the block's transparency flags, the 16 bytes always
appended, the `uint16` index counter advanced unless the block is fully
transparent (the `continue` skips only `index += 1`), and the (possibly
advanced) counter appended to `indices` by the loop-increment clause,
`continue` included. -/
def chrStep (image : List Nat) (transparent : List Bool) (width : Nat)
    (acc : List Nat × List Nat × Nat) (b : Nat × Nat) : List Nat × List Nat × Nat :=
  let t := blockTransparency transparent width b.2 b.1
  let newIndex := if t.1 && !t.2 then acc.2.2 else (acc.2.2 + 1) % 65536
  (acc.1 ++ chrBlock image width b.2 b.1, acc.2.1 ++ [newIndex], newIndex)

/-- convert.cpp:218-252: the full block loop, folding `chrStep` over the
block list from the empty output and index 0. -/
def chrBlocksFold (image : List Nat) (transparent : List Bool) (width : Nat)
    (blocks : List (Nat × Nat)) : List Nat × List Nat × Nat :=
  blocks.foldl (chrStep image transparent width) ([], [], 0)

/-- convert.cpp:151-258 `png_to_chr` on a decoded image: the `% 8` format
checks, then the colortype transform, then the block loop; returns
(chr bytes, indices). -/
def png_to_chr (width height : Nat) (img : png_pixels_t) :
    Except String (List Nat × List Nat) :=
  if width % 8 ≠ 0 then .error "Image width is not a multiple of 8."
  else if height % 8 ≠ 0 then .error "Image height is not a multiple of 8."
  else
    let it := decodeImage (width * height) img
    let r := chrBlocksFold it.1 it.2 width (chrBlockList width height)
    .ok (r.1, r.2.1)

/-- Claim C8: whenever the width or the height is not a multiple of 8,
`png_to_chr` fails with one of the two format-error messages; the `Except`
error carries no partial output — no bytes and no index entries. -/
theorem C8_dimension_error (width height : Nat) (img : png_pixels_t)
    (h : width % 8 ≠ 0 ∨ height % 8 ≠ 0) :
    png_to_chr width height img = .error "Image width is not a multiple of 8." ∨
    png_to_chr width height img = .error "Image height is not a multiple of 8." := by
  unfold png_to_chr
  by_cases hw : width % 8 ≠ 0
  · left
    rw [if_pos hw]
  · right
    rw [if_neg hw, if_pos (h.resolve_left hw)]

/-- Witness for C8: a 9×8 image fails with the width format error. -/
theorem C8_witness :
    (9 % 8 ≠ 0 ∨ 8 % 8 ≠ 0) ∧
    (png_to_chr 9 8 (png_pixels_t.grey []) = .error "Image width is not a multiple of 8." ∨
     png_to_chr 9 8 (png_pixels_t.grey []) = .error "Image height is not a multiple of 8.") :=
  ⟨Or.inl (by decide), C8_dimension_error 9 8 (png_pixels_t.grey []) (Or.inl (by decide))⟩

/-- The first state component of one block-loop step: the block's 16 bytes
are appended to the output unconditionally, before the transparency test. -/
theorem chrStep_fst (image : List Nat) (transparent : List Bool) (width : Nat)
    (s : List Nat × List Nat × Nat) (b : Nat × Nat) :
    (chrStep image transparent width s b).1 = s.1 ++ chrBlock image width b.2 b.1 := rfl

/-- One block-loop step appends exactly one entry to the index list. -/
theorem chrStep_snd_length (image : List Nat) (transparent : List Bool) (width : Nat)
    (s : List Nat × List Nat × Nat) (b : Nat × Nat) :
    (chrStep image transparent width s b).2.1.length = s.2.1.length + 1 := by
  show (s.2.1 ++ [_]).length = s.2.1.length + 1
  simp

/-- A block-loop step at a fully transparent block (some transparent pixel,
no non-transparent pixel) appends the block's 16 bytes, records the running
counter in the index list, and leaves the counter unincremented. -/
theorem chrStep_fully_transparent (image : List Nat) (transparent : List Bool)
    (width : Nat) (s : List Nat × List Nat × Nat) (b : Nat × Nat)
    (ht : blockTransparency transparent width b.2 b.1 = (true, false)) :
    chrStep image transparent width s b
      = (s.1 ++ chrBlock image width b.2 b.1, s.2.1 ++ [s.2.2], s.2.2) := by
  simp [chrStep, ht]

/-- A block-loop step at a block with at least one non-transparent pixel
appends the block's 16 bytes and advances the `uint16` counter, recording
the advanced value in the index list. -/
theorem chrStep_counted (image : List Nat) (transparent : List Bool)
    (width : Nat) (s : List Nat × List Nat × Nat) (b : Nat × Nat)
    (ho : (blockTransparency transparent width b.2 b.1).2 = true) :
    chrStep image transparent width s b
      = (s.1 ++ chrBlock image width b.2 b.1, s.2.1 ++ [(s.2.2 + 1) % 65536],
         (s.2.2 + 1) % 65536) := by
  simp [chrStep, ho]

/-- The byte output of the block loop from any state is the incoming bytes
followed by every block's 16 bytes in raster order, regardless of
transparency. -/
theorem foldl_chrStep_bytes (image : List Nat) (transparent : List Bool) (width : Nat) :
    ∀ (blocks : List (Nat × Nat)) (s : List Nat × List Nat × Nat),
      (blocks.foldl (chrStep image transparent width) s).1
        = s.1 ++ blocks.flatMap fun c => chrBlock image width c.2 c.1 := by
  intro blocks
  induction blocks with
  | nil => intro s; simp
  | cons b bs ih =>
    intro s
    rw [List.foldl_cons, ih, chrStep_fst, List.flatMap_cons, List.append_assoc]

/-- The block loop appends exactly one index entry per block. -/
theorem foldl_chrStep_indices (image : List Nat) (transparent : List Bool) (width : Nat) :
    ∀ (blocks : List (Nat × Nat)) (s : List Nat × List Nat × Nat),
      (blocks.foldl (chrStep image transparent width) s).2.1.length
        = s.2.1.length + blocks.length := by
  intro blocks
  induction blocks with
  | nil => intro s; simp
  | cons b bs ih =>
    intro s
    rw [List.foldl_cons, ih, chrStep_snd_length, List.length_cons]
    omega

/-- Every 8×8 block contributes exactly 16 CHR bytes. -/
theorem chrBlock_length (image : List Nat) (width tx ty : Nat) :
    (chrBlock image width tx ty).length = 16 := by
  simp [chrBlock]

/-- Claim C3 (amended): for every decoded image passing the dimension checks
and every fully transparent block `b` in its block list, `png_to_chr` still
emits that block's 16 CHR bytes — the whole byte output is the concatenation
of every block's 16 bytes, transparent blocks included; the index list gets
one entry per block, `b` included; the step at `b` appends its bytes, records
the running counter as its entry, and leaves the counter unincremented; and
any block with a non-transparent pixel advances the counter instead. -/
theorem C3_transparent_block (width height : Nat) (img : png_pixels_t)
    (pre post : List (Nat × Nat)) (b : Nat × Nat)
    (hw : width % 8 = 0) (hh : height % 8 = 0)
    (hsplit : chrBlockList width height = pre ++ b :: post)
    (ht : blockTransparency (decodeImage (width * height) img).2 width b.2 b.1
        = (true, false)) :
    png_to_chr width height img
      = Except.ok
          ((pre ++ b :: post).flatMap
             (fun c => chrBlock (decodeImage (width * height) img).1 width c.2 c.1),
           (chrBlocksFold (decodeImage (width * height) img).1
              (decodeImage (width * height) img).2 width (pre ++ b :: post)).2.1) ∧
    (chrBlock (decodeImage (width * height) img).1 width b.2 b.1).length = 16 ∧
    (chrBlocksFold (decodeImage (width * height) img).1
        (decodeImage (width * height) img).2 width (pre ++ b :: post)).2.1.length
      = (pre ++ b :: post).length ∧
    chrBlocksFold (decodeImage (width * height) img).1
        (decodeImage (width * height) img).2 width (pre ++ [b])
      = ((chrBlocksFold (decodeImage (width * height) img).1
            (decodeImage (width * height) img).2 width pre).1
           ++ chrBlock (decodeImage (width * height) img).1 width b.2 b.1,
         (chrBlocksFold (decodeImage (width * height) img).1
            (decodeImage (width * height) img).2 width pre).2.1
           ++ [(chrBlocksFold (decodeImage (width * height) img).1
                  (decodeImage (width * height) img).2 width pre).2.2],
         (chrBlocksFold (decodeImage (width * height) img).1
            (decodeImage (width * height) img).2 width pre).2.2) ∧
    (∀ (s : List Nat × List Nat × Nat) (c : Nat × Nat),
      (blockTransparency (decodeImage (width * height) img).2 width c.2 c.1).2 = true →
      chrStep (decodeImage (width * height) img).1
          (decodeImage (width * height) img).2 width s c
        = (s.1 ++ chrBlock (decodeImage (width * height) img).1 width c.2 c.1,
           s.2.1 ++ [(s.2.2 + 1) % 65536], (s.2.2 + 1) % 65536)) := by
  have hb : (chrBlocksFold (decodeImage (width * height) img).1
      (decodeImage (width * height) img).2 width (pre ++ b :: post)).1
    = (pre ++ b :: post).flatMap
        fun c => chrBlock (decodeImage (width * height) img).1 width c.2 c.1 := by
    unfold chrBlocksFold
    rw [foldl_chrStep_bytes]
    rfl
  refine ⟨?_, chrBlock_length _ _ _ _, ?_, ?_, ?_⟩
  · have h0 : png_to_chr width height img
        = Except.ok ((chrBlocksFold (decodeImage (width * height) img).1
            (decodeImage (width * height) img).2 width (chrBlockList width height)).1,
          (chrBlocksFold (decodeImage (width * height) img).1
            (decodeImage (width * height) img).2 width (chrBlockList width height)).2.1) := by
      unfold png_to_chr
      rw [if_neg (not_not_intro hw), if_neg (not_not_intro hh)]
    rw [h0, hsplit, hb]
  · unfold chrBlocksFold
    rw [foldl_chrStep_indices]
    simp
  · unfold chrBlocksFold
    rw [List.foldl_append, List.foldl_cons, List.foldl_nil]
    exact chrStep_fully_transparent _ _ _ _ _ ht
  · intro s c hc
    exact chrStep_counted _ _ _ _ _ hc

/-- A two-block 16×8 grey+alpha demo image: the left 8×8 block opaque
(alpha 255), the right 8×8 block fully transparent (alpha 0). -/
def chrDemoImage : png_pixels_t :=
  png_pixels_t.greyAlpha ((List.range 128).map fun k =>
    (k % 7, if k % 16 < 8 then 255 else 0))

/-- Counterexample to C3 as claimed: an 8×8 grey+alpha image with every pixel
fully transparent yields 16 output bytes, not zero, alongside the one-element
index list. -/
theorem C3_counterexample :
    png_to_chr 8 8 (png_pixels_t.greyAlpha (List.replicate 64 (0, 0)))
      = Except.ok (List.replicate 16 0, [0]) ∧
    (List.replicate 16 0 : List Nat).length ≠ 0 :=
  ⟨rfl, by decide⟩

/-! ### Tile-layer fill (`tile_layer_t::fill`, model.cpp:211-229) -/

/-- The slice of `tile_layer_t` that `fill` touches (model.hpp:225-250):
picker and canvas selectors and the tile grid; `canvas_dimen()` is
`tiles.dimen()`, and the virtual `to_tile` is passed as a function. -/
structure tile_layer_t where
  picker_selector : select_map_t
  canvas_selector : select_map_t
  tiles : grid_t Nat
  deriving DecidableEq, Repr

/-- model.cpp:256-266 `tile_layer_t::save`: the cropped rectangle and its
tile snapshot in raster order. -/
def tile_layer_t.save (L : tile_layer_t) (rect : rect_t) : rect_t × List Nat :=
  (crop rect L.tiles.dimen,
   (rectRange (crop rect L.tiles.dimen)).map fun c => L.tiles.get c)

/-- model.hpp:146-151 `for_each_selected`: the coordinates of the cached
(uncropped) selection rectangle whose cell is selected, in raster order. -/
def tile_layer_t.fillWrites (L : tile_layer_t) : List coord_t :=
  (rectRange L.canvas_selector.m_select_rect).filter
    fun c => L.canvas_selector.m_selection.get c

/-- model.cpp:223-226, the fill value at cell `c`:
`o = c - canvas_rect.c; p = coord_t{ o.x % picker_rect.d.w, o.y % picker_rect.d.h } + picker_rect.c; to_tile(p)`.
The C++ `%` converts the `int` offset to `unsigned` first (`% 4294967296`),
takes the unsigned remainder, and converts back to `int` for the coord. -/
def fillTile (canvas_rect picker_rect : rect_t) (toTile : coord_t → Nat)
    (c : coord_t) : Nat :=
  toTile
    ⟨((((c.x - canvas_rect.c.x) % 4294967296).toNat % picker_rect.d.w : Nat) : Int)
        + picker_rect.c.x,
     ((((c.y - canvas_rect.c.y) % 4294967296).toNat % picker_rect.d.h : Nat) : Int)
        + picker_rect.c.y⟩

/-- model.cpp:211-229 `tile_layer_t::fill`: nothing happens and the no-op
command (`none`) is returned when the cropped canvas selection or the picker
selection is empty; otherwise the snapshot command is built and every
selected cell is overwritten with its wrapped picker tile. -/
def tile_layer_t.fill (L : tile_layer_t) (toTile : coord_t → Nat) :
    tile_layer_t × Option (rect_t × List Nat) :=
  if 0 < (crop L.canvas_selector.m_select_rect L.tiles.dimen).d.w ∧
     0 < (crop L.canvas_selector.m_select_rect L.tiles.dimen).d.h ∧
     0 < L.picker_selector.m_select_rect.d.w ∧
     0 < L.picker_selector.m_select_rect.d.h then
    ({ L with
        tiles := L.fillWrites.foldl (fun g c => g.set c
          (fillTile (crop L.canvas_selector.m_select_rect L.tiles.dimen)
            L.picker_selector.m_select_rect toTile c)) L.tiles },
     some (L.save L.canvas_selector.m_select_rect))
  else (L, none)

theorem crop_c_of_pos {r : rect_t} {d : dimen_t} (h : rectPos (crop r d)) :
    (crop r d).c = ⟨max r.c.x 0, max r.c.y 0⟩ := by
  unfold crop at h ⊢
  by_cases hcond : max r.c.x 0 < min (r.c.x + r.d.w) ((d.w : Int)) ∧
      max r.c.y 0 < min (r.c.y + r.d.h) ((d.h : Int))
  · rw [if_pos hcond]
  · rw [if_neg hcond] at h
    exact absurd h select_map_t.rectPos_empty

theorem foldWriteF_eq {α : Type} [Inhabited α] (g : grid_t α) (cs : List coord_t)
    (f : coord_t → α) :
    cs.foldl (fun g c => g.set c (f c)) g
      = (cs.map fun c => (c, f c)).foldl (fun g p => g.set p.1 p.2) g := by
  induction cs generalizing g with
  | nil => rfl
  | cons c cs ih => rw [List.foldl_cons, List.map_cons, List.foldl_cons, ih]

theorem get_writeSeqGrid {α : Type} [Inhabited α] (g : grid_t α) (W : List (Nat × α))
    (c : coord_t) :
    (⟨g.w, g.h, writeSeq W g.data⟩ : grid_t α).get c
      = if inBounds c g.dimen then (writeSeq W g.data).getD (g.flatIdx c) default
        else default := rfl

/-- Claim C6: with a valid canvas selection over the tile grid, `fill`
writes into every selected cell the tile `to_tile` of the picker cell at the
cell's offset from the cropped canvas rectangle's corner reduced modulo the
picker rectangle's width and height (wraparound tiling), leaves every
unselected cell unchanged, and when either selection is empty changes
nothing and returns the no-op command. -/
theorem C6_fill_wraparound (L : tile_layer_t) (toTile : coord_t → Nat)
    (hinv : L.canvas_selector.Inv) (hdim : L.canvas_selector.dimen = L.tiles.dimen)
    (hwf : L.tiles.wf) :
    ((¬ rectPos (crop L.canvas_selector.m_select_rect L.tiles.dimen) ∨
        ¬ rectPos L.picker_selector.m_select_rect) →
      L.fill toTile = (L, none)) ∧
    (rectPos (crop L.canvas_selector.m_select_rect L.tiles.dimen) →
      rectPos L.picker_selector.m_select_rect →
      (∀ c : coord_t, L.canvas_selector.m_selection.get c = true →
        (L.fill toTile).1.tiles.get c
          = toTile
              ⟨(c.x - (crop L.canvas_selector.m_select_rect L.tiles.dimen).c.x)
                  % (L.picker_selector.m_select_rect.d.w : Int)
                + L.picker_selector.m_select_rect.c.x,
               (c.y - (crop L.canvas_selector.m_select_rect L.tiles.dimen).c.y)
                  % (L.picker_selector.m_select_rect.d.h : Int)
                + L.picker_selector.m_select_rect.c.y⟩) ∧
      (∀ c : coord_t, L.canvas_selector.m_selection.get c = false →
        (L.fill toTile).1.tiles.get c = L.tiles.get c)) := by
  constructor
  · intro hemp
    unfold tile_layer_t.fill
    rw [if_neg (by rcases hemp with he | he <;> (unfold rectPos at he; tauto))]
  · intro hcr hpr
    have hbnd : ∀ u ∈ L.fillWrites, inBounds u L.tiles.dimen := by
      intro u hu
      have hib := select_map_t.get_true_inBounds (List.mem_filter.mp hu).2
      rw [← hdim]
      exact hib
    have hg : (L.fill toTile).1.tiles
        = ⟨L.tiles.w, L.tiles.h,
           writeSeq (L.fillWrites.map fun u =>
             (L.tiles.flatIdx u,
              fillTile (crop L.canvas_selector.m_select_rect L.tiles.dimen)
                L.picker_selector.m_select_rect toTile u)) L.tiles.data⟩ := by
      unfold tile_layer_t.fill
      rw [if_pos ⟨hcr.1, hcr.2, hpr.1, hpr.2⟩]
      show L.fillWrites.foldl (fun g c => g.set c
          (fillTile (crop L.canvas_selector.m_select_rect L.tiles.dimen)
            L.picker_selector.m_select_rect toTile c)) L.tiles = _
      rw [foldWriteF_eq, foldWrite_data L.tiles _ (fun p hp => by
          obtain ⟨u, hu, he⟩ := List.mem_map.mp hp
          rw [← he]
          exact hbnd u hu),
        List.map_map]
      rfl
    have hlenidx : ∀ {c : coord_t}, inBounds c L.tiles.dimen →
        L.tiles.flatIdx c < L.tiles.data.length := by
      intro c hc
      have hfl := grid_t.flatIdx_lt hc
      unfold grid_t.wf at hwf
      omega
    refine ⟨?_, ?_⟩
    · intro c hsel
      have hcb : inBounds c L.tiles.dimen := by
        have hib := select_map_t.get_true_inBounds hsel
        rw [← hdim]
        exact hib
      have hcmem : c ∈ select_map_t.selCells L.canvas_selector :=
        select_map_t.mem_selCellsG.mpr hsel
      have hne : select_map_t.selCells L.canvas_selector ≠ [] :=
        List.ne_nil_of_mem hcmem
      have hrect := hinv.2.2.2.2 hne
      obtain ⟨mn, mx, hbo, hIsBnd⟩ := select_map_t.boundOf_spec hne
      have hinr : inRect c L.canvas_selector.m_select_rect := by
        rw [hrect, hbo]
        exact select_map_t.IsBnd_inRect hIsBnd hcmem
      have hcw : c ∈ L.fillWrites :=
        List.mem_filter.mpr ⟨mem_rectRange.mpr hinr, hsel⟩
      have hall : ∀ p ∈ (L.fillWrites.map fun u =>
          (L.tiles.flatIdx u,
           fillTile (crop L.canvas_selector.m_select_rect L.tiles.dimen)
             L.picker_selector.m_select_rect toTile u)),
          p.1 = L.tiles.flatIdx c →
          p.2 = fillTile (crop L.canvas_selector.m_select_rect L.tiles.dimen)
            L.picker_selector.m_select_rect toTile c := by
        intro p hp hpc
        obtain ⟨u, hu, he⟩ := List.mem_map.mp hp
        rw [← he] at hpc ⊢
        have hue : u = c := grid_t.flatIdx_inj (hbnd u hu) hcb hpc
        rw [hue]
      have hmem : L.tiles.flatIdx c ∈ ((L.fillWrites.map fun u =>
          (L.tiles.flatIdx u,
           fillTile (crop L.canvas_selector.m_select_rect L.tiles.dimen)
             L.picker_selector.m_select_rect toTile u)).map Prod.fst) :=
        List.mem_map.mpr ⟨_, List.mem_map.mpr ⟨c, hcw, rfl⟩, rfl⟩
      rw [hg, get_writeSeqGrid, if_pos hcb, writeSeq_getD _ _ _ _ (hlenidx hcb),
        lastWrite_const hall hmem _]
      have hcc := crop_c_of_pos hcr
      have hccx : (crop L.canvas_selector.m_select_rect L.tiles.dimen).c.x
          = max L.canvas_selector.m_select_rect.c.x 0 := by rw [hcc]
      have hccy : (crop L.canvas_selector.m_select_rect L.tiles.dimen).c.y
          = max L.canvas_selector.m_select_rect.c.y 0 := by rw [hcc]
      have hwbound : L.canvas_selector.dimen.w ≤ 2147483647 := hinv.2.1
      have hhbound : L.canvas_selector.dimen.h ≤ 2147483647 := hinv.2.2.1
      rw [hdim] at hwbound hhbound
      have hdw : L.tiles.dimen.w = L.tiles.w := rfl
      have hdh : L.tiles.dimen.h = L.tiles.h := rfl
      have hox : 0 ≤ c.x - (crop L.canvas_selector.m_select_rect L.tiles.dimen).c.x := by
        rw [hccx]
        have h1 := hcb.1
        have h2 := hinr.1
        omega
      have hoy : 0 ≤ c.y - (crop L.canvas_selector.m_select_rect L.tiles.dimen).c.y := by
        rw [hccy]
        have h1 := hcb.2.2.1
        have h2 := hinr.2.2.1
        omega
      have hoxlt : c.x - (crop L.canvas_selector.m_select_rect L.tiles.dimen).c.x
          < 4294967296 := by
        rw [hccx]
        have h2 := hcb.2.1
        omega
      have hoylt : c.y - (crop L.canvas_selector.m_select_rect L.tiles.dimen).c.y
          < 4294967296 := by
        rw [hccy]
        have h2 := hcb.2.2.2
        omega
      have hxeq : ((((c.x - (crop L.canvas_selector.m_select_rect L.tiles.dimen).c.x)
              % 4294967296).toNat % L.picker_selector.m_select_rect.d.w : Nat) : Int)
            + L.picker_selector.m_select_rect.c.x
          = (c.x - (crop L.canvas_selector.m_select_rect L.tiles.dimen).c.x)
              % (L.picker_selector.m_select_rect.d.w : Int)
            + L.picker_selector.m_select_rect.c.x := by
        rw [Int.emod_eq_of_lt hox hoxlt, Int.natCast_mod, Int.toNat_of_nonneg hox]
      have hyeq : ((((c.y - (crop L.canvas_selector.m_select_rect L.tiles.dimen).c.y)
              % 4294967296).toNat % L.picker_selector.m_select_rect.d.h : Nat) : Int)
            + L.picker_selector.m_select_rect.c.y
          = (c.y - (crop L.canvas_selector.m_select_rect L.tiles.dimen).c.y)
              % (L.picker_selector.m_select_rect.d.h : Int)
            + L.picker_selector.m_select_rect.c.y := by
        rw [Int.emod_eq_of_lt hoy hoylt, Int.natCast_mod, Int.toNat_of_nonneg hoy]
      unfold fillTile
      rw [hxeq, hyeq]
    · intro c hsel
      by_cases hcb : inBounds c L.tiles.dimen
      · have hni : L.tiles.flatIdx c ∉ ((L.fillWrites.map fun u =>
            (L.tiles.flatIdx u,
             fillTile (crop L.canvas_selector.m_select_rect L.tiles.dimen)
               L.picker_selector.m_select_rect toTile u)).map Prod.fst) := by
          intro hmem
          obtain ⟨p, hp, hpe⟩ := List.mem_map.mp hmem
          obtain ⟨u, hu, he⟩ := List.mem_map.mp hp
          rw [← he] at hpe
          have hue : u = c := grid_t.flatIdx_inj (hbnd u hu) hcb hpe
          rw [hue] at hu
          have hstrue := (List.mem_filter.mp hu).2
          rw [hsel] at hstrue
          exact Bool.false_ne_true hstrue
        rw [hg, get_writeSeqGrid, if_pos hcb, writeSeq_getD _ _ _ _ (hlenidx hcb),
          lastWrite_not_mem _ hni]
        unfold grid_t.get
        rw [if_pos hcb]
      · rw [hg, get_writeSeqGrid, if_neg hcb, grid_t.get_oob hcb]

/-- A concrete layer for exercising `fill`: a 2×3 fully selected picker, a
fully selected 5×5 canvas, and a 5×5 tile grid. -/
def fillDemoLayer : tile_layer_t :=
  ⟨(select_map_t.init ⟨2, 3⟩).select_all true,
   (select_map_t.init ⟨5, 5⟩).select_all true,
   ⟨5, 5, List.replicate 25 7⟩⟩

/-- The default `to_tile` of a picker of width 2 (model.hpp:243). -/
def fillDemoTile (p : coord_t) : Nat := (p.x + p.y * 2).toNat

/-- Witness for C6: the selected cell (3, 4) of the demo layer receives the
wrapped picker tile. -/
theorem C6_witness :
    fillDemoLayer.canvas_selector.Inv ∧
    fillDemoLayer.canvas_selector.dimen = fillDemoLayer.tiles.dimen ∧
    fillDemoLayer.tiles.wf ∧
    rectPos (crop fillDemoLayer.canvas_selector.m_select_rect fillDemoLayer.tiles.dimen) ∧
    rectPos fillDemoLayer.picker_selector.m_select_rect ∧
    fillDemoLayer.canvas_selector.m_selection.get ⟨3, 4⟩ = true ∧
    (fillDemoLayer.fill fillDemoTile).1.tiles.get ⟨3, 4⟩
      = fillDemoTile
          ⟨((⟨3, 4⟩ : coord_t).x
              - (crop fillDemoLayer.canvas_selector.m_select_rect
                  fillDemoLayer.tiles.dimen).c.x)
              % (fillDemoLayer.picker_selector.m_select_rect.d.w : Int)
            + fillDemoLayer.picker_selector.m_select_rect.c.x,
           ((⟨3, 4⟩ : coord_t).y
              - (crop fillDemoLayer.canvas_selector.m_select_rect
                  fillDemoLayer.tiles.dimen).c.y)
              % (fillDemoLayer.picker_selector.m_select_rect.d.h : Int)
            + fillDemoLayer.picker_selector.m_select_rect.c.y⟩ := by
  refine ⟨by decide, by decide, by decide, by decide, by decide, by decide, ?_⟩
  exact ((C6_fill_wraparound fillDemoLayer fillDemoTile (by decide) (by decide)
    (by decide)).2 (by decide) (by decide)).1 ⟨3, 4⟩ (by decide)

/-! ### Binary project file: writer (`model_t::write_file`, model.cpp:467-578)

The byte stream is a `List Nat` of values 0..255.  Filesystem-path
resolution (`std::filesystem::proximate`, `base_path`) and the cache loads
(`chr.load()`, `load_collision_file`) touch no persisted field and are
dropped: paths round-trip as the strings written. -/

/-- model.cpp:478-481 `write8`. -/
def write8 (i : Nat) : List Nat := [i % 256]

/-- model.cpp:483-487 `write16`, little endian. -/
def write16 (i : Nat) : List Nat := [i % 256, i / 256 % 256]

/-- model.cpp:489-495 `write32`, little endian. -/
def write32 (i : Nat) : List Nat :=
  [i % 256, i / 256 % 256, i / 65536 % 256, i / 16777216 % 256]

/-- model.cpp:470-475 `write_str`: the bytes then a NUL. -/
def write_str (s : str_t) : List Nat := s ++ [0]

/-- model.cpp:569-573: one schema field's value for an object: the stored
string, or a single 0 byte when absent. -/
def writeFieldVal (obj : object_t) (f : class_field_t) : List Nat :=
  match obj.fields.find? fun p => p.1 == f.name with
  | some p => write_str p.2
  | none => write8 0

/-- model.cpp:560-574: the field values of one object, written in its
class's schema order; an object whose class is not found writes nothing. -/
def writeObjFields (ocs : List object_class_t) (obj : object_t) : List Nat :=
  match ocs.find? fun oc => oc.name == obj.oclass with
  | none => []
  | some oc => oc.fields.flatMap (writeFieldVal obj)

/-- model.cpp:508-515: one `chr_file_t` entry. -/
def writeChr (f : chr_file_t) : List Nat :=
  write16 f.id ++ write_str f.name ++ write_str f.path

/-- model.cpp:534-535: one `class_field_t` entry (name then type). -/
def writeField (f : class_field_t) : List Nat :=
  write_str f.name ++ write_str f.type

/-- model.cpp:524-537: one object class. -/
def writeClass (oc : object_class_t) : List Nat :=
  write_str oc.name ++ write_str oc.macroStr
  ++ write8 oc.color.r ++ write8 oc.color.g ++ write8 oc.color.b
  ++ write8 oc.fields.length
  ++ oc.fields.flatMap writeField

/-- model.cpp:556-574: one object. -/
def writeObj (ocs : List object_class_t) (obj : object_t) : List Nat :=
  write_str obj.name ++ write_str obj.oclass
  ++ write16 (obj.position.x % 65536).toNat
  ++ write16 (obj.position.y % 65536).toNat
  ++ writeObjFields ocs obj

/-- model.cpp:541-575: one level. -/
def writeLevel (ocs : List object_class_t) (lvl : level_model_t) : List Nat :=
  write_str lvl.name ++ write_str lvl.macro_name ++ write_str lvl.chr_name
  ++ write8 lvl.palette
  ++ write16 lvl.chr_layer_tiles.w ++ write16 lvl.chr_layer_tiles.h
  ++ lvl.chr_layer_tiles.data.flatMap write32
  ++ (dimenRange lvl.collision_tiles.dimen).flatMap
      (fun c => write8 (lvl.collision_tiles.get c))
  ++ write16 lvl.objects.length
  ++ lvl.objects.flatMap (writeObj ocs)

/-- model.cpp:467-578 `model_t::write_file`. -/
def model_t.write_file (m : model_t) : List Nat :=
  (strBytes "8x8Fab" ++ [0])
  ++ write8 1
  ++ write8 m.metatile_size
  ++ write_str m.collision_path
  ++ write8 m.chr_files.length
  ++ m.chr_files.flatMap writeChr
  ++ write8 m.palette_num
  ++ m.color_tiles.data.flatMap write8
  ++ write8 m.object_classes.length
  ++ m.object_classes.flatMap writeClass
  ++ write16 m.levels.length
  ++ m.levels.flatMap (writeLevel m.object_classes)

/-! ### Binary project file: reader (`model_t::read_file`, model.cpp:580-734)

Exceptions are `Except.error` carrying the thrown message; the reader
returns the (possibly partially mutated) model together with the error, so
the mutation order of the C++ is observable. -/

/-- model.cpp:584-592 `get8`: one byte; with `adjust` a 0 reads as 256. -/
def get8 (adjust : Bool) : List Nat → Except String (Nat × List Nat)
  | [] => .error "Unable to read 8-bit value."
  | b :: rest => .ok (if adjust ∧ b = 0 then 256 else b, rest)

/-- model.cpp:594-601 `get16`, little endian; EOF on either byte throws. -/
def get16 : List Nat → Except String (Nat × List Nat)
  | a :: b :: rest => .ok (a + b * 256, rest)
  | _ => .error "Unable to read 16-bit value."

/-- model.cpp:603-616 `get32`, little endian. -/
def get32 : List Nat → Except String (Nat × List Nat)
  | a :: b :: c :: d :: rest =>
    .ok (a + b * 256 + c * 65536 + d * 16777216, rest)
  | _ => .error "Unable to read 32-bit value."

/-- model.cpp:618-624 `get_str`: bytes until a NUL; EOF inside throws the
8-bit error. -/
def get_str : List Nat → Except String (str_t × List Nat)
  | [] => .error "Unable to read 8-bit value."
  | b :: rest =>
    if b = 0 then .ok ([], rest)
    else
      match get_str rest with
      | .ok (s, rest') => .ok (b :: s, rest')
      | .error e => .error e

/-- model.hpp:489 `collision_scale`. -/
def collision_scale (mts : Nat) : Nat := max mts 1

/-- model.hpp:490 `collision_div`: componentwise ceiling division by the
collision scale. -/
def collision_div (mts : Nat) (d : dimen_t) : dimen_t :=
  ⟨(d.w + (collision_scale mts - 1)) / collision_scale mts,
   (d.h + (collision_scale mts - 1)) / collision_scale mts⟩

/-- The version byte compared as a (signed) `char` against `SAVE_VERSION`
(model.cpp:642). -/
def signedChar (b : Nat) : Int :=
  if b % 256 < 128 then (b % 256 : Int) else (b % 256 : Int) - 256

/-- model.cpp:707-708: in-place per-cell `get32` assignment over a grid's
raster data; a throw leaves the current and later cells unread. -/
def read32Into (old : List Nat) (bs : List Nat) :
    List Nat × List Nat × Option String :=
  match old with
  | [] => ([], bs, none)
  | _ :: olds =>
    match get32 bs with
    | .error e => (old, bs, some e)
    | .ok (v, rest) =>
      let r := read32Into olds rest
      (v :: r.1, r.2.1, r.2.2)

/-- model.cpp:670-671 and 709-710: in-place per-cell `get8(false)`
assignment over raster data. -/
def readBytesInto (old : List Nat) (bs : List Nat) :
    List Nat × List Nat × Option String :=
  match old with
  | [] => ([], bs, none)
  | _ :: olds =>
    match bs with
    | [] => (old, bs, some "Unable to read 8-bit value.")
    | b :: rest =>
      let r := readBytesInto olds rest
      (b :: r.1, r.2.1, r.2.2)

/-- model.cpp:653-666: the CHR-file loop; each entry is value-initialized
before its fields are read, so a throw leaves a partial entry. -/
def readChrFiles : Nat → List Nat → List chr_file_t × List Nat × Option String
  | 0, bs => ([], bs, none)
  | n + 1, bs =>
    match get16 bs with
    | .error e => ([⟨0, [], []⟩], bs, some e)
    | .ok (i, bs1) =>
      match get_str bs1 with
      | .error e => ([⟨i, [], []⟩], bs1, some e)
      | .ok (nm, bs2) =>
        match get_str bs2 with
        | .error e => ([⟨i, nm, []⟩], bs2, some e)
        | .ok (p, bs3) =>
          let r := readChrFiles n bs3
          (⟨i, nm, p⟩ :: r.1, r.2.1, r.2.2)

/-- model.cpp:686-691: the class-field loop (name then type; default
`class_field_t` has type "U"). -/
def readFields : Nat → List Nat → List class_field_t × List Nat × Option String
  | 0, bs => ([], bs, none)
  | n + 1, bs =>
    match get_str bs with
    | .error e => ([⟨strBytes "U", []⟩], bs, some e)
    | .ok (nm, bs1) =>
      match get_str bs1 with
      | .error e => ([⟨strBytes "U", nm⟩], bs1, some e)
      | .ok (ty, bs2) =>
        let r := readFields n bs2
        (⟨ty, nm⟩ :: r.1, r.2.1, r.2.2)

/-- model.cpp:674-692: the object-class loop (default color 255,255,255;
the field count reads with `get8()` — no zero adjustment). -/
def readClasses : Nat → List Nat → List object_class_t × List Nat × Option String
  | 0, bs => ([], bs, none)
  | n + 1, bs =>
    match get_str bs with
    | .error e => ([⟨[], [], ⟨255, 255, 255⟩, []⟩], bs, some e)
    | .ok (nm, bs1) =>
      match get_str bs1 with
      | .error e => ([⟨nm, [], ⟨255, 255, 255⟩, []⟩], bs1, some e)
      | .ok (mc, bs2) =>
        match get8 false bs2 with
        | .error e => ([⟨nm, mc, ⟨255, 255, 255⟩, []⟩], bs2, some e)
        | .ok (r, bs3) =>
          match get8 false bs3 with
          | .error e => ([⟨nm, mc, ⟨r, 255, 255⟩, []⟩], bs3, some e)
          | .ok (g, bs4) =>
            match get8 false bs4 with
            | .error e => ([⟨nm, mc, ⟨r, g, 255⟩, []⟩], bs4, some e)
            | .ok (b, bs5) =>
              match get8 false bs5 with
              | .error e => ([⟨nm, mc, ⟨r, g, b⟩, []⟩], bs5, some e)
              | .ok (nf, bs6) =>
                match readFields nf bs6 with
                | (fs, bs7, some e) => ([⟨nm, mc, ⟨r, g, b⟩, fs⟩], bs7, some e)
                | (fs, bs7, none) =>
                  let rest := readClasses n bs7
                  (⟨nm, mc, ⟨r, g, b⟩, fs⟩ :: rest.1, rest.2.1, rest.2.2)

/-- model.cpp:725-729: one object's field values, read in its class's
schema order and inserted keyed by the field name. -/
def readObjFields : List class_field_t → List Nat →
    List (str_t × str_t) × List Nat × Option String
  | [], bs => ([], bs, none)
  | f :: fs, bs =>
    match get_str bs with
    | .error e => ([], bs, some e)
    | .ok (s, rest) =>
      let r := readObjFields fs rest
      ((f.name, s) :: r.1, r.2.1, r.2.2)

/-- model.cpp:714-731: the object loop; positions read as two `uint16`
values cast to nonnegative `int32` coordinates; the first class whose name
matches `oclass` supplies the field schema. -/
def readObjects (ocs : List object_class_t) :
    Nat → List Nat → List object_t × List Nat × Option String
  | 0, bs => ([], bs, none)
  | n + 1, bs =>
    match get_str bs with
    | .error e => ([default], bs, some e)
    | .ok (nm, bs1) =>
      match get_str bs1 with
      | .error e => ([{ (default : object_t) with name := nm }], bs1, some e)
      | .ok (ocl, bs2) =>
        match get16 bs2 with
        | .error e =>
          ([{ (default : object_t) with name := nm, oclass := ocl }], bs2, some e)
        | .ok (x, bs3) =>
          match get16 bs3 with
          | .error e =>
            ([{ (default : object_t) with
                name := nm, oclass := ocl, position := ⟨(x : Int), 0⟩ }], bs3, some e)
          | .ok (y, bs4) =>
            let obj0 : object_t :=
              { position := ⟨(x : Int), (y : Int)⟩, name := nm, oclass := ocl,
                fields := [] }
            match ocs.find? fun oc => oc.name == ocl with
            | none =>
              let r := readObjects ocs n bs4
              (obj0 :: r.1, r.2.1, r.2.2)
            | some oc =>
              match readObjFields oc.fields bs4 with
              | (fs, bs5, some e) => ([{ obj0 with fields := fs }], bs5, some e)
              | (fs, bs5, none) =>
                let r := readObjects ocs n bs5
                ({ obj0 with fields := fs } :: r.1, r.2.1, r.2.2)

/-- model.cpp:696-732: the level loop.  Each level is constructed at 24×24
(`level_model_t::level_model_t`), its fields are read, it is resized to the
read dimensions with the collision layer at `collision_div`, and the grids
are then filled cell by cell. -/
def readLevels (ocs : List object_class_t) (mts : Nat) :
    Nat → List Nat → List level_model_t × List Nat × Option String
  | 0, bs => ([], bs, none)
  | n + 1, bs =>
    match get_str bs with
    | .error e => ([mkLevel], bs, some e)
    | .ok (nm, bs1) =>
      match get_str bs1 with
      | .error e => ([{ mkLevel with name := nm }], bs1, some e)
      | .ok (mn, bs2) =>
        match get_str bs2 with
        | .error e => ([{ mkLevel with name := nm, macro_name := mn }], bs2, some e)
        | .ok (cn, bs3) =>
          match get8 false bs3 with
          | .error e =>
            ([{ mkLevel with name := nm, macro_name := mn, chr_name := cn }],
             bs3, some e)
          | .ok (pal, bs4) =>
            match get16 bs4 with
            | .error e =>
              ([{ mkLevel with
                  name := nm, macro_name := mn, chr_name := cn, palette := pal }],
               bs4, some e)
            | .ok (w, bs5) =>
              match get16 bs5 with
              | .error e =>
                ([{ mkLevel with
                    name := nm, macro_name := mn, chr_name := cn, palette := pal }],
                 bs5, some e)
              | .ok (h, bs6) =>
                let lvl1 : level_model_t :=
                  { mkLevel with
                    name := nm, macro_name := mn, chr_name := cn, palette := pal,
                    chr_layer_tiles := mkLevel.chr_layer_tiles.resize ⟨w, h⟩,
                    collision_tiles :=
                      mkLevel.collision_tiles.resize (collision_div mts ⟨w, h⟩) }
                match read32Into lvl1.chr_layer_tiles.data bs6 with
                | (d1, bs7, some e) =>
                  ([{ lvl1 with chr_layer_tiles := ⟨w, h, d1⟩ }], bs7, some e)
                | (d1, bs7, none) =>
                  let lvl2 := { lvl1 with chr_layer_tiles := ⟨w, h, d1⟩ }
                  match readBytesInto lvl2.collision_tiles.data bs7 with
                  | (d2, bs8, some e) =>
                    ([{ lvl2 with collision_tiles :=
                        ⟨(collision_div mts ⟨w, h⟩).w, (collision_div mts ⟨w, h⟩).h,
                         d2⟩ }], bs8, some e)
                  | (d2, bs8, none) =>
                    let lvl3 := { lvl2 with collision_tiles :=
                      ⟨(collision_div mts ⟨w, h⟩).w, (collision_div mts ⟨w, h⟩).h, d2⟩ }
                    match get16 bs8 with
                    | .error e => ([lvl3], bs8, some e)
                    | .ok (nobj, bs9) =>
                      match readObjects ocs nobj bs9 with
                      | (objs, bs10, some e) =>
                        ([{ lvl3 with objects := objs }], bs10, some e)
                      | (objs, bs10, none) =>
                        let r := readLevels ocs mts n bs10
                        ({ lvl3 with objects := objs } :: r.1, r.2.1, r.2.2)

/-- model.cpp:645-733, the part of `read_file` after the 8-byte header: the
model is mutated field by field in file order, so a throw leaves every field
already read updated; on success the dirty flags are cleared. -/
def model_t.read_body (m : model_t) (bs0 : List Nat) : model_t × Option String :=
  match get8 false bs0 with
    | .error e => (m, some e)
    | .ok (mts, bs1) =>
      let m1 := { m with metatile_size := mts }
      match get_str bs1 with
      | .error e => (m1, some e)
      | .ok (cp, bs2) =>
        let m2 := { m1 with collision_path := cp }
        match get8 true bs2 with
        | .error e => (m2, some e)
        | .ok (nchr, bs3) =>
          match readChrFiles nchr bs3 with
          | (fs, bs4, some e) => ({ m2 with chr_files := fs }, some e)
          | (fs, bs4, none) =>
            let m3 := { m2 with chr_files := fs }
            match get8 true bs4 with
            | .error e => (m3, some e)
            | .ok (pn, bs5) =>
              let m4 := { m3 with palette_num := pn }
              match readBytesInto m4.color_tiles.data bs5 with
              | (pd, bs6, some e) =>
                ({ m4 with color_tiles := ⟨m4.color_tiles.w, m4.color_tiles.h, pd⟩ },
                 some e)
              | (pd, bs6, none) =>
                let m5 := { m4 with
                  color_tiles := ⟨m4.color_tiles.w, m4.color_tiles.h, pd⟩ }
                match get8 true bs6 with
                | .error e => (m5, some e)
                | .ok (noc, bs7) =>
                  match readClasses noc bs7 with
                  | (ocs, bs8, some e) => ({ m5 with object_classes := ocs }, some e)
                  | (ocs, bs8, none) =>
                    let m6 := { m5 with object_classes := ocs }
                    match get16 bs8 with
                    | .error e => (m6, some e)
                    | .ok (nlv, bs9) =>
                      match readLevels m6.object_classes m6.metatile_size nlv bs9 with
                      | (lvs, _, some e) => ({ m6 with levels := lvs }, some e)
                      | (lvs, _, none) =>
                        ({ m6 with
                            levels := lvs
                            modified := false
                            modified_since_save := false }, none)

/-- model.cpp:580-734 `model_t::read_file`: the header checks (magic,
version as a signed char against `SAVE_VERSION = 1`) precede all mutation;
the rest of the parse is `read_body` on the stream after the header. -/
def model_t.read_file (m : model_t) (bs : List Nat) : model_t × Option String :=
  if bs.length < 8 then (m, some "Unable to read magic number.")
  else if bs.take 7 ≠ strBytes "8x8Fab" ++ [0] then (m, some "Incorrect magic number.")
  else if 1 < signedChar (bs.getD 7 0) then
    (m, some "File is from a newer version of XFab.")
  else
    m.read_body (bs.drop 8)

/-! ### Parsing lemmas: each reader primitive consumes what the matching
writer primitive produced.  All deep-list facts are established by induction
so that no proof forces a long kernel evaluation. -/

theorem get8_write8 (v : Nat) (rest : List Nat) :
    get8 false (write8 v ++ rest) = .ok (v % 256, rest) := by
  simp [get8, write8]

theorem get8t_write8 (v : Nat) (rest : List Nat) :
    get8 true (write8 v ++ rest)
      = .ok (if v % 256 = 0 then 256 else v % 256, rest) := by
  simp [get8, write8]

theorem get16_write16 (v : Nat) (rest : List Nat) :
    get16 (write16 v ++ rest) = .ok (v % 65536, rest) := by
  simp [get16, write16]
  omega

theorem get32_write32 (v : Nat) (rest : List Nat) :
    get32 (write32 v ++ rest) = .ok (v % 4294967296, rest) := by
  simp [get32, write32]
  omega

theorem get_str_write_str (s : str_t) (rest : List Nat) (h : ∀ c ∈ s, c ≠ 0) :
    get_str (write_str s ++ rest) = .ok (s, rest) := by
  induction s with
  | nil =>
    show get_str (0 :: rest) = _
    unfold get_str
    rw [if_pos rfl]
  | cons c s ih =>
    show get_str (c :: (write_str s ++ rest)) = _
    unfold get_str
    rw [if_neg (h c (List.mem_cons_self _ _)),
      ih (fun c hc => h c (List.mem_cons_of_mem _ hc))]

theorem map_mod_id {k : Nat} (l : List Nat) (h : ∀ v ∈ l, v < k) :
    l.map (· % k) = l := by
  induction l with
  | nil => rfl
  | cons a l ih =>
    rw [List.map_cons, Nat.mod_eq_of_lt (h a (List.mem_cons_self _ _)),
      ih (fun v hv => h v (List.mem_cons_of_mem _ hv))]

theorem readBytesInto_cons (o : Nat) (os : List Nat) (b : Nat) (rest : List Nat) :
    readBytesInto (o :: os) (b :: rest)
      = (b :: (readBytesInto os rest).1, (readBytesInto os rest).2.1,
         (readBytesInto os rest).2.2) := rfl

theorem readBytesInto_flatMap (vals : List Nat) (old : List Nat) (rest : List Nat)
    (hlen : old.length = vals.length) :
    readBytesInto old (vals.flatMap write8 ++ rest)
      = (vals.map (· % 256), rest, none) := by
  induction vals generalizing old rest with
  | nil =>
    have hnil : old = [] := List.length_eq_zero.mp hlen
    subst hnil
    rfl
  | cons v vs ih =>
    cases old with
    | nil => simp at hlen
    | cons o os =>
      show readBytesInto (o :: os) (v % 256 :: (vs.flatMap write8 ++ rest)) = _
      rw [readBytesInto_cons, ih os rest (by simpa using hlen)]
      rfl

theorem read32Into_step (o : Nat) (os : List Nat) (bs : List Nat) (w : Nat)
    (rest' : List Nat) (hg : get32 bs = .ok (w, rest')) :
    read32Into (o :: os) bs
      = (w :: (read32Into os rest').1, (read32Into os rest').2.1,
         (read32Into os rest').2.2) := by
  show (match get32 bs with
    | .error e => (o :: os, bs, some e)
    | .ok (v, rest) =>
      let r := read32Into os rest
      (v :: r.1, r.2.1, r.2.2)) = _
  rw [hg]

theorem read32Into_flatMap (vals : List Nat) (old : List Nat) (rest : List Nat)
    (hlen : old.length = vals.length) :
    read32Into old (vals.flatMap write32 ++ rest)
      = (vals.map (· % 4294967296), rest, none) := by
  induction vals generalizing old rest with
  | nil =>
    have hnil : old = [] := List.length_eq_zero.mp hlen
    subst hnil
    rfl
  | cons v vs ih =>
    cases old with
    | nil => simp at hlen
    | cons o os =>
      show read32Into (o :: os) (write32 v ++ (vs.flatMap write32 ++ rest)) = _
      rw [read32Into_step o os _ _ _ (get32_write32 v _),
        ih os rest (by simpa using hlen)]
      rfl

theorem flatMap_congr_mem {α β : Type} {l : List α} {f g : α → List β}
    (h : ∀ a ∈ l, f a = g a) : l.flatMap f = l.flatMap g := by
  induction l with
  | nil => rfl
  | cons a l ih =>
    show f a ++ l.flatMap f = g a ++ l.flatMap g
    rw [h a (List.mem_cons_self _ _), ih (fun a ha => h a (List.mem_cons_of_mem _ ha))]

theorem flatMap_map_fn {α β γ : Type} (l : List α) (g : α → β) (f : β → List γ) :
    (l.map g).flatMap f = l.flatMap fun a => f (g a) := by
  induction l with
  | nil => rfl
  | cons a l ih =>
    show f (g a) ++ (l.map g).flatMap f = f (g a) ++ l.flatMap fun a => f (g a)
    rw [ih]

theorem map_flatMap_fn {α β γ : Type} (l : List α) (f : α → List β) (g : β → γ) :
    (l.flatMap f).map g = l.flatMap fun a => (f a).map g := by
  induction l with
  | nil => rfl
  | cons a l ih =>
    show ((f a) ++ l.flatMap f).map g = _
    rw [List.map_append, ih]
    rfl

theorem getD_drop_add (data : List Nat) (n i d : Nat) :
    (data.drop n).getD i d = data.getD (n + i) d := by
  by_cases h : n + i < data.length
  · rw [List.getD_eq_getElem _ _ (by rw [List.length_drop]; omega),
      List.getD_eq_getElem _ _ h, List.getElem_drop]
  · rw [List.getD_eq_default _ _ (by rw [List.length_drop]; omega),
      List.getD_eq_default _ _ (by omega)]

theorem map_getD_range (w : Nat) (data : List Nat) (d : Nat) (h : w ≤ data.length) :
    (List.range w).map (fun x => data.getD x d) = data.take w := by
  induction w with
  | zero => simp
  | succ n ih =>
    rw [List.range_succ, List.map_append, ih (by omega)]
    show data.take n ++ [data.getD n d] = data.take (n + 1)
    rw [List.getD_eq_getElem _ _ (by omega), List.take_succ,
      List.getElem?_eq_getElem (by omega)]
    rfl

theorem map_getD_rows (h w : Nat) (data : List Nat) (d : Nat)
    (hlen : data.length = h * w) :
    (List.range h).flatMap (fun y => (List.range w).map fun x =>
      data.getD (x + y * w) d) = data := by
  induction h generalizing data with
  | zero =>
    show ([] : List Nat) = data
    have : data.length = 0 := by omega
    exact (List.length_eq_zero.mp this).symm
  | succ n ih =>
    rw [List.range_succ_eq_map, List.flatMap_cons, flatMap_map_fn]
    have hrow : ((List.range w).map fun x => data.getD (x + 0 * w) d)
        = data.take w := by
      have heq : ((List.range w).map fun x => data.getD (x + 0 * w) d)
          = (List.range w).map fun x => data.getD x d := by
        apply List.map_congr_left
        intro x _
        congr 1
        omega
      rw [heq]
      exact map_getD_range w data d (by
        have h1 : (n + 1) * w = n * w + w := by ring
        omega)
    have htail : ((List.range n).flatMap fun y => (List.range w).map fun x =>
        data.getD (x + (y + 1) * w) d) = data.drop w := by
      have heq : ∀ y ∈ List.range n, ((List.range w).map fun x =>
          data.getD (x + (y + 1) * w) d)
          = (List.range w).map fun x => (data.drop w).getD (x + y * w) d := by
        intro y _
        apply List.map_congr_left
        intro x _
        rw [getD_drop_add]
        congr 1
        ring
      rw [flatMap_congr_mem heq]
      exact ih (data.drop w) (by
        rw [List.length_drop]
        have h1 : (n + 1) * w = n * w + w := by ring
        omega)
    rw [hrow, htail, List.take_append_drop]

theorem map_get_dimenRange (g : grid_t Nat) (hwf : g.wf) :
    (dimenRange g.dimen).map g.get = g.data := by
  unfold dimenRange toRect rectRange
  rw [map_flatMap_fn]
  have heq : ∀ y ∈ List.range g.dimen.h,
      (((List.range g.dimen.w).map fun (dx : Nat) =>
        (⟨(⟨0, 0⟩ : coord_t).x + (dx : Int), (⟨0, 0⟩ : coord_t).y + (y : Int)⟩ :
          coord_t)).map g.get)
      = (List.range g.w).map fun x => g.data.getD (x + y * g.w) default := by
    intro y hy
    rw [List.map_map]
    apply List.map_congr_left
    intro x hx
    have hxw : x < g.w := List.mem_range.mp hx
    have hyh : y < g.h := List.mem_range.mp hy
    show g.get ⟨0 + (x : Int), 0 + (y : Int)⟩ = _
    have hib : inBounds ⟨0 + (x : Int), 0 + (y : Int)⟩ g.dimen := by
      have h1 : g.dimen.w = g.w := rfl
      have h2 : g.dimen.h = g.h := rfl
      unfold inBounds
      dsimp
      omega
    unfold grid_t.get
    rw [if_pos hib]
    congr 1
    unfold grid_t.flatIdx
    dsimp
    have hmul : ((0 : Int) + (y : Int)) * (g.w : Int) = ((y * g.w : Nat) : Int) := by
      rw [Int.natCast_mul]
      ring
    omega
  rw [flatMap_congr_mem heq]
  have hh : g.dimen.h = g.h := rfl
  rw [hh]
  exact map_getD_rows g.h g.w g.data default hwf

/-! ### Wellformedness of persisted values: what the writer actually emits
round-trips exactly when these hold (NUL-free strings, byte/word ranges,
collision grid sized by `collision_div`). -/

/-- A persistable string: no NUL byte (a NUL would terminate the read early). -/
def strOk (s : str_t) : Prop := ∀ c ∈ s, c ≠ 0

instance (s : str_t) : Decidable (strOk s) := by unfold strOk; infer_instance

def classOk (oc : object_class_t) : Prop :=
  strOk oc.name ∧ strOk oc.macroStr ∧
  oc.color.r < 256 ∧ oc.color.g < 256 ∧ oc.color.b < 256 ∧
  oc.fields.length < 256 ∧
  ∀ f ∈ oc.fields, strOk f.name ∧ strOk f.type

instance (oc : object_class_t) : Decidable (classOk oc) := by
  unfold classOk; infer_instance

def objOk (obj : object_t) : Prop :=
  strOk obj.name ∧ strOk obj.oclass ∧
  0 ≤ obj.position.x ∧ obj.position.x < 65536 ∧
  0 ≤ obj.position.y ∧ obj.position.y < 65536 ∧
  ∀ p ∈ obj.fields, strOk p.2

instance (obj : object_t) : Decidable (objOk obj) := by
  unfold objOk; infer_instance

def levelOk (lvl : level_model_t) : Prop :=
  strOk lvl.name ∧ strOk lvl.macro_name ∧ strOk lvl.chr_name ∧
  lvl.palette < 256 ∧
  lvl.chr_layer_tiles.w < 65536 ∧ lvl.chr_layer_tiles.h < 65536 ∧
  lvl.chr_layer_tiles.wf ∧
  (∀ v ∈ lvl.chr_layer_tiles.data, v < 4294967296) ∧
  lvl.collision_tiles.dimen = lvl.chr_layer_tiles.dimen ∧
  lvl.collision_tiles.wf ∧
  (∀ v ∈ lvl.collision_tiles.data, v < 256) ∧
  lvl.objects.length < 65536 ∧
  ∀ obj ∈ lvl.objects, objOk obj

instance (lvl : level_model_t) : Decidable (levelOk lvl) := by
  unfold levelOk; infer_instance

/-! ### Loop round trips -/

theorem get_str_zero (rest : List Nat) : get_str (0 :: rest) = .ok ([], rest) := by
  unfold get_str
  rw [if_pos rfl]

theorem readChrFiles_write (fs : List chr_file_t) (rest : List Nat)
    (h : ∀ f ∈ fs, strOk f.name ∧ strOk f.path ∧ f.id < 65536) :
    readChrFiles fs.length (fs.flatMap writeChr ++ rest) = (fs, rest, none) := by
  induction fs with
  | nil => rfl
  | cons f fs ih =>
    obtain ⟨hn, hp, hid⟩ := h f (List.mem_cons_self _ _)
    simp only [List.flatMap_cons, List.length_cons, writeChr, List.append_assoc,
      readChrFiles, get16_write16, Nat.mod_eq_of_lt hid,
      get_str_write_str _ _ hn, get_str_write_str _ _ hp,
      ih (fun f hf => h f (List.mem_cons_of_mem _ hf))]

theorem readFields_write (fs : List class_field_t) (rest : List Nat)
    (h : ∀ f ∈ fs, strOk f.name ∧ strOk f.type) :
    readFields fs.length (fs.flatMap writeField ++ rest) = (fs, rest, none) := by
  induction fs with
  | nil => rfl
  | cons f fs ih =>
    obtain ⟨hn, ht⟩ := h f (List.mem_cons_self _ _)
    simp only [List.flatMap_cons, List.length_cons, writeField, List.append_assoc,
      readFields, get_str_write_str _ _ hn, get_str_write_str _ _ ht,
      ih (fun f hf => h f (List.mem_cons_of_mem _ hf))]

theorem readClasses_write (ocs : List object_class_t) (rest : List Nat)
    (h : ∀ oc ∈ ocs, classOk oc) :
    readClasses ocs.length (ocs.flatMap writeClass ++ rest) = (ocs, rest, none) := by
  induction ocs with
  | nil => rfl
  | cons oc ocs ih =>
    obtain ⟨hn, hm, hr, hg, hb, hfc, hf⟩ := h oc (List.mem_cons_self _ _)
    simp only [List.flatMap_cons, List.length_cons, writeClass, List.append_assoc,
      readClasses, get_str_write_str _ _ hn, get_str_write_str _ _ hm,
      get8_write8, Nat.mod_eq_of_lt hr, Nat.mod_eq_of_lt hg, Nat.mod_eq_of_lt hb,
      Nat.mod_eq_of_lt hfc, readFields_write oc.fields _ hf,
      ih (fun oc hoc => h oc (List.mem_cons_of_mem _ hoc))]

theorem readObjFields_write (fs : List class_field_t) (obj : object_t)
    (rest : List Nat) (h : ∀ p ∈ obj.fields, strOk p.2) :
    readObjFields fs (fs.flatMap (writeFieldVal obj) ++ rest)
      = (fs.map (fun f => (f.name,
          match obj.fields.find? fun p => p.1 == f.name with
          | some p => p.2
          | none => [])), rest, none) := by
  induction fs with
  | nil => rfl
  | cons f fs ih =>
    cases hf : obj.fields.find? fun p => p.1 == f.name with
    | none =>
      simp only [List.flatMap_cons, List.map_cons, writeFieldVal, hf,
        List.append_assoc, write8, Nat.zero_mod, List.cons_append, List.nil_append,
        readObjFields, get_str_zero, ih]
    | some p =>
      have hp2 : strOk p.2 := h p (List.mem_of_find?_eq_some hf)
      simp only [List.flatMap_cons, List.map_cons, writeFieldVal, hf,
        List.append_assoc, readObjFields, get_str_write_str _ _ hp2, ih]

/-- The field dictionary an object presents after a save/load cycle: one
entry per schema field of its class, in schema order, holding the object's
stored value or the empty-string default when the field is absent (an absent
field is saved as a single 0 byte and loads as ""). -/
def normalizeObject (ocs : List object_class_t) (obj : object_t) : object_t :=
  { obj with fields :=
      match ocs.find? fun oc => oc.name == obj.oclass with
      | none => []
      | some oc => oc.fields.map fun f =>
          (f.name,
           match obj.fields.find? fun p => p.1 == f.name with
           | some p => p.2
           | none => []) }

/-- The model with every object's field dictionary normalized to its class
schema; all other components are untouched. -/
def model_t.normalize (m : model_t) : model_t :=
  { m with levels := m.levels.map fun lvl =>
      { lvl with objects := lvl.objects.map fun o =>
          normalizeObject m.object_classes o } }

theorem readObjects_write (ocs : List object_class_t) (objs : List object_t)
    (rest : List Nat) (h : ∀ obj ∈ objs, objOk obj) :
    readObjects ocs objs.length (objs.flatMap (writeObj ocs) ++ rest)
      = (objs.map (normalizeObject ocs), rest, none) := by
  induction objs with
  | nil => rfl
  | cons obj objs ih =>
    obtain ⟨hn, ho, hx0, hx1, hy0, hy1, hfv⟩ := h obj (List.mem_cons_self _ _)
    have hxe : ((((obj.position.x % 65536).toNat % 65536 : Nat)) : Int)
        = obj.position.x := by omega
    have hye : ((((obj.position.y % 65536).toNat % 65536 : Nat)) : Int)
        = obj.position.y := by omega
    cases hfind : ocs.find? fun oc => oc.name == obj.oclass with
    | none =>
      simp only [List.flatMap_cons, List.map_cons, writeObj, writeObjFields, hfind,
        List.append_assoc, List.nil_append, readObjects, normalizeObject,
        get_str_write_str _ _ hn, get_str_write_str _ _ ho,
        get16_write16, hxe, hye,
        ih (fun o hm => h o (List.mem_cons_of_mem _ hm))]
    | some oc =>
      simp only [List.flatMap_cons, List.map_cons, writeObj, writeObjFields, hfind,
        List.append_assoc, readObjects, normalizeObject,
        get_str_write_str _ _ hn, get_str_write_str _ _ ho,
        get16_write16, hxe, hye, readObjFields_write oc.fields obj _ hfv,
        ih (fun o hm => h o (List.mem_cons_of_mem _ hm))]

theorem collision_div_zero (d : dimen_t) : collision_div 0 d = d := by
  unfold collision_div collision_scale
  norm_num

theorem readLevels_write (ocs : List object_class_t) (lvls : List level_model_t)
    (rest : List Nat) (h : ∀ lvl ∈ lvls, levelOk lvl) :
    readLevels ocs 0 lvls.length (lvls.flatMap (writeLevel ocs) ++ rest)
      = (lvls.map (fun lvl =>
          { lvl with objects := lvl.objects.map (normalizeObject ocs) }),
         rest, none) := by
  induction lvls with
  | nil => rfl
  | cons lvl lvls ih =>
    obtain ⟨hn, hm, hc, hp, hw, hh, hwf, hvals, hcd, hcwf, hcvals, hoc, hobjs⟩ :=
      h lvl (List.mem_cons_self _ _)
    have hwe : lvl.chr_layer_tiles.w % 65536 = lvl.chr_layer_tiles.w :=
      Nat.mod_eq_of_lt hw
    have hhe : lvl.chr_layer_tiles.h % 65536 = lvl.chr_layer_tiles.h :=
      Nat.mod_eq_of_lt hh
    have hrlen : (mkLevel.chr_layer_tiles.resize
        ⟨lvl.chr_layer_tiles.w, lvl.chr_layer_tiles.h⟩).data.length
        = lvl.chr_layer_tiles.data.length := by
      show ((List.range _).map _).length = _
      rw [List.length_map, List.length_range]
      unfold grid_t.wf at hwf
      rw [hwf]
    have hcw : lvl.collision_tiles.w = lvl.chr_layer_tiles.w :=
      congrArg dimen_t.w hcd
    have hch : lvl.collision_tiles.h = lvl.chr_layer_tiles.h :=
      congrArg dimen_t.h hcd
    have hclen : (mkLevel.collision_tiles.resize
        ⟨lvl.chr_layer_tiles.w, lvl.chr_layer_tiles.h⟩).data.length
        = lvl.collision_tiles.data.length := by
      show ((List.range _).map _).length = _
      rw [List.length_map, List.length_range]
      unfold grid_t.wf at hcwf
      rw [hcwf, hcw, hch]
    have hcoll : (dimenRange lvl.collision_tiles.dimen).flatMap
        (fun c => write8 (lvl.collision_tiles.get c))
        = lvl.collision_tiles.data.flatMap write8 := by
      rw [← map_get_dimenRange lvl.collision_tiles hcwf, flatMap_map_fn]
    have hgeta : (⟨lvl.chr_layer_tiles.w, lvl.chr_layer_tiles.h,
        lvl.chr_layer_tiles.data⟩ : grid_t Nat) = lvl.chr_layer_tiles := rfl
    have hceta : (⟨lvl.chr_layer_tiles.w, lvl.chr_layer_tiles.h,
        lvl.collision_tiles.data⟩ : grid_t Nat) = lvl.collision_tiles := by
      rw [← hcw, ← hch]
    simp only [List.flatMap_cons, List.map_cons, writeLevel, List.append_assoc,
      readLevels, get_str_write_str _ _ hn, get_str_write_str _ _ hm,
      get_str_write_str _ _ hc, get8_write8, Nat.mod_eq_of_lt hp,
      get16_write16, hwe, hhe, collision_div_zero, hcoll,
      read32Into_flatMap lvl.chr_layer_tiles.data _ _ hrlen,
      map_mod_id lvl.chr_layer_tiles.data hvals,
      readBytesInto_flatMap lvl.collision_tiles.data _ _ hclen,
      map_mod_id lvl.collision_tiles.data hcvals,
      Nat.mod_eq_of_lt hoc,
      readObjects_write ocs lvl.objects _ hobjs,
      hgeta, hceta,
      ih (fun l hl => h l (List.mem_cons_of_mem _ hl))]

theorem get8t_write8_pos (v : Nat) (rest : List Nat) (hv : v % 256 ≠ 0) :
    get8 true (write8 v ++ rest) = .ok (v % 256, rest) := by
  rw [get8t_write8, if_neg hv]

theorem read_file_good_header (m : model_t) (rest : List Nat) :
    m.read_file ((strBytes "8x8Fab" ++ [0]) ++ (write8 1 ++ rest))
      = m.read_body rest := by
  show m.read_file (56 :: 120 :: 56 :: 70 :: 97 :: 98 :: 0 :: 1 :: rest) = _
  unfold model_t.read_file
  rw [if_neg (by simp only [List.length_cons]; omega),
    if_neg (fun hne => hne rfl),
    if_neg (by
      rw [show (56 :: 120 :: 56 :: 70 :: 97 :: 98 :: 0 :: 1 :: rest).getD 7 0 = 1
        from rfl]
      decide)]
  rfl

theorem mkColorTiles_bytes : ∀ v ∈ mkColorTiles.data, v < 256 := by
  intro v hv
  have hv' : v ∈ ([0x11, 0x2B, 0x39, 0x13, 0x21, 0x3B, 0x15, 0x23, 0x31, 0x17,
      0x25, 0x33, 0x02, 0x14, 0x26, 0x04, 0x16, 0x28, 0x06, 0x18, 0x2A, 0x08,
      0x1A, 0x2C, 0x0F] : List Nat) ++ List.replicate (256 * 25 - 25) 0x0F := hv
  rcases List.mem_append.mp hv' with h | h
  · have hlit : ∀ x ∈ ([0x11, 0x2B, 0x39, 0x13, 0x21, 0x3B, 0x15, 0x23, 0x31,
        0x17, 0x25, 0x33, 0x02, 0x14, 0x26, 0x04, 0x16, 0x28, 0x06, 0x18, 0x2A,
        0x08, 0x1A, 0x2C, 0x0F] : List Nat), x < 256 := by decide
    exact hlit v h
  · rw [List.eq_of_mem_replicate h]
    omega

/-- The write/read round trip for any project that differs from the default
one only in its object classes and levels, provided every persisted value is
representable; reading goes into a fresh default model. -/
theorem read_write_spine (ocs : List object_class_t) (lvls : List level_model_t)
    (hoc0 : ocs.length ≠ 0) (hoc255 : ocs.length < 256)
    (hocs : ∀ oc ∈ ocs, classOk oc)
    (hlc : lvls.length < 65536) (hlvls : ∀ lvl ∈ lvls, levelOk lvl) :
    model_t.read_file mkModel
        (model_t.write_file { mkModel with object_classes := ocs, levels := lvls })
      = ({ mkModel with
            object_classes := ocs
            levels := lvls.map fun lvl =>
              { lvl with objects := lvl.objects.map (normalizeObject ocs) } },
         none) := by
  have hw : model_t.write_file { mkModel with object_classes := ocs, levels := lvls }
      = (strBytes "8x8Fab" ++ [0]) ++ (write8 1 ++
        (write8 0 ++ (write_str [] ++ (write8 1 ++
        ([(⟨0, strBytes "chr", []⟩ : chr_file_t)].flatMap writeChr ++ (write8 1 ++
        (mkColorTiles.data.flatMap write8 ++ (write8 ocs.length ++
        (ocs.flatMap writeClass ++ (write16 lvls.length ++
        lvls.flatMap (writeLevel ocs))))))))))) := by
    unfold model_t.write_file
    simp only [List.append_assoc]
    rfl
  have h1m : (1 : Nat) % 256 = 1 := by norm_num
  have hchr : ∀ X : List Nat, readChrFiles 1
      ([(⟨0, strBytes "chr", []⟩ : chr_file_t)].flatMap writeChr ++ X)
      = ([⟨0, strBytes "chr", []⟩], X, none) := by
    intro X
    have hr := readChrFiles_write [(⟨0, strBytes "chr", []⟩ : chr_file_t)] X (by decide)
    simpa using hr
  have hpal : ∀ X : List Nat, readBytesInto mkColorTiles.data
      (mkColorTiles.data.flatMap write8 ++ X)
      = (mkColorTiles.data.map (· % 256), X, none) :=
    fun X => readBytesInto_flatMap _ _ _ rfl
  have hpal2 : mkColorTiles.data.map (· % 256) = mkColorTiles.data :=
    map_mod_id _ mkColorTiles_bytes
  have hocm : ocs.length % 256 = ocs.length := Nat.mod_eq_of_lt hoc255
  have hocnz : ocs.length % 256 ≠ 0 := by rw [hocm]; exact hoc0
  rw [hw, read_file_good_header]
  simp only [model_t.read_body, mkModel,
    get8_write8, Nat.zero_mod,
    get_str_write_str [] _ (fun c hc => absurd hc (List.not_mem_nil c)),
    get8t_write8_pos 1 _ (by decide), h1m, hchr,
    hpal, hpal2,
    get8t_write8_pos ocs.length _ hocnz, hocm,
    readClasses_write ocs _ hocs,
    get16_write16, Nat.mod_eq_of_lt hlc,
    readLevels_write ocs lvls _ hlvls]
  rw [show lvls.flatMap (writeLevel ocs) = lvls.flatMap (writeLevel ocs) ++ ([] : List Nat)
    from (List.append_nil _).symm]
  simp only [readLevels_write ocs lvls [] hlvls]

/-- Claim C2 (amended): only the header-stage failures of `read_file` — a
file shorter than the 8-byte header, a wrong magic number, or a version byte
reading (as a signed char) above `SAVE_VERSION` — abort before any mutation
and leave the prior in-memory model untouched.  (Failures after the header
leave the fields already read mutated; see the counterexample.) -/
theorem C2_header_failure_no_mutation (m : model_t) (bs : List Nat) :
    (bs.length < 8 →
      m.read_file bs = (m, some "Unable to read magic number.")) ∧
    (¬ bs.length < 8 → bs.take 7 ≠ strBytes "8x8Fab" ++ [0] →
      m.read_file bs = (m, some "Incorrect magic number.")) ∧
    (¬ bs.length < 8 → bs.take 7 = strBytes "8x8Fab" ++ [0] →
      1 < signedChar (bs.getD 7 0) →
      m.read_file bs = (m, some "File is from a newer version of XFab.")) := by
  refine ⟨?_, ?_, ?_⟩
  · intro h
    unfold model_t.read_file
    rw [if_pos h]
  · intro h hm
    unfold model_t.read_file
    rw [if_neg h, if_pos hm]
  · intro h hm hv
    unfold model_t.read_file
    rw [if_neg h, if_neg (by rw [hm]; exact fun hc => hc rfl), if_pos hv]

/-- Witness for C2 at a three-byte file: too short for the header, the model
comes back untouched. -/
theorem C2_witness :
    ([1, 2, 3] : List Nat).length < 8 ∧
    mkModel.read_file [1, 2, 3] = (mkModel, some "Unable to read magic number.") :=
  ⟨by decide, (C2_header_failure_no_mutation mkModel [1, 2, 3]).1 (by decide)⟩

/-- Counterexample to C2 as claimed: a file with a valid header that ends
right after the metatile-size byte aborts with the truncation error, yet the
model has already been mutated (its metatile size became 5), so a fatal
truncated read does not leave the prior state untouched. -/
theorem C2_counterexample :
    (mkModel.read_file [0x38, 0x78, 0x38, 0x46, 0x61, 0x62, 0, 1, 5]).2
      = some "Unable to read 8-bit value." ∧
    (mkModel.read_file [0x38, 0x78, 0x38, 0x46, 0x61, 0x62, 0, 1, 5]).1 ≠ mkModel ∧
    (mkModel.read_file [0x38, 0x78, 0x38, 0x46, 0x61, 0x62, 0, 1, 5]).1.metatile_size
      = 5 := by
  refine ⟨rfl, by decide, rfl⟩

/-! ### Round trip (claim C5) -/

/-- A project whose single level holds a non-rectangular scattered tile
pattern (as a selection fill would leave) on a 4×3 canvas. -/
def patternModel : model_t :=
  { mkModel with
    levels := [{ mkLevel with
      chr_name := strBytes "chr"
      chr_layer_tiles := ⟨4, 3, [0, 5, 0, 0, 7, 0, 0, 9, 0, 0, 2, 0]⟩
      collision_tiles := ⟨4, 3, [0, 0, 0, 0, 1, 0, 0, 0, 0, 0, 0, 0]⟩
      objects := [] }] }

/-- A project with an object class of two fields and two objects, one of
which omits the "locked" field. -/
def objectsModel : model_t :=
  { mkModel with
    object_classes := [⟨strBytes "door", strBytes "doorm", ⟨10, 20, 30⟩,
      [⟨strBytes "U", strBytes "key"⟩, ⟨strBytes "U", strBytes "locked"⟩]⟩]
    levels := [{ mkLevel with
      chr_name := strBytes "chr"
      chr_layer_tiles := ⟨2, 2, [1, 2, 3, 4]⟩
      collision_tiles := ⟨2, 2, [0, 0, 0, 0]⟩
      objects := [
        ⟨⟨1, 2⟩, strBytes "a", strBytes "door",
         [(strBytes "key", strBytes "gold"), (strBytes "locked", strBytes "1")]⟩,
        ⟨⟨3, 4⟩, strBytes "b", strBytes "door",
         [(strBytes "key", strBytes "iron")]⟩] }] }

/-- Claim C5: writing a project to the binary format and reading it back
into a fresh default model reproduces the project exactly — level
dimensions, tile values, palette bytes, class schemas, object field values
with absent fields materialized as their empty default — for the default
project, the scattered-pattern project (both reproduced identically), and
the omitted-field project (reproduced up to the absent-field default, per
`model_t.normalize`); all three loads succeed with no error. -/
theorem C5_round_trip :
    mkModel.read_file mkModel.write_file = (mkModel, none) ∧
    mkModel.read_file patternModel.write_file = (patternModel, none) ∧
    mkModel.read_file objectsModel.write_file = (objectsModel.normalize, none) ∧
    objectsModel.normalize.levels.map (fun lvl => lvl.objects)
      = [[⟨⟨1, 2⟩, strBytes "a", strBytes "door",
           [(strBytes "key", strBytes "gold"), (strBytes "locked", strBytes "1")]⟩,
          ⟨⟨3, 4⟩, strBytes "b", strBytes "door",
           [(strBytes "key", strBytes "iron"), (strBytes "locked", [])]⟩]] := by
  refine ⟨?_, ?_, ?_, by decide⟩
  · exact read_write_spine [⟨strBytes "object", [], ⟨255, 255, 255⟩, []⟩]
      [{ mkLevel with chr_name := strBytes "chr" }] (by decide) (by decide)
      (by decide) (by decide) (by decide)
  · exact read_write_spine [⟨strBytes "object", [], ⟨255, 255, 255⟩, []⟩]
      [{ mkLevel with
          chr_name := strBytes "chr"
          chr_layer_tiles := ⟨4, 3, [0, 5, 0, 0, 7, 0, 0, 9, 0, 0, 2, 0]⟩
          collision_tiles := ⟨4, 3, [0, 0, 0, 0, 1, 0, 0, 0, 0, 0, 0, 0]⟩
          objects := [] }] (by decide) (by decide) (by decide) (by decide) (by decide)
  · exact read_write_spine [⟨strBytes "door", strBytes "doorm", ⟨10, 20, 30⟩,
        [⟨strBytes "U", strBytes "key"⟩, ⟨strBytes "U", strBytes "locked"⟩]⟩]
      [{ mkLevel with
          chr_name := strBytes "chr"
          chr_layer_tiles := ⟨2, 2, [1, 2, 3, 4]⟩
          collision_tiles := ⟨2, 2, [0, 0, 0, 0]⟩
          objects := [
            ⟨⟨1, 2⟩, strBytes "a", strBytes "door",
             [(strBytes "key", strBytes "gold"), (strBytes "locked", strBytes "1")]⟩,
            ⟨⟨3, 4⟩, strBytes "b", strBytes "door",
             [(strBytes "key", strBytes "iron")]⟩] }]
      (by decide) (by decide) (by decide) (by decide) (by decide)

/-! ### Metatile counting (`level_model_t::count_mt`, model.cpp:318-386) -/

/-- The slice of `level_model_t` that `count_mt` touches: the chr layer's
tile grid (`chr_layer.canvas_dimen()` is `chr_layer.tiles.dimen()`), the
collision layer's tile grid, and the chr canvas selector. -/
structure count_level_t where
  chr_tiles : grid_t Nat
  collision_tiles : grid_t Nat
  canvas_selector : select_map_t
  deriving DecidableEq, Repr

/-- The values `0, s, 2s, ...` that a C `for(y = 0; y < n; y += s)` loop
visits when `s > 0`: `ceil(n / s)` iterations. -/
def stepRange (n s : Nat) : List Nat := (List.range ((n + s - 1) / s)).map (· * s)

/-- model.cpp:344-356 / 363-375: the metatile key built at block (x, y) —
the s×s tile values in row order (0 outside the canvas) and the collision
byte (`mt.collision` is a `uint8`). -/
def mtOf (lvl : count_level_t) (d : dimen_t) (s x y : Nat) : List Nat × Nat :=
  ((List.range s).flatMap fun yy => (List.range s).map fun xx =>
     if x + xx < d.w ∧ y + yy < d.h then
       lvl.chr_tiles.data.getD (x + xx + (y + yy) * d.w) 0
     else 0,
   lvl.collision_tiles.data.getD (x / s + y / s * ((d.w + s - 1) / s)) 0 % 256)

/-- model.cpp:318-386 `level_model_t::count_mt`: returns the distinct
metatile count and the updated level.  `s = 0` returns 0 before any mutation;
in select mode the selector is first cleared, then every block whose key's
multiplicity is ≤ `select` has its cells selected. -/
def count_mt (lvl : count_level_t) (metatile_size select : Nat) :
    Nat × count_level_t :=
  let s := metatile_size
  if s = 0 then (0, lvl)
  else
    let lvl1 := if select ≠ 0 then
        { lvl with canvas_selector := lvl.canvas_selector.select_all false }
      else lvl
    let d := lvl1.chr_tiles.dimen
    let blocks := (stepRange d.h s).flatMap fun y =>
      (stepRange d.w s).map fun x => (y, x)
    let keys := blocks.map fun b => mtOf lvl1 d s b.2 b.1
    let lvl2 := if select ≠ 0 then
        blocks.foldl (fun acc b =>
          if keys.count (mtOf lvl1 d s b.2 b.1) ≤ select then
            { acc with canvas_selector :=
                (List.range s).foldl (fun selm yy =>
                  (List.range s).foldl (fun selm2 xx =>
                    selm2.select_coord
                      ⟨((b.2 + xx : Nat) : Int), ((b.1 + yy : Nat) : Int)⟩ true)
                    selm) acc.canvas_selector }
          else acc) lvl1
      else lvl1
    (keys.dedup.length, lvl2)

/-- Every divisor `count_mt` evaluates, in order: the two ceiling divisions
setting up the block ranges, and per visited block the `x / s`, `y / s` and
`(d.w + s - 1) / s` of the key construction, once for the counting pass and
once more per block in the select pass.  No other division occurs. -/
def count_mt_divisors (lvl : count_level_t) (metatile_size select : Nat) :
    List Nat :=
  let s := metatile_size
  if s = 0 then []
  else
    let lvl1 := if select ≠ 0 then
        { lvl with canvas_selector := lvl.canvas_selector.select_all false }
      else lvl
    let d := lvl1.chr_tiles.dimen
    let blocks := (stepRange d.h s).flatMap fun y =>
      (stepRange d.w s).map fun x => (y, x)
    ([s, s] ++ blocks.flatMap fun _ => [s, s, s])
      ++ (if select ≠ 0 then blocks.flatMap fun _ => [s, s, s] else [])

/-- Claim C10: `count_mt` with metatile size 0 returns 0 and leaves the level
(tiles and selector) untouched; with any nonzero metatile size every divisor
it evaluates is the nonzero size itself, so no division by zero occurs (and
the block loop is the total fold over the finitely many stepped blocks). -/
theorem C10_count_mt_safe (lvl : count_level_t) (s select : Nat) (hs : s ≠ 0) :
    count_mt lvl 0 select = (0, lvl) ∧
    ∀ v ∈ count_mt_divisors lvl s select, v ≠ 0 := by
  refine ⟨by unfold count_mt; rw [if_pos rfl], ?_⟩
  intro v hv
  unfold count_mt_divisors at hv
  rw [if_neg hs] at hv
  have hvs : v = s := by
    rcases List.mem_append.mp hv with hv | hv
    · rcases List.mem_append.mp hv with hv | hv
      · simp only [List.mem_cons, List.not_mem_nil, or_false] at hv
        rcases hv with hv | hv <;> exact hv
      · obtain ⟨b, hb, hv⟩ := List.mem_flatMap.mp hv
        simp only [List.mem_cons, List.not_mem_nil, or_false] at hv
        rcases hv with hv | hv | hv <;> exact hv
    · split at hv
      · obtain ⟨b, hb, hv⟩ := List.mem_flatMap.mp hv
        simp only [List.mem_cons, List.not_mem_nil, or_false] at hv
        rcases hv with hv | hv | hv <;> exact hv
      · exact absurd hv (List.not_mem_nil v)
  rw [hvs]
  exact hs

/-- Witness for C10 at a 4×4 level with metatile size 2 in select mode. -/
theorem C10_witness :
    ((2 : Nat) ≠ 0) ∧
    (count_mt ⟨⟨4, 4, List.replicate 16 0⟩, ⟨2, 2, List.replicate 4 0⟩,
        select_map_t.init ⟨4, 4⟩⟩ 0 1
      = (0, ⟨⟨4, 4, List.replicate 16 0⟩, ⟨2, 2, List.replicate 4 0⟩,
          select_map_t.init ⟨4, 4⟩⟩) ∧
     ∀ v ∈ count_mt_divisors ⟨⟨4, 4, List.replicate 16 0⟩,
        ⟨2, 2, List.replicate 4 0⟩, select_map_t.init ⟨4, 4⟩⟩ 2 1, v ≠ 0) :=
  ⟨by decide, C10_count_mt_safe _ 2 1 (by decide)⟩

/-- Witness for C3 (amended) at the two-block 16×8 image whose second block
is fully transparent: the conversion emits both blocks' bytes, records one
index entry per block, and the transparent step leaves the counter alone. -/
theorem C3_witness :
    16 % 8 = 0 ∧ 8 % 8 = 0 ∧
    chrBlockList 16 8 = [((0 : Nat), (0 : Nat)), (0, 8)] ∧
    blockTransparency (decodeImage (16 * 8) chrDemoImage).2 16 8 0 = (true, false) ∧
    (png_to_chr 16 8 chrDemoImage
      = Except.ok
          (([((0 : Nat), (0 : Nat)), (0, 8)]).flatMap
             (fun c => chrBlock (decodeImage (16 * 8) chrDemoImage).1 16 c.2 c.1),
           (chrBlocksFold (decodeImage (16 * 8) chrDemoImage).1
              (decodeImage (16 * 8) chrDemoImage).2 16
              [((0 : Nat), (0 : Nat)), (0, 8)]).2.1) ∧
     (chrBlock (decodeImage (16 * 8) chrDemoImage).1 16 8 0).length = 16 ∧
     (chrBlocksFold (decodeImage (16 * 8) chrDemoImage).1
        (decodeImage (16 * 8) chrDemoImage).2 16
        [((0 : Nat), (0 : Nat)), (0, 8)]).2.1.length
       = ([((0 : Nat), (0 : Nat)), (0, 8)] : List (Nat × Nat)).length ∧
     chrBlocksFold (decodeImage (16 * 8) chrDemoImage).1
        (decodeImage (16 * 8) chrDemoImage).2 16 [((0 : Nat), (0 : Nat)), (0, 8)]
       = ((chrBlocksFold (decodeImage (16 * 8) chrDemoImage).1
             (decodeImage (16 * 8) chrDemoImage).2 16 [((0 : Nat), (0 : Nat))]).1
            ++ chrBlock (decodeImage (16 * 8) chrDemoImage).1 16 8 0,
          (chrBlocksFold (decodeImage (16 * 8) chrDemoImage).1
             (decodeImage (16 * 8) chrDemoImage).2 16 [((0 : Nat), (0 : Nat))]).2.1
            ++ [(chrBlocksFold (decodeImage (16 * 8) chrDemoImage).1
                   (decodeImage (16 * 8) chrDemoImage).2 16
                   [((0 : Nat), (0 : Nat))]).2.2],
          (chrBlocksFold (decodeImage (16 * 8) chrDemoImage).1
             (decodeImage (16 * 8) chrDemoImage).2 16 [((0 : Nat), (0 : Nat))]).2.2) ∧
     (∀ (s : List Nat × List Nat × Nat) (c : Nat × Nat),
       (blockTransparency (decodeImage (16 * 8) chrDemoImage).2 16 c.2 c.1).2 = true →
       chrStep (decodeImage (16 * 8) chrDemoImage).1
           (decodeImage (16 * 8) chrDemoImage).2 16 s c
         = (s.1 ++ chrBlock (decodeImage (16 * 8) chrDemoImage).1 16 c.2 c.1,
            s.2.1 ++ [(s.2.2 + 1) % 65536], (s.2.2 + 1) % 65536))) := by
  refine ⟨by decide, by decide, by decide, by decide, ?_⟩
  exact C3_transparent_block 16 8 chrDemoImage [(0, 0)] [] (0, 8)
    (by decide) (by decide) (by decide) (by decide)

end Rpged
